import Mathlib

/-!
# The bar renderer of `include/components/bar.hpp`

A shallow embedding of the stateful part of `class bar`: the parse cycle, the
signal handlers the markup interpreter drives, the shift arithmetic of the
center and right zones, the list of clickable areas and the button press
handler.

Conventions of the embedding.

* C++ `int` is `Int`. Signed overflow is undefined behaviour in C++, so the
  model describes the executions in which no `int` overflows. `/` and `%` on
  `int` truncate toward zero: `Int.tdiv` and `Int.tmod`.
* The X connection, the pixmap and the logger are collaborators. Every call
  that paints goes to the trace `bar.canvas`, every `warn` and `err` message to
  the trace `bar.log`, both in program order. Messages of level `trace` and
  `info` are not recorded.
* `components/types.hpp`, the font manager, `string_util` and the
  implementation of `parser` live outside `bar.hpp`. Their declarations are
  reconstructed below from the way `bar.hpp` uses them, and their functions
  are parameters of the definitions that call them.
-/

namespace polybar

/-! ## Types of `components/types.hpp`, as `bar.hpp` uses them -/

/-- Alignment zone, `enum class alignment`. -/
inductive alignment where
  | NONE
  | LEFT
  | CENTER
  | RIGHT
  deriving DecidableEq, Repr

/-- Edge selector, `enum class border`. -/
inductive border where
  | NONE
  | TOP
  | BOTTOM
  | LEFT
  | RIGHT
  | ALL
  deriving DecidableEq, Repr

/-- Graphic context selector, `enum class gc`. -/
inductive gc where
  | NONE
  | BG
  | FG
  | OL
  | UL
  | BT
  | BB
  | BL
  | BR
  deriving DecidableEq, Repr

/-- Mouse button, `enum class mousebtn : uint8_t`, kept as its underlying value
because `handle` casts the raw `detail` byte of the event to it. -/
abbrev mousebtn := Nat

/-- Modelled from the spec: the enumerator values of `mousebtn` are declared in
the missing `components/types.hpp`; an unspecified button is `NONE`. -/
def mousebtn.NONE : mousebtn := 0

/-- Modelled from the spec: buttons are numbered 1 to 5 and the left button,
the default of an action block, is the first of them. -/
def mousebtn.LEFT : mousebtn := 1

/-- Modelled from the spec: the overline bit of `enum class attribute`, whose
values are declared in the missing `components/types.hpp`. -/
def attribute.o : Nat := 2

/-- Modelled from the spec: the underline bit of `enum class attribute`. -/
def attribute.u : Nat := 4

/-- Clickable area, `struct action_block`. The coordinates are taken as `int`,
the type of the cursor they are assigned from. -/
structure action_block where
  active : Bool
  align : alignment
  button : mousebtn
  start_x : Int
  end_x : Int
  command : String
  deriving DecidableEq, Repr

/-- One edge of `m_borders`, `struct border_settings`. -/
structure border_settings where
  size : Int
  color : Nat
  deriving DecidableEq, Repr

/-- The four entries `bootstrap` puts into `map<border, border_settings>`. -/
structure border_map where
  TOP : border_settings
  BOTTOM : border_settings
  LEFT : border_settings
  RIGHT : border_settings
  deriving DecidableEq, Repr

/-- The fields of `struct bar_settings` the renderer reads or writes. -/
structure bar_settings where
  width : Int
  height : Int
  vertical_mid : Int
  lineheight : Int
  align : alignment
  deriving DecidableEq, Repr

/-- The fields of `struct tray_settings` the renderer reads; the three sizes are
unsigned (`on_tray_report` receives the slot count as `uint16_t`). -/
structure tray_settings where
  align : alignment
  slots : Nat
  width : Nat
  spacing : Nat
  deriving DecidableEq, Repr

/-- What `draw_character` reads from a matched font. `ptr` is the `xcb_font_t`
id (0 when there is none), `xft` tells whether the xft pointer is set. -/
structure font_t where
  ptr : Nat
  xft : Bool
  height : Int
  descent : Int
  offset_y : Int
  deriving DecidableEq, Repr

/-- The two queries of the font collaborator. `match_char` sees the preferred
font index last given to `set_preferred_font`; `none` is the null handle. -/
structure fontmanager where
  match_char : Int → Nat → Option font_t
  char_width : font_t → Nat → Int

/-! ## Traces of the collaborators -/

/-- A painting call, with the arguments the source passes. -/
inductive canvas_op where
  /-- Call `draw_util::fill(m_connection, m_pixmap, gc, x, y, w, h)` -/
  | fill (g : gc) (x y w h : Int)
  /-- Call `m_connection.copy_area(m_pixmap, m_pixmap, gc, src_x, src_y, dst_x, dst_y, w, h)` -/
  | copy_area (g : gc) (src_x src_y dst_x dst_y w h : Int)
  /-- Call `m_connection.copy_area(m_pixmap, m_window, gc, 0, 0, 0, 0, w, h)` -/
  | copy_to_window (g : gc) (w h : Int)
  /-- Call `XftDrawString16(m_xftdraw, &color, font->xft, x, y, &character, 1)` -/
  | xft_draw_string16 (x y : Int) (character : Nat)
  /-- Call `draw_util::xcb_poly_text_16_patched(..., gc::FG, x, y, 1, &character)` -/
  | xcb_poly_text_16 (x y : Int) (character : Nat)
  /-- Call `m_fontmanager->set_gcontext_font(gc::FG, m_gcfont)` -/
  | set_gcontext_font (font : Nat)
  /-- Call `m_connection.change_gc(gc, XCB_GC_FOREGROUND, value_list)` -/
  | change_gc (g : gc) (color : Nat)
  /-- Call `m_fontmanager->allocate_color(color)` -/
  | allocate_color (color : Nat)
  deriving DecidableEq, Repr

/-- A message of level `warn` or `err`. -/
inductive log_entry where
  /-- Message `m_log.err("Unrecognized syntax token '%s'", err.what())` -/
  | unrecognized_token (what : String)
  /-- Message `m_log.warn("No suitable font found for character at index %i", character)` -/
  | no_suitable_font (character : Nat)
  /-- Message `m_log.warn("Action block not closed")` followed by its command -/
  | action_block_not_closed (command : String)
  /-- Message `m_log.warn("No signal handler's connected to 'action_click'")` -/
  | no_signal_handler
  /-- Message `m_log.warn("No matching input area found")` -/
  | no_matching_input_area
  deriving DecidableEq, Repr

/-! ## The state of the bar -/

/-- The members of `class bar` that `parse`, the handlers and `handle` touch,
the preferred font index held by the font manager, and the two traces. -/
structure bar where
  m_bar : bar_settings
  m_tray : tray_settings
  m_borders : border_map
  m_actions : List action_block
  m_prevdata : String
  m_xpos : Int
  m_attributes : Nat
  m_gcfont : Nat
  preferred_font : Int
  canvas : List canvas_op
  log : List log_entry
  deriving DecidableEq, Repr

/-- A bar right after construction and `bootstrap`: the default member
initialisers (`m_prevdata` empty, `m_xpos{0}`, `m_attributes{0}`, `m_gcfont{0}`,
no action) around the settings the bootstrap computed. -/
def bar.construct (m_bar : bar_settings) (m_tray : tray_settings) (m_borders : border_map)
    (preferred_font : Int) : bar :=
  { m_bar := m_bar, m_tray := m_tray, m_borders := m_borders, m_actions := [],
    m_prevdata := "", m_xpos := 0, m_attributes := 0, m_gcfont := 0,
    preferred_font := preferred_font, canvas := [], log := [] }

/-- Append one painting call to the canvas trace. -/
def bar.paint (s : bar) (op : canvas_op) : bar :=
  { s with canvas := s.canvas ++ [op] }

/-- Append one message to the log trace. -/
def bar.warn (s : bar) (e : log_entry) : bar :=
  { s with log := s.log ++ [e] }

/-! ## Signals of the markup interpreter -/

/-- One emission of a `parser_signals` signal, with its arguments. -/
inductive directive where
  | alignment_change (align : alignment)
  | attribute_set (attr : Nat)
  | attribute_unset (attr : Nat)
  | attribute_toggle (attr : Nat)
  | action_block_open (btn : mousebtn) (cmd : String)
  | action_block_close (btn : mousebtn)
  | color_change (g : gc) (color : Nat)
  | font_change (index : Int)
  | pixel_offset (px : Int)
  | ascii_text_write (character : Nat)
  | unicode_text_write (character : Nat)
  deriving DecidableEq, Repr

/-- What one run `parser(data)` does as seen from the bar: the signals it emits,
in order, and the `unrecognized_token` it may end with. -/
structure parser_result where
  signals : List directive
  thrown : Option String
  deriving DecidableEq, Repr

/-- The interpreter `parser parser(m_bar); parser(data)`: its implementation is
not among the sources, so the definitions below take it as a parameter. -/
abbrev parser := bar_settings → String → parser_result

/-- Replace every character `needle` of a character list by `rep`. -/
def replace_all_chars (needle : Char) (rep : List Char) : List Char → List Char
  | [] => []
  | c :: cs =>
    if c = needle then rep ++ replace_all_chars needle rep cs
    else c :: replace_all_chars needle rep cs

/-- Modelled from the spec: `string_util::replace_all` of the missing
`utils/string.hpp`, for a one character needle; every occurrence of the needle
is replaced, scanning left to right. -/
def string_util.replace_all (haystack : String) (needle : Char) (replacement : String) : String :=
  String.mk (replace_all_chars needle replacement.data haystack.data)

/-! ## Handlers of the signals -/

/-- Source `bar::on_alignment_change`. -/
def on_alignment_change (s : bar) (align : alignment) : bar :=
  if align = s.m_bar.align then s
  else
    let s := { s with m_bar := { s.m_bar with align := align } }
    if align = alignment.LEFT then { s with m_xpos := s.m_borders.LEFT.size }
    else if align = alignment.RIGHT then { s with m_xpos := s.m_borders.RIGHT.size }
    else { s with m_xpos := 0 }

/-- Source `bar::on_attribute_set`. -/
def on_attribute_set (s : bar) (attr : Nat) : bar :=
  let val := attr
  if (s.m_attributes &&& val) ≠ 0 then s
  else { s with m_attributes := s.m_attributes ||| val }

/-- Source `bar::on_attribute_unset`. -/
def on_attribute_unset (s : bar) (attr : Nat) : bar :=
  let val := attr
  if (s.m_attributes &&& val) = 0 then s
  else { s with m_attributes := s.m_attributes ^^^ val }

/-- Source `bar::on_attribute_toggle`. -/
def on_attribute_toggle (s : bar) (attr : Nat) : bar :=
  let val := attr
  { s with m_attributes := s.m_attributes ^^^ val }

/-- Source `bar::on_action_block_open`. The new area is default constructed and
its `end_x` is not assigned here; the model gives it the value 0. -/
def on_action_block_open (s : bar) (btn : mousebtn) (cmd : String) : bar :=
  let btn := if btn = mousebtn.NONE then mousebtn.LEFT else btn
  let action : action_block :=
    { active := true, align := s.m_bar.align, button := btn, start_x := s.m_xpos,
      end_x := 0, command := string_util.replace_all cmd ':' "\\:" }
  { s with m_actions := s.m_actions ++ [action] }

/-- The body of the loop of `bar::on_action_block_close` once the area to close
is found: clear `active` and fix the extent by the zone the area was opened in. -/
def close_action (s : bar) (action : action_block) : action_block :=
  let action := { action with active := false }
  if action.align = alignment.LEFT then
    { action with end_x := s.m_xpos }
  else if action.align = alignment.CENTER then
    let base_x := s.m_bar.width
    let base_x := base_x - s.m_borders.RIGHT.size
    let base_x := base_x.tdiv 2
    let base_x := base_x + s.m_borders.LEFT.size
    let clickable_width := s.m_xpos - action.start_x
    let action :=
      { action with start_x := base_x - clickable_width.tdiv 2 + action.start_x.tdiv 2 }
    { action with end_x := action.start_x + clickable_width }
  else if action.align = alignment.RIGHT then
    let base_x := s.m_bar.width - s.m_borders.RIGHT.size
    let action := { action with start_x := base_x - s.m_xpos + action.start_x }
    { action with end_x := base_x }
  else action

/-- The loop `for (auto i = m_actions.size(); i > 0; i--)` of
`bar::on_action_block_close`, from counter value `i` on. -/
def close_scan (s : bar) (btn : mousebtn) : Nat → List action_block → List action_block
  | 0, actions => actions
  | i + 1, actions =>
    match actions.get? i with
    | none => actions
    | some action =>
      if !action.active || action.button != btn then close_scan s btn i actions
      else actions.set i (close_action s action)

/-- Source `bar::on_action_block_close`. -/
def on_action_block_close (s : bar) (btn : mousebtn) : bar :=
  { s with m_actions := close_scan s btn s.m_actions.length s.m_actions }

/-- Source `bar::on_color_change`. -/
def on_color_change (s : bar) (gc_ : gc) (color_ : Nat) : bar :=
  let s := s.paint (canvas_op.change_gc gc_ color_)
  if gc_ = gc.FG then s.paint (canvas_op.allocate_color color_) else s

/-- Source `bar::on_font_change`. -/
def on_font_change (s : bar) (index : Int) : bar :=
  { s with preferred_font := index }

/-- The loop body of `draw_shift` over `m_actions`: closed areas of the active
zone move by `delta`, the others are skipped. -/
def shift_action (align : alignment) (delta : Int) (action : action_block) : action_block :=
  if action.active || action.align != align then action
  else { action with start_x := action.start_x - delta, end_x := action.end_x - delta }

/-- The part of `bar::draw_shift` after the zone dependent copy: fill the place
of the new glyph, translate the clickable areas, return `x`. -/
def draw_shift_finish (s : bar) (x chr_width delta : Int) : bar × Int :=
  let s := s.paint (canvas_op.fill gc.BG x 0 chr_width s.m_bar.height)
  let s :=
    if s.m_bar.align ≠ alignment.LEFT then
      { s with m_actions := s.m_actions.map (shift_action s.m_bar.align delta) }
    else s
  (s, x)

/-- Source `bar::draw_shift`. -/
def draw_shift (s : bar) (x chr_width : Int) : bar × Int :=
  let delta := chr_width
  if s.m_bar.align = alignment.CENTER then
    let base_x := s.m_bar.width
    let base_x := base_x - s.m_borders.RIGHT.size
    let base_x := base_x.tdiv 2
    let base_x := base_x + s.m_borders.LEFT.size
    let s := s.paint (canvas_op.copy_area gc.FG (base_x - x.tdiv 2) 0
      (base_x - (x + chr_width).tdiv 2) 0 x s.m_bar.height)
    draw_shift_finish s (base_x - (x + chr_width).tdiv 2 + x) chr_width (delta.tdiv 2)
  else if s.m_bar.align = alignment.RIGHT then
    let s := s.paint (canvas_op.copy_area gc.FG (s.m_bar.width - x) 0
      (s.m_bar.width - x - chr_width) 0 x s.m_bar.height)
    draw_shift_finish s (s.m_bar.width - chr_width - s.m_borders.RIGHT.size) chr_width delta
  else draw_shift_finish s x chr_width delta

/-- Source `bar::on_pixel_offset`. -/
def on_pixel_offset (s : bar) (px : Int) : bar :=
  let s := (draw_shift s s.m_xpos px).1
  { s with m_xpos := s.m_xpos + px }

/-- Source `bar::draw_background`. -/
def draw_background (s : bar) : bar :=
  s.paint (canvas_op.fill gc.BG 0 0 s.m_bar.width s.m_bar.height)

/-- Source `bar::draw_lines`. -/
def draw_lines (s : bar) (x w : Int) : bar :=
  if s.m_bar.lineheight = 0 then s
  else
    let s :=
      if (s.m_attributes &&& attribute.o) ≠ 0 then
        s.paint (canvas_op.fill gc.OL x s.m_borders.TOP.size w s.m_bar.lineheight)
      else s
    if (s.m_attributes &&& attribute.u) ≠ 0 then
      s.paint (canvas_op.fill gc.UL x
        (s.m_bar.height - s.m_borders.BOTTOM.size - s.m_bar.lineheight) w s.m_bar.lineheight)
    else s

/-- The byte swap `(character >> 8) | (character << 8)` stored back into a
`uint16_t`. -/
def swap_bytes (character : Nat) : Nat :=
  ((character >>> 8) ||| (character <<< 8)) % 65536

/-- Source `bar::draw_character`. -/
def draw_character (fm : fontmanager) (s : bar) (character : Nat) : bar :=
  match fm.match_char s.preferred_font character with
  | none => s.warn (log_entry.no_suitable_font character)
  | some font =>
    let s :=
      if font.ptr ≠ 0 ∧ font.ptr ≠ s.m_gcfont then
        ({ s with m_gcfont := font.ptr }).paint (canvas_op.set_gcontext_font font.ptr)
      else s
    let chr_width := fm.char_width font character
    let chr_width :=
      if s.m_bar.align = alignment.CENTER ∧ chr_width.tmod 2 ≠ 0 then chr_width + 1
      else chr_width
    let r := draw_shift s s.m_xpos chr_width
    let s := r.1
    let x := r.2
    let y := s.m_bar.vertical_mid + font.height.tdiv 2 - font.descent + font.offset_y
    let s :=
      if font.xft then s.paint (canvas_op.xft_draw_string16 x y character)
      else s.paint (canvas_op.xcb_poly_text_16 x y (swap_bytes character))
    let s := draw_lines s x chr_width
    { s with m_xpos := s.m_xpos + chr_width }

/-! ## The parse cycle -/

/-- Deliver one signal to the handler `bootstrap` connects to it. -/
def dispatch (fm : fontmanager) (s : bar) : directive → bar
  | directive.alignment_change align => on_alignment_change s align
  | directive.attribute_set attr => on_attribute_set s attr
  | directive.attribute_unset attr => on_attribute_unset s attr
  | directive.attribute_toggle attr => on_attribute_toggle s attr
  | directive.action_block_open btn cmd => on_action_block_open s btn cmd
  | directive.action_block_close btn => on_action_block_close s btn
  | directive.color_change g color => on_color_change s g color
  | directive.font_change index => on_font_change s index
  | directive.pixel_offset px => on_pixel_offset s px
  | directive.ascii_text_write character => draw_character fm s character
  | directive.unicode_text_write character => draw_character fm s character

/-- Deliver the signals of a run of the interpreter, in order. -/
def run_signals (fm : fontmanager) (s : bar) (signals : List directive) : bar :=
  signals.foldl (dispatch fm) s

/-- One case of `bar::draw_border` for a single edge. -/
def draw_border_edge (s : bar) : border → bar
  | border.TOP =>
    if s.m_borders.TOP.size > 0 then
      s.paint (canvas_op.fill gc.BT s.m_borders.LEFT.size 0
        (s.m_bar.width - s.m_borders.LEFT.size - s.m_borders.RIGHT.size) s.m_borders.TOP.size)
    else s
  | border.BOTTOM =>
    if s.m_borders.BOTTOM.size > 0 then
      s.paint (canvas_op.fill gc.BB s.m_borders.LEFT.size
        (s.m_bar.height - s.m_borders.BOTTOM.size)
        (s.m_bar.width - s.m_borders.LEFT.size - s.m_borders.RIGHT.size)
        s.m_borders.BOTTOM.size)
    else s
  | border.LEFT =>
    if s.m_borders.LEFT.size > 0 then
      s.paint (canvas_op.fill gc.BL 0 0 s.m_borders.LEFT.size s.m_bar.height)
    else s
  | border.RIGHT =>
    if s.m_borders.RIGHT.size > 0 then
      s.paint (canvas_op.fill gc.BR (s.m_bar.width - s.m_borders.RIGHT.size) 0
        s.m_borders.RIGHT.size s.m_bar.height)
    else s
  | _ => s

/-- Source `bar::draw_border`. -/
def draw_border (s : bar) (border_ : border) : bar :=
  match border_ with
  | border.ALL =>
    let s := draw_border_edge s border.TOP
    let s := draw_border_edge s border.BOTTOM
    let s := draw_border_edge s border.LEFT
    draw_border_edge s border.RIGHT
  | b => draw_border_edge s b

/-- The loop of `bar::flush` over `m_actions`: an area still open is reported. -/
def flush_actions (s : bar) : List action_block → bar
  | [] => s
  | action :: rest =>
    if action.active then
      flush_actions (s.warn (log_entry.action_block_not_closed action.command)) rest
    else flush_actions s rest

/-- Source `bar::flush`. -/
def flush (s : bar) : bar :=
  let s := s.paint (canvas_op.copy_to_window gc.FG s.m_bar.width s.m_bar.height)
  let s := s.paint (canvas_op.copy_to_window gc.BT s.m_bar.width s.m_bar.height)
  let s := s.paint (canvas_op.copy_to_window gc.BB s.m_bar.width s.m_bar.height)
  let s := s.paint (canvas_op.copy_to_window gc.BL s.m_bar.width s.m_bar.height)
  let s := s.paint (canvas_op.copy_to_window gc.BR s.m_bar.width s.m_bar.height)
  flush_actions s s.m_actions

/-- The width `((m_tray.width + m_tray.spacing) * m_tray.slots) + m_tray.spacing`
that `parse` reserves for the tray. -/
def tray_reservation (t : tray_settings) : Int :=
  (((t.width + t.spacing) * t.slots + t.spacing : Nat) : Int)

/-- The statements of `bar::parse` from `m_prevdata = data` up to the start of
the interpreter: record the text, reset the render state, clear the areas, draw
the background and reserve the room of a left tray. -/
def parse_reset (s : bar) (data : String) : bar :=
  let s := { s with m_prevdata := data }
  let s := { s with m_bar := { s.m_bar with align := alignment.LEFT } }
  let s := { s with m_xpos := s.m_borders.LEFT.size }
  let s := { s with m_attributes := 0 }
  let s := { s with m_actions := [] }
  let s := draw_background s
  if s.m_tray.align = alignment.LEFT ∧ s.m_tray.slots ≠ 0 then
    { s with m_xpos := s.m_xpos + tray_reservation s.m_tray }
  else s

/-- The `try` block of `bar::parse`: the signals reach the handlers one by one
and an `unrecognized_token` ending the run is logged. -/
def parse_interpret (p : parser) (fm : fontmanager) (s : bar) (data : String) : bar :=
  let r := p s.m_bar data
  let s := run_signals fm s r.signals
  match r.thrown with
  | none => s
  | some what => s.warn (log_entry.unrecognized_token what)

/-- The statements of `bar::parse` after the interpreter: make room for a right
tray, draw the borders, flush. -/
def parse_finish (s : bar) : bar :=
  let s :=
    if s.m_tray.align = alignment.RIGHT ∧ s.m_tray.slots ≠ 0 then
      (draw_shift s s.m_xpos (tray_reservation s.m_tray)).1
    else s
  let s := draw_border s border.ALL
  flush s

/-- The render of `bar::parse`, everything below the early return. -/
def render (p : parser) (fm : fontmanager) (s : bar) (data : String) : bar :=
  parse_finish (parse_interpret p fm (parse_reset s data) data)

/-- Source `bar::parse`. -/
def parse (p : parser) (fm : fontmanager) (s : bar) (data : String) (force : Bool) : bar :=
  if data = s.m_prevdata ∧ force = false then s
  else render p fm s data

/-- Source `bar::on_tray_report`. -/
def on_tray_report (p : parser) (fm : fontmanager) (s : bar) (slots : Nat) : bar :=
  if s.m_tray.slots = slots then s
  else
    let s := { s with m_tray := { s.m_tray with slots := slots } }
    if s.m_prevdata ≠ "" then parse p fm s s.m_prevdata true else s

/-! ## Button press -/

/-- The loop of `bar::handle(const evt::button_press&)` over `m_actions`, and the
warning after it. `connected` tells whether `bar_signals::action_click` has a
handler; the second component is the command given to `action_click.emit`. -/
def handle_scan (connected : Bool) (s : bar) (button : mousebtn) (event_x : Int) :
    List action_block → bar × Option String
  | [] => (s.warn log_entry.no_matching_input_area, none)
  | action :: rest =>
    if action.active then handle_scan connected s button event_x rest
    else if action.button ≠ button then handle_scan connected s button event_x rest
    else if action.start_x > event_x then handle_scan connected s button event_x rest
    else if action.end_x < event_x then handle_scan connected s button event_x rest
    else if connected then (s, some action.command)
    else (s.warn log_entry.no_signal_handler, none)

/-- Source `bar::handle(const evt::button_press&)`, for an event with button
byte `detail` at horizontal position `event_x`. -/
def handle (connected : Bool) (s : bar) (detail : Nat) (event_x : Int) : bar × Option String :=
  let button : mousebtn := detail
  handle_scan connected s button event_x s.m_actions

/-! ## Reading the traces, and sample collaborators -/

/-- The horizontal position of a glyph drawing call, `none` for the other calls. -/
def glyph_x : canvas_op → Option Int
  | canvas_op.xft_draw_string16 x _ _ => some x
  | canvas_op.xcb_poly_text_16 x _ _ => some x
  | _ => none

/-- The positions at which the glyphs of a canvas trace were drawn, in order. -/
def glyph_xs (canvas : List canvas_op) : List Int :=
  canvas.filterMap glyph_x

/-- The width `char_width(font, character)` of the font matched for a character
under the preferred font index `pf`, and 0 when no font matches. -/
def glyph_width (fm : fontmanager) (pf : Int) (character : Nat) : Int :=
  match fm.match_char pf character with
  | none => 0
  | some font => fm.char_width font character

/-- The cursor positions `x0, x0 + w1, x0 + w1 + w2, ...` before each glyph of a
run of widths `w1, w2, ...`. -/
def run_xs (x0 : Int) : List Int → List Int
  | [] => []
  | w :: ws => x0 :: run_xs (x0 + w) ws

/-- A font collaborator for the examples: character 0 has no font, every other
character is 7 pixels wide plus its code modulo 4. -/
def sample_fontmanager : fontmanager :=
  { match_char := fun _ c => if c = 0 then none else some ⟨1, true, 10, 2, 0⟩,
    char_width := fun _ c => 7 + ((c % 4 : Nat) : Int) }

/-- An interpreter for the examples: every character of the text is emitted as
literal text and nothing is thrown. -/
def sample_interpreter : parser :=
  fun _ data => ⟨data.data.map (fun c => directive.ascii_text_write c.toNat), none⟩

/-- Geometry for the examples: a bar 200 wide and 24 high. -/
def sample_settings : bar_settings :=
  { width := 200, height := 24, vertical_mid := 12, lineheight := 2, align := alignment.LEFT }

/-- Borders for the examples: 2 on the left, 4 on the right, none above and below. -/
def sample_borders : border_map :=
  { TOP := ⟨0, 0⟩, BOTTOM := ⟨0, 0⟩, LEFT := ⟨2, 0⟩, RIGHT := ⟨4, 0⟩ }

/-- No tray. -/
def sample_no_tray : tray_settings :=
  { align := alignment.NONE, slots := 0, width := 16, spacing := 2 }

/-- A left tray with three slots of width 16 and spacing 2. -/
def sample_left_tray : tray_settings :=
  { align := alignment.LEFT, slots := 3, width := 16, spacing := 2 }

/-- A freshly constructed bar for the examples, without a tray. -/
def sample_bar : bar :=
  bar.construct sample_settings sample_no_tray sample_borders 0

/-- Consecutive calls of `draw_character`, one for each character of a run. -/
def draw_characters (fm : fontmanager) (s : bar) (characters : List Nat) : bar :=
  characters.foldl (draw_character fm) s

/-- The measured widths of the characters of a run. -/
def run_widths (fm : fontmanager) (pf : Int) (characters : List Nat) : List Int :=
  characters.map (glyph_width fm pf)

/-- Whether a signal neither draws a glyph nor names a zone. -/
def directive.is_style : directive → Bool
  | directive.alignment_change _ => false
  | directive.ascii_text_write _ => false
  | directive.unicode_text_write _ => false
  | _ => true

/-- The pixels a signal asks the cursor to move by without drawing a glyph. -/
def directive.px : directive → Int
  | directive.pixel_offset px => px
  | _ => 0

/-- The preferred font index after a signal, given the one before it. -/
def directive.font (pf : Int) : directive → Int
  | directive.font_change index => index
  | _ => pf

/-- The first effect of `draw_character` on a matched font: make it the font of
the foreground context unless it has no id or already is. -/
def select_font (s : bar) (font : font_t) : bar :=
  if font.ptr ≠ 0 ∧ font.ptr ≠ s.m_gcfont then
    ({ s with m_gcfont := font.ptr }).paint (canvas_op.set_gcontext_font font.ptr)
  else s

/-- The width `draw_character` works with: the measured width, plus one when
the zone is Center and the measured width is odd. -/
def corrected_width (z : alignment) (chr_width : Int) : Int :=
  if z = alignment.CENTER ∧ chr_width.tmod 2 ≠ 0 then chr_width + 1 else chr_width

/-- The glyph drawing call of `draw_character`, by the kind of the font. -/
def glyph_op (font : font_t) (x y : Int) (character : Nat) : canvas_op :=
  if font.xft then canvas_op.xft_draw_string16 x y character
  else canvas_op.xcb_poly_text_16 x y (swap_bytes character)

/-- Whether a click of `button` at `event_x` falls on an area, in the words of
the specification: the area is closed, is bound to the button, and
`start_x <= event_x <= end_x`. -/
def hit (button : mousebtn) (event_x : Int) (a : action_block) : Bool :=
  !a.active && a.button == button && decide (a.start_x ≤ event_x) && decide (event_x ≤ a.end_x)

/-- The closed area `{button = Left, start_x = 10, end_x = 50, command = "cmd"}`
of the click routing example. -/
def sample_region : action_block :=
  { active := false, align := alignment.LEFT, button := mousebtn.LEFT, start_x := 10,
    end_x := 50, command := "cmd" }

/-- The amount by which `draw_shift` translates the closed areas of the active
zone for a width `chr_width`: the width itself, halved in the Center zone
(`delta /= 2`). -/
def shift_delta (z : alignment) (chr_width : Int) : Int :=
  if z = alignment.CENTER then chr_width.tdiv 2 else chr_width

/-- The block copies of a canvas trace, in order, each as the source position,
the destination position and the width of the copied strip. -/
def copy_moves : List canvas_op → List (Int × Int × Int)
  | [] => []
  | canvas_op.copy_area _ src_x _ dst_x _ w _ :: ops => (src_x, dst_x, w) :: copy_moves ops
  | _ :: ops => copy_moves ops

/-- Source `math_util::cap` of `utils/math.hpp`, for a value type with a linear
order (`std::min` followed by `std::max`). -/
def math_util.cap {α : Type} [LinearOrder α] (value min_value max_value : α) : α :=
  let value := min value max_value
  let value := max value min_value
  value

/-- The bounds check of `bar::bootstrap` and the two calls of `math_util::cap`
after it, on the width and height computed so far and the size of the monitor.
The result is the message of the `application_error` thrown, or the width and
height stored into `m_bar`. -/
def bootstrap_bounds (width height monitor_w monitor_h : Int) : Except String (Int × Int) :=
  if width ≤ 0 ∨ width > monitor_w then
    Except.error "Resulting bar width is out of bounds"
  else if height ≤ 0 ∨ height > monitor_h then
    Except.error "Resulting bar height is out of bounds"
  else
    Except.ok (math_util.cap width 0 monitor_w, math_util.cap height 0 monitor_h)

/-! ## The markup interpreter, from the specification -/

/-- Add signals in front of the outcome of the rest of a run. -/
def parser_result.emit (ds : List directive) (r : parser_result) : parser_result :=
  { signals := ds ++ r.signals, thrown := r.thrown }

/-- Mark a run as failed with `UnrecognizedToken` for a token; the signals of the
rest of the run stay, and the token met first is the one carried. -/
def parser_result.fail_with (token : String) (r : parser_result) : parser_result :=
  { signals := r.signals, thrown := some token }

/-- Where the scan of the markup stands: in literal text, between the `%` and
the `{` of a directive, or inside the braces with the characters read so far. -/
inductive scan_mode where
  | text
  | brace
  | token (acc : List Char)
  deriving DecidableEq, Repr

/-- The signal for one codepoint of literal text. -/
def text_signal (c : Char) : directive :=
  if c.toNat < 128 then directive.ascii_text_write c.toNat
  else directive.unicode_text_write c.toNat

/-- Modelled from the spec: the scan of the markup interpreter, whose
implementation behind `components/parser.hpp` is missing. `%{...}` delimits a
directive and everything else is literal text, emitted one codepoint at a
time. The content of a directive is looked up in the table `recognize` of the
recognized tokens; content the table does not know fails with
`UnrecognizedToken` carrying the token, and the scan skips just that token and
goes on with the remainder of the text. A `%{` that is never closed is literal
text. -/
def interpret_from (recognize : String → Option (List directive)) :
    scan_mode → List Char → parser_result
  | _, [] => { signals := [], thrown := none }
  | scan_mode.text, c :: rest =>
    if c = '%' ∧ rest.head? = some '{' ∧ '}' ∈ rest then
      interpret_from recognize scan_mode.brace rest
    else
      (interpret_from recognize scan_mode.text rest).emit [text_signal c]
  | scan_mode.brace, _ :: rest => interpret_from recognize (scan_mode.token []) rest
  | scan_mode.token acc, c :: rest =>
    if c = '}' then
      match recognize (String.mk acc) with
      | some ds => (interpret_from recognize scan_mode.text rest).emit ds
      | none => (interpret_from recognize scan_mode.text rest).fail_with (String.mk acc)
    else interpret_from recognize (scan_mode.token (acc ++ [c])) rest

/-- Modelled from the spec: the interpreter `interpret(text)` as the bar calls
it, `parser parser(m_bar); parser(data)`, for a table of recognized tokens. The
implementation of `parser` is missing; the failure with `UnrecognizedToken`
reaches the `catch` of `bar::parse` after the signals of the whole text. -/
def interpret (recognize : String → Option (List directive)) : parser :=
  fun _ data => interpret_from recognize scan_mode.text data.data

/-- A table of tokens for the examples: the zone tokens `l`, `c`, `r` and the
attribute tokens for the underline. -/
def sample_tokens (token : String) : Option (List directive) :=
  if token = "l" then some [directive.alignment_change alignment.LEFT]
  else if token = "c" then some [directive.alignment_change alignment.CENTER]
  else if token = "r" then some [directive.alignment_change alignment.RIGHT]
  else if token = "+u" then some [directive.attribute_set attribute.u]
  else if token = "-u" then some [directive.attribute_unset attribute.u]
  else if token = "!u" then some [directive.attribute_toggle attribute.u]
  else none

/-- The character handed to a glyph drawing call, `none` for the other calls. -/
def glyph_char : canvas_op → Option Nat
  | canvas_op.xft_draw_string16 _ _ character => some character
  | canvas_op.xcb_poly_text_16 _ _ character => some character
  | _ => none

/-! ## The order of the two ends of an area -/

/-- Whether some area of the list is still open. -/
def any_open (l : List action_block) : Bool :=
  l.any (fun a => a.active)

/-- Whether a signal may come in a state, by the conditions under which the ends
of the areas stay in order: a pixel offset is not negative, and a zone change
names one of the three zones and either names the active zone or comes while no
area is open. -/
def step_admitted (s : bar) : directive → Bool
  | directive.alignment_change z =>
    z != alignment.NONE && (z == s.m_bar.align || !any_open s.m_actions)
  | directive.pixel_offset px => decide (0 ≤ px)
  | _ => true

/-- Whether every signal of a sequence may come in the state it is delivered
in. -/
def run_admitted (fm : fontmanager) : bar → List directive → Bool
  | _, [] => true
  | s, d :: ds => step_admitted s d && run_admitted fm (dispatch fm s d) ds

/-- Every closed area of the list has `start_x <= end_x`. -/
def closed_ordered (l : List action_block) : Prop :=
  ∀ a ∈ l, a.active = false → a.start_x ≤ a.end_x

/-- Every open area of the list was opened at or before the position `x`, in one
of the three zones. -/
def open_behind (x : Int) (l : List action_block) : Prop :=
  ∀ a ∈ l, a.active = true → a.start_x ≤ x ∧ a.align ≠ alignment.NONE

/-- What every step keeps: the closed areas are in order, the open ones start at
or before the cursor, and the active zone is one of the three zones. -/
def region_invariant (s : bar) : Prop :=
  closed_ordered s.m_actions ∧ open_behind s.m_xpos s.m_actions ∧
    s.m_bar.align ≠ alignment.NONE

/-- Borders of the same size on both sides for the examples: 10 on the left and
on the right, none above and below. -/
def sample_equal_borders : border_map :=
  { TOP := ⟨0, 0⟩, BOTTOM := ⟨0, 0⟩, LEFT := ⟨10, 0⟩, RIGHT := ⟨10, 0⟩ }

/-- A freshly constructed bar for the examples, 200 wide with borders of 10 on
both sides and without a tray: its interior is `[10, 190]`, with midpoint 100. -/
def sample_framed_bar : bar :=
  bar.construct sample_settings sample_no_tray sample_equal_borders 0

/-! ## What the handlers leave alone -/

/-- The part of the state no handler writes: the geometry, the tray, the borders
and the recorded text stay, and the canvas trace only grows. -/
structure keeps (s t : bar) : Prop where
  tray : t.m_tray = s.m_tray
  borders : t.m_borders = s.m_borders
  width : t.m_bar.width = s.m_bar.width
  height : t.m_bar.height = s.m_bar.height
  vertical_mid : t.m_bar.vertical_mid = s.m_bar.vertical_mid
  lineheight : t.m_bar.lineheight = s.m_bar.lineheight
  prevdata : t.m_prevdata = s.m_prevdata
  canvas : s.canvas.length ≤ t.canvas.length

theorem keeps_refl (s : bar) : keeps s s :=
  ⟨rfl, rfl, rfl, rfl, rfl, rfl, rfl, le_refl _⟩

theorem keeps_trans {s t u : bar} (h₁ : keeps s t) (h₂ : keeps t u) : keeps s u :=
  ⟨h₂.tray.trans h₁.tray, h₂.borders.trans h₁.borders, h₂.width.trans h₁.width,
    h₂.height.trans h₁.height, h₂.vertical_mid.trans h₁.vertical_mid,
    h₂.lineheight.trans h₁.lineheight, h₂.prevdata.trans h₁.prevdata,
    le_trans h₁.canvas h₂.canvas⟩

theorem keeps_paint (s : bar) (op : canvas_op) : keeps s (s.paint op) := by
  constructor <;> simp [bar.paint]

theorem keeps_warn (s : bar) (e : log_entry) : keeps s (s.warn e) := by
  constructor <;> simp [bar.warn]

theorem keeps_on_alignment_change (s : bar) (a : alignment) :
    keeps s (on_alignment_change s a) := by
  unfold on_alignment_change
  split
  · exact keeps_refl s
  · dsimp only
    split
    · constructor <;> simp
    · split <;> constructor <;> simp

theorem keeps_on_attribute_set (s : bar) (a : Nat) : keeps s (on_attribute_set s a) := by
  unfold on_attribute_set
  dsimp only
  split
  · exact keeps_refl s
  · constructor <;> simp

theorem keeps_on_attribute_unset (s : bar) (a : Nat) : keeps s (on_attribute_unset s a) := by
  unfold on_attribute_unset
  dsimp only
  split
  · exact keeps_refl s
  · constructor <;> simp

theorem keeps_on_attribute_toggle (s : bar) (a : Nat) : keeps s (on_attribute_toggle s a) := by
  unfold on_attribute_toggle
  constructor <;> simp

theorem keeps_on_action_block_open (s : bar) (btn : mousebtn) (cmd : String) :
    keeps s (on_action_block_open s btn cmd) := by
  unfold on_action_block_open
  constructor <;> simp

theorem keeps_on_action_block_close (s : bar) (btn : mousebtn) :
    keeps s (on_action_block_close s btn) := by
  unfold on_action_block_close
  constructor <;> simp

theorem keeps_on_color_change (s : bar) (g : gc) (c : Nat) :
    keeps s (on_color_change s g c) := by
  unfold on_color_change
  dsimp only
  split
  · exact keeps_trans (keeps_paint _ _) (keeps_paint _ _)
  · exact keeps_paint _ _

theorem keeps_on_font_change (s : bar) (i : Int) : keeps s (on_font_change s i) := by
  unfold on_font_change
  constructor <;> simp

theorem keeps_draw_shift_finish (s : bar) (x w d : Int) :
    keeps s (draw_shift_finish s x w d).1 := by
  unfold draw_shift_finish
  dsimp only
  split
  · constructor <;> simp [bar.paint]
  · exact keeps_paint _ _

theorem keeps_draw_shift (s : bar) (x w : Int) : keeps s (draw_shift s x w).1 := by
  unfold draw_shift
  dsimp only
  split
  · exact keeps_trans (keeps_paint _ _) (keeps_draw_shift_finish _ _ _ _)
  · split
    · exact keeps_trans (keeps_paint _ _) (keeps_draw_shift_finish _ _ _ _)
    · exact keeps_draw_shift_finish _ _ _ _

theorem keeps_on_pixel_offset (s : bar) (px : Int) : keeps s (on_pixel_offset s px) := by
  unfold on_pixel_offset
  have h := keeps_draw_shift s s.m_xpos px
  constructor <;> simp [h.tray, h.borders, h.width, h.height, h.vertical_mid, h.lineheight,
    h.prevdata, h.canvas]

theorem keeps_draw_lines (s : bar) (x w : Int) : keeps s (draw_lines s x w) := by
  unfold draw_lines
  split
  · exact keeps_refl s
  · dsimp only
    split
    · split
      · exact keeps_trans (keeps_paint _ _) (keeps_paint _ _)
      · exact keeps_paint _ _
    · split
      · exact keeps_paint _ _
      · exact keeps_refl s

theorem keeps_ite {s a b : bar} (c : Prop) [Decidable c] (ha : keeps s a) (hb : keeps s b) :
    keeps s (if c then a else b) := by
  split <;> assumption

theorem keeps_set_xpos {s t : bar} (x : Int) (h : keeps s t) :
    keeps s { t with m_xpos := x } :=
  ⟨h.tray, h.borders, h.width, h.height, h.vertical_mid, h.lineheight, h.prevdata, h.canvas⟩

theorem keeps_draw_character (fm : fontmanager) (s : bar) (c : Nat) :
    keeps s (draw_character fm s c) := by
  unfold draw_character
  split
  · exact keeps_warn _ _
  · dsimp only
    apply keeps_set_xpos
    refine keeps_trans ?_ (keeps_draw_lines _ _ _)
    refine keeps_trans ?_ (keeps_ite _ (keeps_paint _ _) (keeps_paint _ _))
    refine keeps_trans ?_ (keeps_draw_shift _ _ _)
    exact keeps_ite _ (by constructor <;> simp [bar.paint]) (keeps_refl s)

theorem keeps_dispatch (fm : fontmanager) (s : bar) (d : directive) :
    keeps s (dispatch fm s d) := by
  cases d <;> unfold dispatch
  · exact keeps_on_alignment_change _ _
  · exact keeps_on_attribute_set _ _
  · exact keeps_on_attribute_unset _ _
  · exact keeps_on_attribute_toggle _ _
  · exact keeps_on_action_block_open _ _ _
  · exact keeps_on_action_block_close _ _
  · exact keeps_on_color_change _ _ _
  · exact keeps_on_font_change _ _
  · exact keeps_on_pixel_offset _ _
  · exact keeps_draw_character _ _ _
  · exact keeps_draw_character _ _ _

theorem keeps_run_signals (fm : fontmanager) (ds : List directive) (s : bar) :
    keeps s (run_signals fm s ds) := by
  induction ds generalizing s with
  | nil => exact keeps_refl s
  | cons d ds ih =>
    have h : run_signals fm s (d :: ds) = run_signals fm (dispatch fm s d) ds := rfl
    rw [h]
    exact keeps_trans (keeps_dispatch fm s d) (ih _)

theorem keeps_draw_border_edge (s : bar) (b : border) : keeps s (draw_border_edge s b) := by
  cases b <;> simp only [draw_border_edge] <;>
    first
      | exact keeps_refl s
      | exact keeps_ite _ (keeps_paint _ _) (keeps_refl s)

theorem keeps_draw_border (s : bar) (b : border) : keeps s (draw_border s b) := by
  cases b <;> simp only [draw_border] <;>
    first
      | exact keeps_draw_border_edge _ _
      | exact keeps_trans (keeps_trans (keeps_trans (keeps_draw_border_edge _ _)
          (keeps_draw_border_edge _ _)) (keeps_draw_border_edge _ _))
          (keeps_draw_border_edge _ _)

theorem keeps_flush_actions (l : List action_block) (s : bar) : keeps s (flush_actions s l) := by
  induction l generalizing s with
  | nil => exact keeps_refl s
  | cons a l ih =>
    unfold flush_actions
    split
    · exact keeps_trans (keeps_warn _ _) (ih _)
    · exact ih _

theorem flush_canvas_lt (s : bar) : s.canvas.length < (flush s).canvas.length := by
  unfold flush
  dsimp only
  refine lt_of_lt_of_le ?_ (keeps_flush_actions _ _).canvas
  simp [bar.paint]

theorem keeps_flush (s : bar) : keeps s (flush s) := by
  unfold flush
  dsimp only
  refine keeps_trans ?_ (keeps_flush_actions _ _)
  constructor <;> simp [bar.paint]

theorem keeps_parse_interpret (p : parser) (fm : fontmanager) (s : bar) (data : String) :
    keeps s (parse_interpret p fm s data) := by
  unfold parse_interpret
  dsimp only
  split
  · exact keeps_run_signals _ _ _
  · exact keeps_trans (keeps_run_signals _ _ _) (keeps_warn _ _)

theorem keeps_parse_finish (s : bar) : keeps s (parse_finish s) := by
  unfold parse_finish
  dsimp only
  refine keeps_trans ?_ (keeps_flush _)
  refine keeps_trans ?_ (keeps_draw_border _ _)
  exact keeps_ite _ (keeps_draw_shift _ _ _) (keeps_refl s)

theorem parse_finish_canvas_lt (s : bar) : s.canvas.length < (parse_finish s).canvas.length := by
  unfold parse_finish
  dsimp only
  refine lt_of_le_of_lt ?_ (flush_canvas_lt _)
  refine le_trans ?_ (keeps_draw_border _ _).canvas
  exact (keeps_ite _ (keeps_draw_shift _ _ _) (keeps_refl s)).canvas

theorem parse_reset_prevdata (s : bar) (data : String) : (parse_reset s data).m_prevdata = data := by
  unfold parse_reset
  dsimp only
  split <;> simp [draw_background, bar.paint]

theorem parse_reset_canvas (s : bar) (data : String) :
    s.canvas.length ≤ (parse_reset s data).canvas.length := by
  unfold parse_reset
  dsimp only
  split <;> simp [draw_background, bar.paint]

theorem render_prevdata (p : parser) (fm : fontmanager) (s : bar) (data : String) :
    (render p fm s data).m_prevdata = data := by
  unfold render
  rw [(keeps_parse_finish _).prevdata, (keeps_parse_interpret _ _ _ _).prevdata,
    parse_reset_prevdata]

theorem render_canvas_lt (p : parser) (fm : fontmanager) (s : bar) (data : String) :
    s.canvas.length < (render p fm s data).canvas.length := by
  unfold render
  exact lt_of_le_of_lt (le_trans (parse_reset_canvas s data)
    (keeps_parse_interpret _ _ _ _).canvas) (parse_finish_canvas_lt _)

theorem render_ne (p : parser) (fm : fontmanager) (s : bar) (data : String) :
    render p fm s data ≠ s := by
  intro h
  have := render_canvas_lt p fm s data
  rw [h] at this
  exact lt_irrefl _ this

/-- C1: `parse(data, force)` returns at once, leaving the whole state as it was,
exactly when `data` equals the recorded text and `force` is false; it performs
the render (record the text, reset, interpret, finish) exactly when `force` is
true or `data` differs from the recorded text; the render records `data` and
is always visible on the canvas trace; with `force` true it happens whatever
the recorded text is. -/
theorem parse_renders_iff (p : parser) (fm : fontmanager) (s : bar) (data : String)
    (force : Bool) :
    (parse p fm s data force = s ↔ (data = s.m_prevdata ∧ force = false)) ∧
    (parse p fm s data force = render p fm s data ↔ (force = true ∨ data ≠ s.m_prevdata)) ∧
    render p fm s data =
      parse_finish (parse_interpret p fm (parse_reset s data) data) ∧
    (render p fm s data).m_prevdata = data ∧
    s.canvas.length < (render p fm s data).canvas.length ∧
    parse p fm s data true = render p fm s data := by
  refine ⟨?_, ?_, rfl, render_prevdata p fm s data, render_canvas_lt p fm s data, ?_⟩
  · unfold parse
    by_cases h : data = s.m_prevdata ∧ force = false
    · simp [h]
    · rw [if_neg h]
      simp only [h, iff_false]
      exact render_ne p fm s data
  · unfold parse
    by_cases h : data = s.m_prevdata ∧ force = false
    · rw [if_pos h]
      constructor
      · intro e
        exact absurd e.symm (render_ne p fm s data)
      · rintro (hf | hd)
        · rw [h.2] at hf
          cases hf
        · exact absurd h.1 hd
    · rw [if_neg h]
      simp only [true_iff]
      by_cases hf : force = true
      · exact Or.inl hf
      · right
        intro hd
        exact h ⟨hd, by simpa using hf⟩
  · unfold parse
    simp

/-- C2, the text of a fresh bar being empty: on a freshly constructed bar two
calls `parse("", false)` render nothing at all, both return the state as it is,
although a render of the empty text would be visible. -/
theorem parse_twice_empty_text_renders_never :
    parse sample_interpreter sample_fontmanager sample_bar "" false = sample_bar ∧
    parse sample_interpreter sample_fontmanager
      (parse sample_interpreter sample_fontmanager sample_bar "" false) "" false = sample_bar ∧
    render sample_interpreter sample_fontmanager sample_bar "" ≠ sample_bar := by
  have h : parse sample_interpreter sample_fontmanager sample_bar "" false = sample_bar := by
    simp [parse, sample_bar, bar.construct]
  refine ⟨h, ?_, render_ne _ _ _ _⟩
  rw [h, h]

/-- C2, amended: on a freshly constructed bar, for every text other than the
empty one, the first of two calls `parse(text, false)` performs the render and
the second changes nothing, so the render happens exactly once. -/
theorem parse_twice_renders_once (p : parser) (fm : fontmanager) (m_bar : bar_settings)
    (m_tray : tray_settings) (m_borders : border_map) (pf : Int) (text : String)
    (h : text ≠ "") :
    parse p fm (bar.construct m_bar m_tray m_borders pf) text false =
      render p fm (bar.construct m_bar m_tray m_borders pf) text ∧
    render p fm (bar.construct m_bar m_tray m_borders pf) text ≠
      bar.construct m_bar m_tray m_borders pf ∧
    parse p fm (parse p fm (bar.construct m_bar m_tray m_borders pf) text false) text false =
      parse p fm (bar.construct m_bar m_tray m_borders pf) text false := by
  have h₁ : parse p fm (bar.construct m_bar m_tray m_borders pf) text false =
      render p fm (bar.construct m_bar m_tray m_borders pf) text := by
    unfold parse
    rw [if_neg]
    rintro ⟨e, -⟩
    exact h e
  refine ⟨h₁, render_ne _ _ _ _, ?_⟩
  rw [h₁]
  unfold parse
  rw [if_pos]
  exact ⟨(render_prevdata _ _ _ _).symm, rfl⟩

/-- The text `"abc"` on the sample bar: rendered by the first call, kept by the second. -/
theorem parse_twice_renders_once_witness :
    "abc" ≠ "" ∧
    (parse sample_interpreter sample_fontmanager
        (bar.construct sample_settings sample_no_tray sample_borders 0) "abc" false =
      render sample_interpreter sample_fontmanager
        (bar.construct sample_settings sample_no_tray sample_borders 0) "abc" ∧
    render sample_interpreter sample_fontmanager
        (bar.construct sample_settings sample_no_tray sample_borders 0) "abc" ≠
      bar.construct sample_settings sample_no_tray sample_borders 0 ∧
    parse sample_interpreter sample_fontmanager
        (parse sample_interpreter sample_fontmanager
          (bar.construct sample_settings sample_no_tray sample_borders 0) "abc" false)
        "abc" false =
      parse sample_interpreter sample_fontmanager
        (bar.construct sample_settings sample_no_tray sample_borders 0) "abc" false) :=
  ⟨by decide, parse_twice_renders_once sample_interpreter sample_fontmanager sample_settings
    sample_no_tray sample_borders 0 "abc" (by decide)⟩

theorem parse_reset_fields (s : bar) (data : String) :
    (parse_reset s data).m_actions = [] ∧
    (parse_reset s data).m_bar.align = alignment.LEFT ∧
    (parse_reset s data).m_attributes = 0 ∧
    (parse_reset s data).m_xpos = s.m_borders.LEFT.size +
      (if s.m_tray.align = alignment.LEFT ∧ 0 < s.m_tray.slots then tray_reservation s.m_tray
        else 0) ∧
    (parse_reset s data).m_borders = s.m_borders ∧
    (parse_reset s data).m_tray = s.m_tray ∧
    (parse_reset s data).preferred_font = s.preferred_font ∧
    (parse_reset s data).canvas =
      s.canvas ++ [canvas_op.fill gc.BG 0 0 s.m_bar.width s.m_bar.height] := by
  unfold parse_reset
  by_cases h : s.m_tray.align = alignment.LEFT ∧ s.m_tray.slots ≠ 0
  · have h' : s.m_tray.align = alignment.LEFT ∧ 0 < s.m_tray.slots :=
      ⟨h.1, Nat.pos_of_ne_zero h.2⟩
    simp [draw_background, bar.paint, h, h']
  · have h' : ¬ (s.m_tray.align = alignment.LEFT ∧ 0 < s.m_tray.slots) := by
      rintro ⟨a, b⟩
      exact h ⟨a, Nat.pos_iff_ne_zero.mp b⟩
    simp only [draw_background, bar.paint]
    rw [if_neg h, if_neg h']
    simp

/-- C3: a call of `parse` that is not suppressed hands the directive stream to
the handlers from the state `parse_reset` builds, in which the list of areas is
empty, the zone is Left, the attribute flags are 0 and the cursor is the left
border size, plus the tray reservation when the tray is Left with a slot count
above 0; none of the four depends on what the previous parse left behind. -/
theorem parse_starts_from_reset (p : parser) (fm : fontmanager) (s : bar) (data : String)
    (force : Bool) :
    parse p fm s data force =
      (if data = s.m_prevdata ∧ force = false then s
       else parse_finish (parse_interpret p fm (parse_reset s data) data)) ∧
    parse_interpret p fm (parse_reset s data) data =
      (match (p (parse_reset s data).m_bar data).thrown with
       | none => run_signals fm (parse_reset s data) (p (parse_reset s data).m_bar data).signals
       | some what =>
         (run_signals fm (parse_reset s data) (p (parse_reset s data).m_bar data).signals).warn
           (log_entry.unrecognized_token what)) ∧
    (parse_reset s data).m_actions = [] ∧
    (parse_reset s data).m_bar.align = alignment.LEFT ∧
    (parse_reset s data).m_attributes = 0 ∧
    (parse_reset s data).m_xpos = s.m_borders.LEFT.size +
      (if s.m_tray.align = alignment.LEFT ∧ 0 < s.m_tray.slots then tray_reservation s.m_tray
        else 0) := by
  have h := parse_reset_fields s data
  exact ⟨rfl, rfl, h.1, h.2.1, h.2.2.1, h.2.2.2.1⟩

/-! ## Glyphs in the Left zone -/

theorem draw_shift_left (s : bar) (x w : Int) (ha : s.m_bar.align = alignment.LEFT) :
    draw_shift s x w = (s.paint (canvas_op.fill gc.BG x 0 w s.m_bar.height), x) := by
  simp [draw_shift, draw_shift_finish, ha, bar.paint]

theorem glyph_xs_append (a b : List canvas_op) : glyph_xs (a ++ b) = glyph_xs a ++ glyph_xs b := by
  simp [glyph_xs]

theorem glyph_xs_draw_lines (s : bar) (x w : Int) :
    glyph_xs (draw_lines s x w).canvas = glyph_xs s.canvas := by
  unfold draw_lines
  split
  · rfl
  · dsimp only
    split <;> split <;> simp [bar.paint, glyph_xs, glyph_x]

theorem draw_lines_fields (s : bar) (x w : Int) :
    (draw_lines s x w).m_xpos = s.m_xpos ∧ (draw_lines s x w).m_bar = s.m_bar ∧
    (draw_lines s x w).m_actions = s.m_actions ∧
    (draw_lines s x w).preferred_font = s.preferred_font ∧
    (draw_lines s x w).m_attributes = s.m_attributes ∧
    (draw_lines s x w).log = s.log := by
  unfold draw_lines
  split
  · simp
  · dsimp only
    split <;> split <;> simp [bar.paint]

/-- A matched character drawn in the Left zone: the glyph goes to the cursor,
the cursor advances by the measured width, nothing else of the render state
moves. -/
theorem draw_character_left (fm : fontmanager) (s : bar) (c : Nat) (font : font_t)
    (ha : s.m_bar.align = alignment.LEFT)
    (hf : fm.match_char s.preferred_font c = some font) :
    (draw_character fm s c).m_xpos = s.m_xpos + fm.char_width font c ∧
    (draw_character fm s c).m_bar = s.m_bar ∧
    (draw_character fm s c).m_actions = s.m_actions ∧
    (draw_character fm s c).preferred_font = s.preferred_font ∧
    (draw_character fm s c).m_attributes = s.m_attributes ∧
    glyph_xs (draw_character fm s c).canvas = glyph_xs s.canvas ++ [s.m_xpos] := by
  unfold draw_character
  rw [hf]
  dsimp only
  have hne : alignment.LEFT ≠ alignment.CENTER := by decide
  by_cases hp : font.ptr ≠ 0 ∧ font.ptr ≠ s.m_gcfont
  · rw [if_pos hp]
    have ha' : (({ s with m_gcfont := font.ptr } : bar).paint
        (canvas_op.set_gcontext_font font.ptr)).m_bar.align = alignment.LEFT := ha
    rw [draw_shift_left _ _ _ ha']
    have h := draw_lines_fields
    have g := glyph_xs_draw_lines
    cases hx : font.xft <;> simp [bar.paint, ha, hne, h, g, glyph_xs_append] <;>
      simp [glyph_xs, glyph_x]
  · rw [if_neg hp]
    rw [draw_shift_left _ _ _ ha]
    have h := draw_lines_fields
    have g := glyph_xs_draw_lines
    cases hx : font.xft <;> simp [bar.paint, ha, hne, h, g, glyph_xs_append] <;>
      simp [glyph_xs, glyph_x]

theorem run_xs_length (ws : List Int) (x0 : Int) : (run_xs x0 ws).length = ws.length := by
  induction ws generalizing x0 with
  | nil => rfl
  | cons w ws ih => simp [run_xs, ih]

theorem run_xs_get (ws : List Int) (x0 : Int) (i : Nat) (hi : i < ws.length) :
    (run_xs x0 ws).get? i = some (x0 + (ws.take i).sum) := by
  induction ws generalizing x0 i with
  | nil => cases hi
  | cons w ws ih =>
    cases i with
    | zero => simp [run_xs]
    | succ i =>
      have hi' : i < ws.length := Nat.lt_of_succ_lt_succ hi
      have h := ih (x0 + w) i hi'
      simp only [List.get?_eq_getElem?] at h
      simp [run_xs, h, add_assoc]

/-- A character without a font: `draw_character` only logs. -/
theorem draw_character_no_font (fm : fontmanager) (s : bar) (c : Nat)
    (hf : fm.match_char s.preferred_font c = none) :
    draw_character fm s c = s.warn (log_entry.no_suitable_font c) := by
  unfold draw_character
  rw [hf]

/-- A character drawn in the Left zone, matched or not: the cursor advances by
the measured width, the zone, the areas and the preferred font stay. -/
theorem draw_character_left_cursor (fm : fontmanager) (s : bar) (c : Nat)
    (ha : s.m_bar.align = alignment.LEFT) :
    (draw_character fm s c).m_xpos = s.m_xpos + glyph_width fm s.preferred_font c ∧
    (draw_character fm s c).m_bar = s.m_bar ∧
    (draw_character fm s c).m_actions = s.m_actions ∧
    (draw_character fm s c).preferred_font = s.preferred_font := by
  cases hf : fm.match_char s.preferred_font c with
  | none =>
    rw [draw_character_no_font fm s c hf]
    simp [glyph_width, hf, bar.warn]
  | some font =>
    have h := draw_character_left fm s c font ha hf
    simp [glyph_width, hf, h]

theorem draw_characters_cons (fm : fontmanager) (s : bar) (c : Nat) (cs : List Nat) :
    draw_characters fm s (c :: cs) = draw_characters fm (draw_character fm s c) cs := rfl

theorem draw_characters_append (fm : fontmanager) (s : bar) (cs ds : List Nat) :
    draw_characters fm s (cs ++ ds) = draw_characters fm (draw_characters fm s cs) ds := by
  simp [draw_characters, List.foldl_append]

/-- A run of characters is what the interpreter causes by emitting the
characters as text, one signal each. -/
theorem run_signals_text (fm : fontmanager) (cs : List Nat) (s : bar) :
    run_signals fm s (cs.map directive.unicode_text_write) = draw_characters fm s cs ∧
    run_signals fm s (cs.map directive.ascii_text_write) = draw_characters fm s cs := by
  induction cs generalizing s with
  | nil => exact ⟨rfl, rfl⟩
  | cons c cs ih =>
    constructor
    · exact (ih (draw_character fm s c)).1
    · exact (ih (draw_character fm s c)).2

/-- A run in the Left zone: the cursor advances by the sum of the measured
widths, the zone, the areas and the preferred font stay. -/
theorem draw_characters_left_cursor (fm : fontmanager) (cs : List Nat) (s : bar)
    (ha : s.m_bar.align = alignment.LEFT) :
    (draw_characters fm s cs).m_xpos = s.m_xpos + (run_widths fm s.preferred_font cs).sum ∧
    (draw_characters fm s cs).m_bar = s.m_bar ∧
    (draw_characters fm s cs).m_actions = s.m_actions ∧
    (draw_characters fm s cs).preferred_font = s.preferred_font := by
  induction cs generalizing s with
  | nil => simp [draw_characters, run_widths]
  | cons c cs ih =>
    have h := draw_character_left_cursor fm s c ha
    have ha' : (draw_character fm s c).m_bar.align = alignment.LEFT := by rw [h.2.1]; exact ha
    have h' := ih (draw_character fm s c) ha'
    rw [draw_characters_cons]
    refine ⟨?_, h'.2.1.trans h.2.1, h'.2.2.1.trans h.2.2.1, h'.2.2.2.trans h.2.2.2⟩
    rw [h'.1, h.1, h.2.2.2]
    simp [run_widths, add_assoc]

/-- A run of matched characters in the Left zone: the glyphs are drawn at the
successive cursor positions. -/
theorem draw_characters_left_glyphs (fm : fontmanager) (cs : List Nat) (s : bar)
    (ha : s.m_bar.align = alignment.LEFT)
    (hf : ∀ c ∈ cs, fm.match_char s.preferred_font c ≠ none) :
    glyph_xs (draw_characters fm s cs).canvas =
      glyph_xs s.canvas ++ run_xs s.m_xpos (run_widths fm s.preferred_font cs) := by
  induction cs generalizing s with
  | nil => simp [draw_characters, run_widths, run_xs]
  | cons c cs ih =>
    have hc : fm.match_char s.preferred_font c ≠ none := hf c (List.mem_cons_self _ _)
    obtain ⟨font, hfont⟩ := Option.ne_none_iff_exists'.mp hc
    have h := draw_character_left fm s c font ha hfont
    have ha' : (draw_character fm s c).m_bar.align = alignment.LEFT := by rw [h.2.1]; exact ha
    have hf' : ∀ d ∈ cs, fm.match_char (draw_character fm s c).preferred_font d ≠ none := by
      intro d hd
      rw [h.2.2.2.1]
      exact hf d (List.mem_cons_of_mem _ hd)
    rw [draw_characters_cons, ih _ ha' hf', h.2.2.2.2.2, h.1, h.2.2.2.1]
    simp [run_widths, run_xs, glyph_width, hfont]

/-- C4: a run of glyphs of widths `w1 .. wn` drawn by `draw_character` from the
start of a parse, in the Left zone, without a tray reservation: `draw_shift`
returns the cursor it is given, glyph `i` is drawn at the left border size plus
`w1 + .. + w(i-1)`, and the final cursor is the left border size plus the sum of
all the widths. -/
theorem left_run_cursor (fm : fontmanager) (s : bar) (data : String) (cs : List Nat)
    (htray : ¬ (s.m_tray.align = alignment.LEFT ∧ 0 < s.m_tray.slots))
    (hfont : ∀ c ∈ cs, fm.match_char s.preferred_font c ≠ none) :
    (∀ x w : Int, (draw_shift (parse_reset s data) x w).2 = x) ∧
    (draw_characters fm (parse_reset s data) cs).m_xpos =
      s.m_borders.LEFT.size + (run_widths fm s.preferred_font cs).sum ∧
    glyph_xs (draw_characters fm (parse_reset s data) cs).canvas =
      glyph_xs s.canvas ++ run_xs s.m_borders.LEFT.size (run_widths fm s.preferred_font cs) ∧
    (∀ i, i < cs.length →
      (glyph_xs (draw_characters fm (parse_reset s data) cs).canvas).get?
          ((glyph_xs s.canvas).length + i) =
        some (s.m_borders.LEFT.size + ((run_widths fm s.preferred_font cs).take i).sum)) := by
  have hr := parse_reset_fields s data
  obtain ⟨-, ha, -, hx, -, -, hpf, hcv⟩ := hr
  rw [if_neg htray, add_zero] at hx
  have hcur := draw_characters_left_cursor fm cs (parse_reset s data) ha
  have hf' : ∀ c ∈ cs, fm.match_char (parse_reset s data).preferred_font c ≠ none := by
    intro c hc
    rw [hpf]
    exact hfont c hc
  have hgl := draw_characters_left_glyphs fm cs (parse_reset s data) ha hf'
  rw [hx, hpf] at hgl
  have hbg : glyph_xs (parse_reset s data).canvas = glyph_xs s.canvas := by
    rw [hcv, glyph_xs_append]
    simp [glyph_xs, glyph_x]
  rw [hbg] at hgl
  refine ⟨?_, ?_, hgl, ?_⟩
  · intro x w
    rw [draw_shift_left _ _ _ ha]
  · rw [hcur.1, hx, hpf]
  · intro i hi
    rw [hgl]
    have hlen : i < (run_widths fm s.preferred_font cs).length := by
      simpa [run_widths] using hi
    have := run_xs_get (run_widths fm s.preferred_font cs) s.m_borders.LEFT.size i hlen
    simp only [List.get?_eq_getElem?] at this ⊢
    rw [List.getElem?_append_right (Nat.le_add_right _ _)]
    simpa using this

/-- Three glyphs on the sample bar, which has no tray and a left border of 2. -/
theorem left_run_cursor_witness :
    ¬ (sample_bar.m_tray.align = alignment.LEFT ∧ 0 < sample_bar.m_tray.slots) ∧
    (∀ c ∈ [1, 2, 3], sample_fontmanager.match_char sample_bar.preferred_font c ≠ none) ∧
    ((∀ x w : Int, (draw_shift (parse_reset sample_bar "ab") x w).2 = x) ∧
    (draw_characters sample_fontmanager (parse_reset sample_bar "ab") [1, 2, 3]).m_xpos =
      sample_bar.m_borders.LEFT.size +
        (run_widths sample_fontmanager sample_bar.preferred_font [1, 2, 3]).sum ∧
    glyph_xs (draw_characters sample_fontmanager (parse_reset sample_bar "ab") [1, 2, 3]).canvas =
      glyph_xs sample_bar.canvas ++ run_xs sample_bar.m_borders.LEFT.size
        (run_widths sample_fontmanager sample_bar.preferred_font [1, 2, 3]) ∧
    (∀ i, i < [1, 2, 3].length →
      (glyph_xs (draw_characters sample_fontmanager (parse_reset sample_bar "ab")
          [1, 2, 3]).canvas).get? ((glyph_xs sample_bar.canvas).length + i) =
        some (sample_bar.m_borders.LEFT.size +
          ((run_widths sample_fontmanager sample_bar.preferred_font [1, 2, 3]).take i).sum))) :=
  ⟨by decide, by decide,
    left_run_cursor sample_fontmanager sample_bar "ab" [1, 2, 3] (by decide) (by decide)⟩

/-! ## The tray reservation -/

/-- A signal that neither draws nor names a zone, delivered in the Left zone:
the cursor moves by the pixel offset it carries, the zone stays Left, and no
glyph is drawn. -/
theorem dispatch_style_left (fm : fontmanager) (s : bar) (d : directive)
    (hd : d.is_style = true) (ha : s.m_bar.align = alignment.LEFT) :
    (dispatch fm s d).m_xpos = s.m_xpos + d.px ∧
    (dispatch fm s d).m_bar.align = alignment.LEFT ∧
    (dispatch fm s d).preferred_font = d.font s.preferred_font ∧
    glyph_xs (dispatch fm s d).canvas = glyph_xs s.canvas := by
  cases d with
  | alignment_change a => cases hd
  | ascii_text_write c => cases hd
  | unicode_text_write c => cases hd
  | attribute_set a =>
    simp only [dispatch, on_attribute_set, directive.px, directive.font]
    split <;> simp [ha]
  | attribute_unset a =>
    simp only [dispatch, on_attribute_unset, directive.px, directive.font]
    split <;> simp [ha]
  | attribute_toggle a => simp [dispatch, on_attribute_toggle, directive.px, directive.font, ha]
  | action_block_open b c =>
    simp [dispatch, on_action_block_open, directive.px, directive.font, ha]
  | action_block_close b =>
    simp [dispatch, on_action_block_close, directive.px, directive.font, ha]
  | color_change g c =>
    simp only [dispatch, on_color_change, directive.px, directive.font]
    split <;> simp [bar.paint, ha, glyph_xs, glyph_x]
  | font_change i => simp [dispatch, on_font_change, directive.px, directive.font, ha]
  | pixel_offset px =>
    simp only [dispatch, on_pixel_offset, directive.px, directive.font]
    rw [draw_shift_left _ _ _ ha]
    simp [bar.paint, ha, glyph_xs, glyph_x]

theorem run_signals_style_left (fm : fontmanager) (ds : List directive) (s : bar)
    (hd : ∀ d ∈ ds, d.is_style = true) (ha : s.m_bar.align = alignment.LEFT) :
    (run_signals fm s ds).m_xpos = s.m_xpos + (ds.map directive.px).sum ∧
    (run_signals fm s ds).m_bar.align = alignment.LEFT ∧
    (run_signals fm s ds).preferred_font = ds.foldl directive.font s.preferred_font ∧
    glyph_xs (run_signals fm s ds).canvas = glyph_xs s.canvas := by
  induction ds generalizing s with
  | nil => simp [run_signals, ha]
  | cons d ds ih =>
    have h := dispatch_style_left fm s d (hd d (List.mem_cons_self _ _)) ha
    have h' := ih (dispatch fm s d) (fun e he => hd e (List.mem_cons_of_mem _ he)) h.2.1
    have e : run_signals fm s (d :: ds) = run_signals fm (dispatch fm s d) ds := rfl
    rw [e]
    refine ⟨?_, h'.2.1, ?_, h'.2.2.2.trans h.2.2.2⟩
    · rw [h'.1, h.1]
      simp [add_assoc]
    · rw [h'.2.2.1, h.2.2.1]
      rfl

/-- The position of the first glyph of a parse, drawn in the Left zone after
signals that neither draw nor name a zone: the cursor `parse_reset` leaves plus
the pixel offsets met on the way. -/
theorem first_glyph_x (fm : fontmanager) (s : bar) (data : String) (ds : List directive)
    (c : Nat) (hd : ∀ d ∈ ds, d.is_style = true)
    (hc : fm.match_char (ds.foldl directive.font s.preferred_font) c ≠ none) :
    glyph_xs (draw_character fm (run_signals fm (parse_reset s data) ds) c).canvas =
      glyph_xs s.canvas ++ [(parse_reset s data).m_xpos + (ds.map directive.px).sum] := by
  obtain ⟨-, ha, -, -, -, -, hpf, hcv⟩ := parse_reset_fields s data
  have h := run_signals_style_left fm ds (parse_reset s data) hd ha
  rw [hpf] at h
  obtain ⟨font, hfont⟩ := Option.ne_none_iff_exists'.mp hc
  rw [← h.2.2.1] at hfont
  have g := draw_character_left fm _ c font h.2.1 hfont
  rw [g.2.2.2.2.2, h.2.2.2, h.1, hcv, glyph_xs_append]
  simp [glyph_xs, glyph_x]

/-- C5: with the tray aligned Left and `slots = n > 0`, the cursor at the start
of the directive stream is `(tray.width + tray.spacing) * n + tray.spacing`
larger than for the same bar with a tray `t0` that reserves nothing, and so is
the position of the first glyph, drawn in the Left zone after any signals that
neither draw nor name a zone. -/
theorem tray_reservation_offset (fm : fontmanager) (s : bar) (t0 : tray_settings)
    (data : String) (ds : List directive) (c : Nat)
    (hl : s.m_tray.align = alignment.LEFT) (hn : 0 < s.m_tray.slots)
    (h0 : ¬ (t0.align = alignment.LEFT ∧ 0 < t0.slots))
    (hd : ∀ d ∈ ds, d.is_style = true)
    (hc : fm.match_char (ds.foldl directive.font s.preferred_font) c ≠ none) :
    (parse_reset s data).m_xpos =
      (parse_reset { s with m_tray := t0 } data).m_xpos +
        (((s.m_tray.width + s.m_tray.spacing) * s.m_tray.slots + s.m_tray.spacing : Nat) : Int) ∧
    (parse_reset { s with m_tray := t0 } data).m_xpos = s.m_borders.LEFT.size ∧
    glyph_xs (draw_character fm
        (run_signals fm (parse_reset { s with m_tray := t0 } data) ds) c).canvas =
      glyph_xs s.canvas ++ [s.m_borders.LEFT.size + (ds.map directive.px).sum] ∧
    glyph_xs (draw_character fm (run_signals fm (parse_reset s data) ds) c).canvas =
      glyph_xs s.canvas ++ [s.m_borders.LEFT.size + (ds.map directive.px).sum +
        (((s.m_tray.width + s.m_tray.spacing) * s.m_tray.slots + s.m_tray.spacing : Nat) :
          Int)] := by
  have h₁ := (parse_reset_fields s data).2.2.2.1
  have h₂ := (parse_reset_fields { s with m_tray := t0 } data).2.2.2.1
  rw [if_pos ⟨hl, hn⟩] at h₁
  have h0' : ¬ (({ s with m_tray := t0 } : bar).m_tray.align = alignment.LEFT ∧
      0 < ({ s with m_tray := t0 } : bar).m_tray.slots) := h0
  rw [if_neg h0', add_zero] at h₂
  have h₂' : (parse_reset { s with m_tray := t0 } data).m_xpos = s.m_borders.LEFT.size := h₂
  refine ⟨?_, h₂', ?_, ?_⟩
  · rw [h₁, h₂']
    rfl
  · have g := first_glyph_x fm { s with m_tray := t0 } data ds c hd hc
    rw [h₂'] at g
    exact g
  · have g := first_glyph_x fm s data ds c hd hc
    rw [h₁] at g
    rw [g]
    simp only [tray_reservation]
    congr 2
    ring

/-- The sample bar with a left tray of three slots: the first glyph, drawn after
a pixel offset of 3, is at `2 + 3 + 56`. -/
theorem tray_reservation_offset_witness :
    ({ sample_bar with m_tray := sample_left_tray } : bar).m_tray.align = alignment.LEFT ∧
    0 < ({ sample_bar with m_tray := sample_left_tray } : bar).m_tray.slots ∧
    ¬ (sample_no_tray.align = alignment.LEFT ∧ 0 < sample_no_tray.slots) ∧
    (∀ d ∈ [directive.attribute_set 2, directive.pixel_offset 3], d.is_style = true) ∧
    sample_fontmanager.match_char
      ([directive.attribute_set 2, directive.pixel_offset 3].foldl directive.font
        ({ sample_bar with m_tray := sample_left_tray } : bar).preferred_font) 97 ≠ none ∧
    glyph_xs (draw_character sample_fontmanager
        (run_signals sample_fontmanager
          (parse_reset { sample_bar with m_tray := sample_left_tray } "a")
          [directive.attribute_set 2, directive.pixel_offset 3]) 97).canvas =
      glyph_xs ({ sample_bar with m_tray := sample_left_tray } : bar).canvas ++
        [({ sample_bar with m_tray := sample_left_tray } : bar).m_borders.LEFT.size +
          ([directive.attribute_set 2, directive.pixel_offset 3].map directive.px).sum +
          (((({ sample_bar with m_tray := sample_left_tray } : bar).m_tray.width +
            ({ sample_bar with m_tray := sample_left_tray } : bar).m_tray.spacing) *
            ({ sample_bar with m_tray := sample_left_tray } : bar).m_tray.slots +
            ({ sample_bar with m_tray := sample_left_tray } : bar).m_tray.spacing : Nat) :
              Int)] :=
  ⟨by decide, by decide, by decide, by decide, by decide,
    (tray_reservation_offset sample_fontmanager { sample_bar with m_tray := sample_left_tray }
      sample_no_tray "a" [directive.attribute_set 2, directive.pixel_offset 3] 97
      (by decide) (by decide) (by decide) (by decide) (by decide)).2.2.2⟩

/-! ## Opening and closing a clickable area -/

/-- The button an area is stored with: `NONE` is replaced by `LEFT`. -/
theorem on_action_block_open_actions (s : bar) (btn : mousebtn) (cmd : String) :
    (on_action_block_open s btn cmd).m_actions = s.m_actions ++
      [{ active := true, align := s.m_bar.align,
         button := if btn = mousebtn.NONE then mousebtn.LEFT else btn,
         start_x := s.m_xpos, end_x := 0,
         command := string_util.replace_all cmd ':' "\\:" }] ∧
    (on_action_block_open s btn cmd).m_xpos = s.m_xpos ∧
    (on_action_block_open s btn cmd).m_bar = s.m_bar ∧
    (on_action_block_open s btn cmd).m_borders = s.m_borders ∧
    (on_action_block_open s btn cmd).preferred_font = s.preferred_font := by
  simp [on_action_block_open]

/-- Closing when the most recent area is open and has the button: it is the one
finalized, the areas before it stay. -/
theorem close_scan_last (s : bar) (btn : mousebtn) (l : List action_block) (a : action_block)
    (hact : a.active = true) (hbtn : a.button = btn) :
    close_scan s btn (l ++ [a]).length (l ++ [a]) = l ++ [close_action s a] := by
  have hlen : (l ++ [a]).length = l.length + 1 := by simp
  rw [hlen]
  unfold close_scan
  have hget : (l ++ [a]).get? l.length = some a := by simp
  rw [hget]
  simp [hact, hbtn]

theorem shift_action_active (z : alignment) (d : Int) (a : action_block)
    (hact : a.active = true) : shift_action z d a = a := by
  simp [shift_action, hact]

theorem shift_action_zero (z : alignment) (a : action_block) : shift_action z 0 a = a := by
  unfold shift_action
  split <;> simp

theorem shift_action_add (z : alignment) (d e : Int) (a : action_block) :
    shift_action z e (shift_action z d a) = shift_action z (d + e) a := by
  unfold shift_action
  cases hact : a.active
  · by_cases hz : a.align = z
    · simp [hact, hz, sub_sub]
    · simp [hact, hz]
  · simp [hact]

theorem map_shift_action_add (z : alignment) (d e : Int) (l : List action_block) :
    (l.map (shift_action z d)).map (shift_action z e) = l.map (shift_action z (d + e)) := by
  simp [List.map_map, Function.comp_def, shift_action_add]

theorem map_shift_action_zero (z : alignment) (l : List action_block) :
    l.map (shift_action z 0) = l := by
  have h : shift_action z 0 = id := funext (shift_action_zero z)
  rw [h]
  simp

theorem select_font_fields (s : bar) (font : font_t) :
    (select_font s font).m_xpos = s.m_xpos ∧
    (select_font s font).m_bar = s.m_bar ∧
    (select_font s font).m_borders = s.m_borders ∧
    (select_font s font).m_actions = s.m_actions ∧
    (select_font s font).preferred_font = s.preferred_font ∧
    (select_font s font).m_attributes = s.m_attributes ∧
    (select_font s font).log = s.log ∧
    glyph_xs (select_font s font).canvas = glyph_xs s.canvas := by
  unfold select_font
  split <;> simp [bar.paint, glyph_xs, glyph_x]

/-- The shape of `draw_character` on a character with a font. -/
theorem draw_character_matched (fm : fontmanager) (s : bar) (c : Nat) (font : font_t)
    (hf : fm.match_char s.preferred_font c = some font) :
    draw_character fm s c =
      { draw_lines
          ((draw_shift (select_font s font) (select_font s font).m_xpos
              (corrected_width s.m_bar.align (fm.char_width font c))).1.paint
            (glyph_op font
              (draw_shift (select_font s font) (select_font s font).m_xpos
                (corrected_width s.m_bar.align (fm.char_width font c))).2
              ((draw_shift (select_font s font) (select_font s font).m_xpos
                (corrected_width s.m_bar.align (fm.char_width font c))).1.m_bar.vertical_mid +
                font.height.tdiv 2 - font.descent + font.offset_y) c))
          (draw_shift (select_font s font) (select_font s font).m_xpos
            (corrected_width s.m_bar.align (fm.char_width font c))).2
          (corrected_width s.m_bar.align (fm.char_width font c)) with
        m_xpos :=
          (draw_shift (select_font s font) (select_font s font).m_xpos
            (corrected_width s.m_bar.align (fm.char_width font c))).1.m_xpos +
            corrected_width s.m_bar.align (fm.char_width font c) } := by
  have hb : (select_font s font).m_bar = s.m_bar := (select_font_fields s font).2.1
  unfold draw_character
  rw [hf]
  dsimp only
  have e : (if font.ptr ≠ 0 ∧ font.ptr ≠ s.m_gcfont then
      ({ s with m_gcfont := font.ptr }).paint (canvas_op.set_gcontext_font font.ptr)
    else s) = select_font s font := rfl
  rw [e, hb]
  have w : (if s.m_bar.align = alignment.CENTER ∧ (fm.char_width font c).tmod 2 ≠ 0 then
      fm.char_width font c + 1 else fm.char_width font c) =
      corrected_width s.m_bar.align (fm.char_width font c) := rfl
  rw [w]
  have hl := draw_lines_fields
  cases hx : font.xft <;> simp [glyph_op, hx, hl, bar.paint]

/-- What a character with a font changes, in terms of the `draw_shift` it
causes: the cursor is the one `draw_shift` leaves plus the corrected width, the
glyph is drawn at the position `draw_shift` returns, and the zone, the borders,
the areas, the flags and the preferred font are those `draw_shift` leaves. -/
theorem draw_character_fields (fm : fontmanager) (s : bar) (c : Nat) (font : font_t)
    (hf : fm.match_char s.preferred_font c = some font) :
    (draw_character fm s c).m_xpos =
      (draw_shift (select_font s font) s.m_xpos
        (corrected_width s.m_bar.align (fm.char_width font c))).1.m_xpos +
        corrected_width s.m_bar.align (fm.char_width font c) ∧
    (draw_character fm s c).m_bar =
      (draw_shift (select_font s font) s.m_xpos
        (corrected_width s.m_bar.align (fm.char_width font c))).1.m_bar ∧
    (draw_character fm s c).m_borders =
      (draw_shift (select_font s font) s.m_xpos
        (corrected_width s.m_bar.align (fm.char_width font c))).1.m_borders ∧
    (draw_character fm s c).m_actions =
      (draw_shift (select_font s font) s.m_xpos
        (corrected_width s.m_bar.align (fm.char_width font c))).1.m_actions ∧
    (draw_character fm s c).preferred_font =
      (draw_shift (select_font s font) s.m_xpos
        (corrected_width s.m_bar.align (fm.char_width font c))).1.preferred_font ∧
    (draw_character fm s c).m_attributes =
      (draw_shift (select_font s font) s.m_xpos
        (corrected_width s.m_bar.align (fm.char_width font c))).1.m_attributes ∧
    glyph_xs (draw_character fm s c).canvas =
      glyph_xs (draw_shift (select_font s font) s.m_xpos
        (corrected_width s.m_bar.align (fm.char_width font c))).1.canvas ++
      [(draw_shift (select_font s font) s.m_xpos
        (corrected_width s.m_bar.align (fm.char_width font c))).2] := by
  rw [draw_character_matched fm s c font hf]
  have hx : (select_font s font).m_xpos = s.m_xpos := (select_font_fields s font).1
  rw [hx]
  have hl := draw_lines_fields
  have hg := glyph_xs_draw_lines
  refine ⟨rfl, ?_, ?_, ?_, ?_, ?_, ?_⟩
  · simp [hl, bar.paint]
  · show (draw_lines _ _ _).m_borders = _
    unfold draw_lines
    split
    · rfl
    · dsimp only
      split <;> split <;> simp [bar.paint]
  · simp [hl, bar.paint]
  · simp [hl, bar.paint]
  · simp [hl, bar.paint]
  · show glyph_xs (draw_lines _ _ _).canvas = _
    rw [hg]
    simp only [bar.paint, glyph_xs_append]
    congr 1
    unfold glyph_op
    split <;> simp [glyph_xs, glyph_x]

/-- The Right zone case of `draw_shift`. -/
theorem draw_shift_right (s : bar) (x w : Int) (ha : s.m_bar.align = alignment.RIGHT) :
    (draw_shift s x w).1.m_actions = s.m_actions.map (shift_action alignment.RIGHT w) ∧
    (draw_shift s x w).1.m_xpos = s.m_xpos ∧
    (draw_shift s x w).1.m_bar = s.m_bar ∧
    (draw_shift s x w).1.m_borders = s.m_borders ∧
    (draw_shift s x w).1.preferred_font = s.preferred_font ∧
    (draw_shift s x w).2 = s.m_bar.width - w - s.m_borders.RIGHT.size := by
  have hne : alignment.RIGHT ≠ alignment.CENTER := by decide
  have hne' : alignment.RIGHT ≠ alignment.LEFT := by decide
  simp [draw_shift, draw_shift_finish, ha, hne, hne', bar.paint]

/-- A character drawn in the Right zone, matched or not: the cursor advances by
the measured width and the areas are translated by it. -/
theorem draw_character_right (fm : fontmanager) (s : bar) (c : Nat)
    (ha : s.m_bar.align = alignment.RIGHT) :
    (draw_character fm s c).m_xpos = s.m_xpos + glyph_width fm s.preferred_font c ∧
    (draw_character fm s c).m_bar = s.m_bar ∧
    (draw_character fm s c).m_borders = s.m_borders ∧
    (draw_character fm s c).m_actions =
      s.m_actions.map (shift_action alignment.RIGHT (glyph_width fm s.preferred_font c)) ∧
    (draw_character fm s c).preferred_font = s.preferred_font := by
  cases hf : fm.match_char s.preferred_font c with
  | none =>
    rw [draw_character_no_font fm s c hf]
    simp [glyph_width, hf, bar.warn, map_shift_action_zero]
  | some font =>
    have hne : alignment.RIGHT ≠ alignment.CENTER := by decide
    have h := draw_character_fields fm s c font hf
    have hs := select_font_fields s font
    have hw : corrected_width s.m_bar.align (fm.char_width font c) = fm.char_width font c := by
      simp [corrected_width, ha, hne]
    rw [hw] at h
    have ha' : (select_font s font).m_bar.align = alignment.RIGHT := by rw [hs.2.1]; exact ha
    have hd := draw_shift_right (select_font s font) s.m_xpos (fm.char_width font c) ha'
    have hgw : glyph_width fm s.preferred_font c = fm.char_width font c := by
      simp [glyph_width, hf]
    rw [hgw]
    refine ⟨?_, ?_, ?_, ?_, ?_⟩
    · rw [h.1, hd.2.1, hs.1]
    · rw [h.2.1, hd.2.2.1, hs.2.1]
    · rw [h.2.2.1, hd.2.2.2.1, hs.2.2.1]
    · rw [h.2.2.2.1, hd.1, hs.2.2.2.1]
    · rw [h.2.2.2.2.1, hd.2.2.2.2.1, hs.2.2.2.2.1]

/-- A run in the Right zone: the cursor advances by the sum of the measured
widths and the areas are translated by that sum. -/
theorem draw_characters_right (fm : fontmanager) (cs : List Nat) (s : bar)
    (ha : s.m_bar.align = alignment.RIGHT) :
    (draw_characters fm s cs).m_xpos = s.m_xpos + (run_widths fm s.preferred_font cs).sum ∧
    (draw_characters fm s cs).m_bar = s.m_bar ∧
    (draw_characters fm s cs).m_borders = s.m_borders ∧
    (draw_characters fm s cs).m_actions =
      s.m_actions.map (shift_action alignment.RIGHT (run_widths fm s.preferred_font cs).sum) ∧
    (draw_characters fm s cs).preferred_font = s.preferred_font := by
  induction cs generalizing s with
  | nil => simp [draw_characters, run_widths, map_shift_action_zero]
  | cons c cs ih =>
    have h := draw_character_right fm s c ha
    have ha' : (draw_character fm s c).m_bar.align = alignment.RIGHT := by rw [h.2.1]; exact ha
    have h' := ih (draw_character fm s c) ha'
    rw [draw_characters_cons]
    refine ⟨?_, h'.2.1.trans h.2.1, h'.2.2.1.trans h.2.2.1, ?_, h'.2.2.2.2.trans h.2.2.2.2⟩
    · rw [h'.1, h.1, h.2.2.2.2]
      simp [run_widths, add_assoc]
    · rw [h'.2.2.2.1, h.2.2.2.1, h.2.2.2.2, map_shift_action_add]
      simp [run_widths]

/-- C6: an area opened in the Left zone at cursor `x0`, followed by a run of
glyphs of total width `w` and closed for the button it is stored with, is the
last area of the list, closed, with `start_x = x0` and `end_x = x0 + w`; the
areas before it are as they were. -/
theorem left_action_region (fm : fontmanager) (s : bar) (btn : mousebtn) (cmd : String)
    (cs : List Nat) (ha : s.m_bar.align = alignment.LEFT) :
    (on_action_block_close (draw_characters fm (on_action_block_open s btn cmd) cs)
        (if btn = mousebtn.NONE then mousebtn.LEFT else btn)).m_actions =
      s.m_actions ++
        [{ active := false, align := alignment.LEFT,
           button := if btn = mousebtn.NONE then mousebtn.LEFT else btn,
           start_x := s.m_xpos,
           end_x := s.m_xpos + (run_widths fm s.preferred_font cs).sum,
           command := string_util.replace_all cmd ':' "\\:" }] ∧
    (draw_characters fm (on_action_block_open s btn cmd) cs).m_xpos - s.m_xpos =
      (run_widths fm s.preferred_font cs).sum := by
  have ho := on_action_block_open_actions s btn cmd
  have ha' : (on_action_block_open s btn cmd).m_bar.align = alignment.LEFT := by
    rw [ho.2.2.1]; exact ha
  have hr := draw_characters_left_cursor fm cs (on_action_block_open s btn cmd) ha'
  rw [ho.2.1, ho.2.2.2.2] at hr
  refine ⟨?_, by rw [hr.1]; ring⟩
  unfold on_action_block_close
  dsimp only
  rw [hr.2.2.1, ho.1,
    close_scan_last _ (if btn = mousebtn.NONE then mousebtn.LEFT else btn) _ _ rfl rfl]
  simp [close_action, ha, hr.1]

/-- An area around two glyphs at the start of the Left zone of the sample bar. -/
theorem left_action_region_witness :
    sample_bar.m_bar.align = alignment.LEFT ∧
    ((on_action_block_close
        (draw_characters sample_fontmanager (on_action_block_open sample_bar 1 "cmd") [1, 2])
        (if (1 : mousebtn) = mousebtn.NONE then mousebtn.LEFT else 1)).m_actions =
      sample_bar.m_actions ++
        [{ active := false, align := alignment.LEFT,
           button := if (1 : mousebtn) = mousebtn.NONE then mousebtn.LEFT else 1,
           start_x := sample_bar.m_xpos,
           end_x := sample_bar.m_xpos +
             (run_widths sample_fontmanager sample_bar.preferred_font [1, 2]).sum,
           command := string_util.replace_all "cmd" ':' "\\:" }] ∧
    (draw_characters sample_fontmanager (on_action_block_open sample_bar 1 "cmd") [1, 2]).m_xpos -
        sample_bar.m_xpos =
      (run_widths sample_fontmanager sample_bar.preferred_font [1, 2]).sum) :=
  ⟨by decide, left_action_region sample_fontmanager sample_bar 1 "cmd" [1, 2] (by decide)⟩

/-- C7: an area opened in the Right zone, followed by a run of glyphs, closed
for the button it is stored with, and followed by a second run in the Right
zone. At the close its `end_x` is the bar width minus the right border size and
`end_x - start_x` is the cursor at the close minus the cursor at the open;
after the second run, of total width `w2`, its `end_x` is that right edge minus
`w2` and its width is the same. The areas before it are translated along. -/
theorem right_action_region (fm : fontmanager) (s : bar) (btn : mousebtn) (cmd : String)
    (cs₁ cs₂ : List Nat) (ha : s.m_bar.align = alignment.RIGHT) :
    (on_action_block_close (draw_characters fm (on_action_block_open s btn cmd) cs₁)
        (if btn = mousebtn.NONE then mousebtn.LEFT else btn)).m_actions =
      s.m_actions.map (shift_action alignment.RIGHT (run_widths fm s.preferred_font cs₁).sum) ++
        [{ active := false, align := alignment.RIGHT,
           button := if btn = mousebtn.NONE then mousebtn.LEFT else btn,
           start_x := s.m_bar.width - s.m_borders.RIGHT.size -
             ((draw_characters fm (on_action_block_open s btn cmd) cs₁).m_xpos - s.m_xpos),
           end_x := s.m_bar.width - s.m_borders.RIGHT.size,
           command := string_util.replace_all cmd ':' "\\:" }] ∧
    (draw_characters fm (on_action_block_open s btn cmd) cs₁).m_xpos - s.m_xpos =
      (run_widths fm s.preferred_font cs₁).sum ∧
    (draw_characters fm
        (on_action_block_close (draw_characters fm (on_action_block_open s btn cmd) cs₁)
          (if btn = mousebtn.NONE then mousebtn.LEFT else btn)) cs₂).m_actions =
      s.m_actions.map (shift_action alignment.RIGHT
          ((run_widths fm s.preferred_font cs₁).sum + (run_widths fm s.preferred_font cs₂).sum)) ++
        [{ active := false, align := alignment.RIGHT,
           button := if btn = mousebtn.NONE then mousebtn.LEFT else btn,
           start_x := s.m_bar.width - s.m_borders.RIGHT.size -
             (run_widths fm s.preferred_font cs₂).sum -
             ((draw_characters fm (on_action_block_open s btn cmd) cs₁).m_xpos - s.m_xpos),
           end_x := s.m_bar.width - s.m_borders.RIGHT.size -
             (run_widths fm s.preferred_font cs₂).sum,
           command := string_util.replace_all cmd ':' "\\:" }] := by
  have ho := on_action_block_open_actions s btn cmd
  have ha' : (on_action_block_open s btn cmd).m_bar.align = alignment.RIGHT := by
    rw [ho.2.2.1]; exact ha
  have hr := draw_characters_right fm cs₁ (on_action_block_open s btn cmd) ha'
  rw [ho.2.1, ho.2.2.1, ho.2.2.2.1, ho.2.2.2.2, ho.1] at hr
  have hw : (draw_characters fm (on_action_block_open s btn cmd) cs₁).m_xpos - s.m_xpos =
      (run_widths fm s.preferred_font cs₁).sum := by rw [hr.1]; ring
  have hclose : (on_action_block_close (draw_characters fm (on_action_block_open s btn cmd) cs₁)
        (if btn = mousebtn.NONE then mousebtn.LEFT else btn)).m_actions =
      s.m_actions.map (shift_action alignment.RIGHT (run_widths fm s.preferred_font cs₁).sum) ++
        [{ active := false, align := alignment.RIGHT,
           button := if btn = mousebtn.NONE then mousebtn.LEFT else btn,
           start_x := s.m_bar.width - s.m_borders.RIGHT.size -
             ((draw_characters fm (on_action_block_open s btn cmd) cs₁).m_xpos - s.m_xpos),
           end_x := s.m_bar.width - s.m_borders.RIGHT.size,
           command := string_util.replace_all cmd ':' "\\:" }] := by
    unfold on_action_block_close
    dsimp only
    rw [hr.2.2.2.1, List.map_append, List.map_singleton, shift_action_active _ _ _ rfl,
      close_scan_last _ (if btn = mousebtn.NONE then mousebtn.LEFT else btn) _ _ rfl rfl]
    have hne : alignment.RIGHT ≠ alignment.LEFT := by decide
    have hne' : alignment.RIGHT ≠ alignment.CENTER := by decide
    simp only [close_action, ha, hne, hne', if_false, if_true, hr.2.1, hr.2.2.1]
    simp only [List.append_cancel_left_eq, List.cons.injEq, and_true]
    congr 1
    ring
  refine ⟨hclose, hw, ?_⟩
  have hc := keeps_on_action_block_close (draw_characters fm (on_action_block_open s btn cmd) cs₁)
    (if btn = mousebtn.NONE then mousebtn.LEFT else btn)
  have ha'' : (on_action_block_close (draw_characters fm (on_action_block_open s btn cmd) cs₁)
      (if btn = mousebtn.NONE then mousebtn.LEFT else btn)).m_bar.align = alignment.RIGHT := by
    show (draw_characters fm (on_action_block_open s btn cmd) cs₁).m_bar.align = _
    rw [hr.2.1]; exact ha
  have hpf : (on_action_block_close (draw_characters fm (on_action_block_open s btn cmd) cs₁)
      (if btn = mousebtn.NONE then mousebtn.LEFT else btn)).preferred_font = s.preferred_font :=
    hr.2.2.2.2
  have hr₂ := draw_characters_right fm cs₂ _ ha''
  rw [hr₂.2.2.2.1, hclose, hpf, List.map_append, map_shift_action_add, List.map_singleton]
  simp only [List.append_cancel_left_eq, List.cons.injEq, and_true]
  simp only [shift_action]
  simp
  ring

/-- An area around two glyphs in the Right zone of the sample bar, followed by a
third glyph of width 10: the area ends up as `[169, 186]`. -/
theorem right_action_region_witness :
    ({ sample_bar with m_bar := { sample_settings with align := alignment.RIGHT } } : bar).m_bar.align
      = alignment.RIGHT ∧
    (draw_characters sample_fontmanager
        (on_action_block_close
          (draw_characters sample_fontmanager
            (on_action_block_open
              { sample_bar with m_bar := { sample_settings with align := alignment.RIGHT } }
              1 "cmd") [1, 2])
          (if (1 : mousebtn) = mousebtn.NONE then mousebtn.LEFT else 1)) [3]).m_actions =
      [{ active := false, align := alignment.RIGHT, button := 1, start_x := 169, end_x := 186,
         command := "cmd" }] :=
  ⟨by decide,
    ((right_action_region sample_fontmanager
      { sample_bar with m_bar := { sample_settings with align := alignment.RIGHT } }
      1 "cmd" [1, 2] [3] (by decide)).2.2).trans (by decide)⟩

/-! ## Areas of the Center zone -/

/-- In every zone `draw_shift` leaves the cursor, the settings, the flags and
the preferred font alone, and maps the areas by a translation of the active
zone. -/
theorem draw_shift_frame (s : bar) (x w : Int) :
    (draw_shift s x w).1.m_xpos = s.m_xpos ∧
    (draw_shift s x w).1.m_bar = s.m_bar ∧
    (draw_shift s x w).1.m_borders = s.m_borders ∧
    (draw_shift s x w).1.preferred_font = s.preferred_font ∧
    (draw_shift s x w).1.m_attributes = s.m_attributes ∧
    ∃ d, (draw_shift s x w).1.m_actions = s.m_actions.map (shift_action s.m_bar.align d) := by
  unfold draw_shift
  dsimp only
  split
  · unfold draw_shift_finish
    dsimp only
    split
    · exact ⟨rfl, rfl, rfl, rfl, rfl, w.tdiv 2, rfl⟩
    · exact ⟨rfl, rfl, rfl, rfl, rfl, 0, (map_shift_action_zero _ _).symm⟩
  · split
    · unfold draw_shift_finish
      dsimp only
      split
      · exact ⟨rfl, rfl, rfl, rfl, rfl, w, rfl⟩
      · exact ⟨rfl, rfl, rfl, rfl, rfl, 0, (map_shift_action_zero _ _).symm⟩
    · unfold draw_shift_finish
      dsimp only
      split
      · exact ⟨rfl, rfl, rfl, rfl, rfl, w, rfl⟩
      · exact ⟨rfl, rfl, rfl, rfl, rfl, 0, (map_shift_action_zero _ _).symm⟩

/-- A character drawn in any zone: the settings stay and the areas are mapped by
a translation of the active zone. -/
theorem draw_character_frame (fm : fontmanager) (s : bar) (c : Nat) :
    (draw_character fm s c).m_bar = s.m_bar ∧
    (draw_character fm s c).m_borders = s.m_borders ∧
    ∃ d, (draw_character fm s c).m_actions = s.m_actions.map (shift_action s.m_bar.align d) := by
  cases hf : fm.match_char s.preferred_font c with
  | none =>
    rw [draw_character_no_font fm s c hf]
    exact ⟨rfl, rfl, 0, (map_shift_action_zero _ _).symm⟩
  | some font =>
    have h := draw_character_fields fm s c font hf
    have hs := select_font_fields s font
    obtain ⟨-, hb, hbo, -, -, d, hd⟩ := draw_shift_frame (select_font s font) s.m_xpos
      (corrected_width s.m_bar.align (fm.char_width font c))
    refine ⟨by rw [h.2.1, hb, hs.2.1], by rw [h.2.2.1, hbo, hs.2.2.1], d, ?_⟩
    rw [h.2.2.2.1, hd, hs.2.2.2.1, hs.2.1]

/-- A run drawn in any zone: the settings stay and the areas are mapped by a
translation of the active zone. -/
theorem draw_characters_frame (fm : fontmanager) (cs : List Nat) (s : bar) :
    (draw_characters fm s cs).m_bar = s.m_bar ∧
    (draw_characters fm s cs).m_borders = s.m_borders ∧
    ∃ d, (draw_characters fm s cs).m_actions = s.m_actions.map (shift_action s.m_bar.align d) := by
  induction cs generalizing s with
  | nil => exact ⟨rfl, rfl, 0, (map_shift_action_zero _ _).symm⟩
  | cons c cs ih =>
    obtain ⟨hb, hbo, d, hd⟩ := draw_character_frame fm s c
    obtain ⟨hb', hbo', e, he⟩ := ih (draw_character fm s c)
    rw [draw_characters_cons]
    refine ⟨hb'.trans hb, hbo'.trans hbo, d + e, ?_⟩
    rw [he, hd, hb, map_shift_action_add]

/-- C8: the anchor of `on_action_block_close` is off the midpoint of the
interior when there is a left border. On the bar 200 wide with borders 2 and 4
an area spanning a whole Center run of width 18, opened at cursor 0, is closed
as `[91, 109]`, around `(200 - 4) / 2 + 2 = 100`, and not as `[90, 108]` around
the midpoint `2 + (200 - 2 - 4) / 2 = 99` of the interior. On the bar 200 wide
with borders 10 and 10, whose borders `draw_border` paints on `[0, 10]` and
`[190, 200]`, the same area is closed as `[96, 114]`, around 105, while the
midpoint of the interior is 100. -/
theorem center_region_not_at_interior_midpoint :
    (run_signals sample_fontmanager (parse_reset sample_bar "x")
      [directive.alignment_change alignment.CENTER, directive.action_block_open 1 "cmd"]).m_xpos
      = 0 ∧
    (run_signals sample_fontmanager (parse_reset sample_bar "x")
      [directive.alignment_change alignment.CENTER, directive.action_block_open 1 "cmd",
       directive.ascii_text_write 1, directive.ascii_text_write 3]).m_xpos = 18 ∧
    (run_signals sample_fontmanager (parse_reset sample_bar "x")
      [directive.alignment_change alignment.CENTER, directive.action_block_open 1 "cmd",
       directive.ascii_text_write 1, directive.ascii_text_write 3,
       directive.action_block_close 1]).m_actions =
      [{ active := false, align := alignment.CENTER, button := 1, start_x := 91, end_x := 109,
         command := "cmd" }] ∧
    sample_bar.m_borders.LEFT.size +
      (sample_bar.m_bar.width - sample_bar.m_borders.LEFT.size -
        sample_bar.m_borders.RIGHT.size).tdiv 2 = 99 ∧
    (91 : Int) ≠ 99 - (18 : Int).tdiv 2 ∧ (109 : Int) ≠ 99 + (18 : Int).tdiv 2 ∧
    (run_signals sample_fontmanager (parse_reset sample_framed_bar "x")
      [directive.alignment_change alignment.CENTER, directive.action_block_open 1 "cmd",
       directive.ascii_text_write 1, directive.ascii_text_write 3]).m_xpos = 18 ∧
    (run_signals sample_fontmanager (parse_reset sample_framed_bar "x")
      [directive.alignment_change alignment.CENTER, directive.action_block_open 1 "cmd",
       directive.ascii_text_write 1, directive.ascii_text_write 3,
       directive.action_block_close 1]).m_actions =
      [{ active := false, align := alignment.CENTER, button := 1, start_x := 96, end_x := 114,
         command := "cmd" }] ∧
    sample_framed_bar.m_borders.LEFT.size +
      (sample_framed_bar.m_bar.width - sample_framed_bar.m_borders.LEFT.size -
        sample_framed_bar.m_borders.RIGHT.size).tdiv 2 = 100 ∧
    (96 : Int) ≠ 100 - (18 : Int).tdiv 2 ∧ (114 : Int) ≠ 100 + (18 : Int).tdiv 2 ∧
    (draw_border sample_framed_bar border.ALL).canvas =
      [canvas_op.fill gc.BL 0 0 10 24, canvas_op.fill gc.BR 190 0 10 24] := by
  decide

/-- What `on_action_block_close` computes for an area of the Center zone: an
area opened at cursor `s` and closed, after a run of glyphs, at cursor `x` is
the last area of the list, closed, of width `end_x - start_x = x - s`, placed by
the anchor
`base_x = (bar_width - right_border) / 2 + left_border` that `draw_shift` uses
for the glyphs: `start_x = base_x - (x - s) / 2 + s / 2`, so that for `s = 0`
and `x` even `start_x = base_x - x / 2` and `end_x = base_x + x / 2`. The
anchor is the midpoint of the interior when the left border size is 0. -/
theorem center_action_region (fm : fontmanager) (s : bar) (btn : mousebtn) (cmd : String)
    (cs : List Nat) (ha : s.m_bar.align = alignment.CENTER) :
    ∃ l r,
      (on_action_block_close (draw_characters fm (on_action_block_open s btn cmd) cs)
        (if btn = mousebtn.NONE then mousebtn.LEFT else btn)).m_actions = l ++ [r] ∧
      l.length = s.m_actions.length ∧
      r.active = false ∧ r.align = alignment.CENTER ∧
      r.button = (if btn = mousebtn.NONE then mousebtn.LEFT else btn) ∧
      r.end_x - r.start_x =
        (draw_characters fm (on_action_block_open s btn cmd) cs).m_xpos - s.m_xpos ∧
      r.start_x =
        (s.m_bar.width - s.m_borders.RIGHT.size).tdiv 2 + s.m_borders.LEFT.size -
          ((draw_characters fm (on_action_block_open s btn cmd) cs).m_xpos - s.m_xpos).tdiv 2 +
          s.m_xpos.tdiv 2 ∧
      (s.m_xpos = 0 →
        (draw_characters fm (on_action_block_open s btn cmd) cs).m_xpos.tmod 2 = 0 →
        r.start_x = (s.m_bar.width - s.m_borders.RIGHT.size).tdiv 2 + s.m_borders.LEFT.size -
            (draw_characters fm (on_action_block_open s btn cmd) cs).m_xpos.tdiv 2 ∧
        r.end_x = (s.m_bar.width - s.m_borders.RIGHT.size).tdiv 2 + s.m_borders.LEFT.size +
            (draw_characters fm (on_action_block_open s btn cmd) cs).m_xpos.tdiv 2) ∧
      (s.m_borders.LEFT.size = 0 →
        (s.m_bar.width - s.m_borders.RIGHT.size).tdiv 2 + s.m_borders.LEFT.size =
          s.m_borders.LEFT.size +
            (s.m_bar.width - s.m_borders.LEFT.size - s.m_borders.RIGHT.size).tdiv 2) := by
  have ho := on_action_block_open_actions s btn cmd
  obtain ⟨hb, hbo, d, hd⟩ := draw_characters_frame fm cs (on_action_block_open s btn cmd)
  rw [ho.1, ho.2.2.1, List.map_append, List.map_singleton, shift_action_active _ _ _ rfl] at hd
  rw [ho.2.2.1] at hb
  rw [ho.2.2.2.1] at hbo
  have hne : alignment.CENTER ≠ alignment.LEFT := by decide
  have hclose : (on_action_block_close (draw_characters fm (on_action_block_open s btn cmd) cs)
      (if btn = mousebtn.NONE then mousebtn.LEFT else btn)).m_actions =
      s.m_actions.map (shift_action s.m_bar.align d) ++
        [close_action (draw_characters fm (on_action_block_open s btn cmd) cs)
          { active := true, align := s.m_bar.align,
            button := if btn = mousebtn.NONE then mousebtn.LEFT else btn,
            start_x := s.m_xpos, end_x := 0,
            command := string_util.replace_all cmd ':' "\\:" }] := by
    unfold on_action_block_close
    dsimp only
    rw [hd, close_scan_last _ (if btn = mousebtn.NONE then mousebtn.LEFT else btn) _ _ rfl rfl]
  refine ⟨_, _, hclose, by simp, ?_⟩
  · simp only [close_action, ha, hne, if_false, if_true, hb, hbo]
    refine ⟨trivial, trivial, trivial, by ring, trivial, ?_, ?_⟩
    · intro h0 hev
      rw [h0]
      have h2 := Int.tdiv_add_tmod (draw_characters fm (on_action_block_open s btn cmd) cs).m_xpos 2
      rw [hev] at h2
      simp only [sub_zero, Int.zero_tdiv, add_zero]
      constructor
      · trivial
      · omega
    · intro hL
      rw [hL]
      simp

/-- An area around two glyphs in the Center zone of the sample bar: width 18,
starting at 91. -/
theorem center_action_region_witness :
    ({ sample_bar with m_bar := { sample_settings with align := alignment.CENTER } } : bar).m_bar.align
      = alignment.CENTER ∧
    ∃ l r,
      (on_action_block_close
        (draw_characters sample_fontmanager
          (on_action_block_open
            { sample_bar with m_bar := { sample_settings with align := alignment.CENTER } }
            1 "cmd") [1, 3])
        (if (1 : mousebtn) = mousebtn.NONE then mousebtn.LEFT else 1)).m_actions = l ++ [r] ∧
      r.end_x - r.start_x = 18 ∧ r.start_x = 91 := by
  refine ⟨by decide, ?_⟩
  obtain ⟨l, r, h, -, -, -, -, hw, hs, -⟩ := center_action_region sample_fontmanager
    { sample_bar with m_bar := { sample_settings with align := alignment.CENTER } }
    1 "cmd" [1, 3] (by decide)
  exact ⟨l, r, h, hw.trans (by decide), hs.trans (by decide)⟩

/-! ## Which area a close finalizes -/

/-- The scan finds nothing below counter `k` when no area below `k` is open with
the button: the list comes back as it is. -/
theorem close_scan_none (s : bar) (btn : mousebtn) (l : List action_block) (k : Nat)
    (h : ∀ j a, j < k → l[j]? = some a → ¬ (a.active = true ∧ a.button = btn)) :
    close_scan s btn k l = l := by
  induction k with
  | zero => rfl
  | succ k ih =>
    unfold close_scan
    cases hg : l.get? k with
    | none => rfl
    | some a =>
      dsimp only
      have hg' : l[k]? = some a := by simpa using hg
      have hn := h k a (Nat.lt_succ_self k) hg'
      have hc : (!a.active || a.button != btn) = true := by
        cases ha : a.active
        · simp
        · have : a.button ≠ btn := fun e => hn ⟨ha, e⟩
          simp [this]
      rw [if_pos hc]
      exact ih (fun j b hj hb => h j b (Nat.lt_succ_of_lt hj) hb)

/-- The scan from counter `k` finalizes the area at index `i < k` when that area
is open with the button and no area between `i` and `k` is. -/
theorem close_scan_found (s : bar) (btn : mousebtn) (l : List action_block) (i : Nat)
    (a : action_block) (hi : l[i]? = some a) (hact : a.active = true) (hbtn : a.button = btn)
    (k : Nat) (hik : i < k) (hk : k ≤ l.length)
    (h : ∀ j b, i < j → j < k → l[j]? = some b → ¬ (b.active = true ∧ b.button = btn)) :
    close_scan s btn k l = l.set i (close_action s a) := by
  induction k with
  | zero => cases hik
  | succ k ih =>
    unfold close_scan
    rcases Nat.lt_succ_iff_lt_or_eq.mp hik with hlt | heq
    · cases hg : l.get? k with
      | none =>
        have hg' : l[k]? = none := by simpa using hg
        exact absurd (List.getElem?_eq_none_iff.mp hg') (Nat.not_le.mpr hk)
      | some b =>
        dsimp only
        have hg' : l[k]? = some b := by simpa using hg
        have hn := h k b hlt (Nat.lt_succ_self k) hg'
        have hc : (!b.active || b.button != btn) = true := by
          cases hb : b.active
          · simp
          · have : b.button ≠ btn := fun e => hn ⟨hb, e⟩
            simp [this]
        rw [if_pos hc]
        exact ih hlt (Nat.le_of_succ_le hk)
          (fun j c hij hjk hc' => h j c hij (Nat.lt_succ_of_lt hjk) hc')
    · subst heq
      have hg : l.get? i = some a := by simpa using hi
      rw [hg]
      dsimp only
      have hc : ¬ ((!a.active || a.button != btn) = true) := by simp [hact, hbtn]
      rw [if_neg hc]

/-- The effect of `close_action` on the fields other than the coordinates. -/
theorem close_action_fields (s : bar) (a : action_block) :
    (close_action s a).active = false ∧ (close_action s a).align = a.align ∧
    (close_action s a).button = a.button ∧ (close_action s a).command = a.command := by
  unfold close_action
  dsimp only
  split
  · exact ⟨rfl, rfl, rfl, rfl⟩
  · split
    · exact ⟨rfl, rfl, rfl, rfl⟩
    · split <;> exact ⟨rfl, rfl, rfl, rfl⟩

/-- C9: `on_action_block_close(btn)` touches nothing but the list of areas. If
no area is open with button `btn` the list is unchanged. Otherwise, for the
greatest index `i` whose area is open with button `btn`, the list is the old
one with the area at `i` replaced by its finalized form, which is closed and
keeps its button, command and zone; the length and every other area are as
before. -/
theorem close_finalizes_most_recent_open (s : bar) (btn : mousebtn) :
    (on_action_block_close s btn).m_xpos = s.m_xpos ∧
    (on_action_block_close s btn).m_bar = s.m_bar ∧
    (on_action_block_close s btn).m_attributes = s.m_attributes ∧
    (on_action_block_close s btn).m_prevdata = s.m_prevdata ∧
    (on_action_block_close s btn).canvas = s.canvas ∧
    ((∀ a ∈ s.m_actions, ¬ (a.active = true ∧ a.button = btn)) →
      (on_action_block_close s btn).m_actions = s.m_actions) ∧
    (∀ i a, s.m_actions[i]? = some a → a.active = true → a.button = btn →
      (∀ j b, i < j → s.m_actions[j]? = some b → ¬ (b.active = true ∧ b.button = btn)) →
      (on_action_block_close s btn).m_actions = s.m_actions.set i (close_action s a) ∧
      (on_action_block_close s btn).m_actions.length = s.m_actions.length ∧
      (on_action_block_close s btn).m_actions[i]? = some (close_action s a) ∧
      (close_action s a).active = false ∧ (close_action s a).button = a.button ∧
      (close_action s a).command = a.command ∧ (close_action s a).align = a.align ∧
      (∀ j, j ≠ i → (on_action_block_close s btn).m_actions[j]? = s.m_actions[j]?)) := by
  refine ⟨rfl, rfl, rfl, rfl, rfl, ?_, ?_⟩
  · intro h
    unfold on_action_block_close
    dsimp only
    apply close_scan_none
    intro j a _ hj
    exact h a (List.mem_iff_getElem?.mpr ⟨j, hj⟩)
  · intro i a hi hact hbtn hlast
    have hil : i < s.m_actions.length := by
      rcases List.getElem?_eq_some.mp hi with ⟨hh, -⟩
      exact hh
    have hset : (on_action_block_close s btn).m_actions =
        s.m_actions.set i (close_action s a) := by
      unfold on_action_block_close
      dsimp only
      exact close_scan_found s btn s.m_actions i a hi hact hbtn _ hil (le_refl _)
        (fun j b hij _ hb => hlast j b hij hb)
    have hf := close_action_fields s a
    refine ⟨hset, ?_, ?_, hf.1, hf.2.2.1, hf.2.2.2, hf.2.1, ?_⟩
    · rw [hset, List.length_set]
    · rw [hset, List.getElem?_set_self hil]
    · intro j hj
      rw [hset, List.getElem?_set_ne (Ne.symm hj)]

/-! ## Click routing -/

/-- With a handler connected, the scan emits the command of the first area the
click falls on. -/
theorem handle_scan_find (s : bar) (button : mousebtn) (x : Int) (l : List action_block) :
    (handle_scan true s button x l).2 = (l.find? (hit button x)).map action_block.command := by
  induction l with
  | nil => rfl
  | cons a l ih =>
    unfold handle_scan
    rw [List.find?_cons]
    by_cases h1 : a.active = true
    · simp [h1, hit, ih]
    · have h1' : a.active = false := by simpa using h1
      by_cases h2 : a.button = button
      · by_cases h3 : a.start_x > x
        · have h3' : ¬ a.start_x ≤ x := not_le.mpr h3
          simp [h1', h2, h3, h3', hit, ih]
        · have h3' : a.start_x ≤ x := not_lt.mp h3
          by_cases h4 : a.end_x < x
          · have h4' : ¬ x ≤ a.end_x := not_le.mpr h4
            simp [h1', h2, h3, h3', h4, h4', hit, ih]
          · have h4' : x ≤ a.end_x := not_lt.mp h4
            simp [h1', h2, h3, h3', h4, h4', hit]
      · have h2' : (a.button == button) = false := beq_eq_false_iff_ne.mpr h2
        simp [h1', h2, h2', hit, ih]

/-- Without a handler connected nothing is emitted. -/
theorem handle_scan_unconnected (s : bar) (button : mousebtn) (x : Int) (l : List action_block) :
    (handle_scan false s button x l).2 = none := by
  induction l with
  | nil => rfl
  | cons a l ih =>
    unfold handle_scan
    split
    · exact ih
    · split
      · exact ih
      · split
        · exact ih
        · split
          · exact ih
          · rfl

/-- The scan only writes to the log. -/
theorem handle_scan_state (c : Bool) (s : bar) (button : mousebtn) (x : Int)
    (l : List action_block) :
    (handle_scan c s button x l).1.m_actions = s.m_actions ∧
    (handle_scan c s button x l).1.canvas = s.canvas ∧
    (handle_scan c s button x l).1.m_xpos = s.m_xpos := by
  induction l with
  | nil => exact ⟨rfl, rfl, rfl⟩
  | cons a l ih =>
    unfold handle_scan
    split
    · exact ih
    · split
      · exact ih
      · split
        · exact ih
        · split
          · exact ih
          · split <;> exact ⟨rfl, rfl, rfl⟩

theorem find_first (p : action_block → Bool) (as bs : List action_block) (a : action_block)
    (ha : p a = true) (hb : ∀ b ∈ as, p b = false) :
    (as ++ a :: bs).find? p = some a := by
  induction as with
  | nil => simp [List.find?_cons, ha]
  | cons c as ih =>
    have hc : p c = false := hb c (List.mem_cons_self _ _)
    rw [List.cons_append, List.find?_cons, hc]
    exact ih (fun b hb' => hb b (List.mem_cons_of_mem _ hb'))

/-- C10: for every list of areas, position and button, the button press handler
(with a handler connected to `action_click`) emits the command of the first
area in insertion order that is closed, has the button and has
`start_x <= x <= end_x`, and emits nothing when there is no such area; an
emitted command always comes from a closed area, so an open one is never
dispatched. The handler changes neither the areas nor the canvas, and with no
handler connected it emits nothing. For the
single closed area `{Left, 10, 50, "cmd"}` a Left click at 30 emits `"cmd"` and a
click at 60 emits nothing; the same area while still open is not dispatched. -/
theorem click_dispatches_first_hit (s : bar) (detail : Nat) (event_x : Int) :
    (handle true s detail event_x).2 =
      (s.m_actions.find? (hit detail event_x)).map action_block.command ∧
    (∀ as a bs, s.m_actions = as ++ a :: bs → hit detail event_x a = true →
      (∀ b ∈ as, hit detail event_x b = false) →
      (handle true s detail event_x).2 = some a.command) ∧
    ((∀ a ∈ s.m_actions, hit detail event_x a = false) →
      (handle true s detail event_x).2 = none) ∧
    (∀ cmd, (handle true s detail event_x).2 = some cmd →
      ∃ a ∈ s.m_actions, a.active = false ∧ a.button = detail ∧ a.start_x ≤ event_x ∧
        event_x ≤ a.end_x ∧ a.command = cmd) ∧
    (handle true s detail event_x).1.m_actions = s.m_actions ∧
    (handle true s detail event_x).1.canvas = s.canvas ∧
    (handle false s detail event_x).2 = none ∧
    (handle true { sample_bar with m_actions := [sample_region] } 1 30).2 = some "cmd" ∧
    (handle true { sample_bar with m_actions := [sample_region] } 1 60).2 = none ∧
    (handle true { sample_bar with m_actions := [sample_region] } 1 10).2 = some "cmd" ∧
    (handle true { sample_bar with m_actions := [sample_region] } 1 50).2 = some "cmd" ∧
    (handle true { sample_bar with m_actions := [{ sample_region with active := true }] }
      1 30).2 = none := by
  have hfind : (handle true s detail event_x).2 =
      (s.m_actions.find? (hit detail event_x)).map action_block.command :=
    handle_scan_find s detail event_x s.m_actions
  have hst := handle_scan_state true s detail event_x s.m_actions
  refine ⟨hfind, ?_, ?_, ?_, hst.1, hst.2.1, handle_scan_unconnected s detail event_x s.m_actions,
    by decide, by decide, by decide, by decide, by decide⟩
  · intro as a bs hl ha hb
    rw [hfind, hl, find_first _ as bs a ha hb]
    rfl
  · intro h
    rw [hfind, List.find?_eq_none.mpr (fun a ha => by simp [h a ha])]
    rfl
  · intro cmd hcmd
    rw [hfind] at hcmd
    cases hf : s.m_actions.find? (hit detail event_x) with
    | none => rw [hf] at hcmd; cases hcmd
    | some a =>
      rw [hf] at hcmd
      have hp : hit detail event_x a = true := List.find?_some hf
      have hm : a ∈ s.m_actions := List.mem_of_find?_eq_some hf
      simp only [hit, Bool.and_eq_true, Bool.not_eq_true', beq_iff_eq, decide_eq_true_eq] at hp
      obtain ⟨⟨⟨h1, h2⟩, h3⟩, h4⟩ := hp
      refine ⟨a, hm, h1, h2, h3, h4, ?_⟩
      simpa using hcmd

/-! ## Opening an area -/

/-- A text without the needle is left as it is. -/
theorem replace_all_chars_absent (needle : Char) (rep l : List Char) (h : needle ∉ l) :
    replace_all_chars needle rep l = l := by
  induction l with
  | nil => rfl
  | cons c cs ih =>
    have hc : c ≠ needle := fun e => h (e ▸ List.mem_cons_self _ _)
    have hcs : needle ∉ cs := fun m => h (List.mem_cons_of_mem _ m)
    simp [replace_all_chars, hc, ih hcs]

/-- After every `:` is replaced by `\:`, each `:` of the result has a backslash
right before it. -/
theorem replace_all_chars_escaped (l : List Char) (i : Nat)
    (h : (replace_all_chars ':' ['\\', ':'] l)[i]? = some ':') :
    ∃ j, i = j + 1 ∧ (replace_all_chars ':' ['\\', ':'] l)[j]? = some '\\' := by
  induction l generalizing i with
  | nil => simp [replace_all_chars] at h
  | cons c cs ih =>
    by_cases hc : c = ':'
    · subst hc
      have e : replace_all_chars ':' ['\\', ':'] (':' :: cs) =
          '\\' :: ':' :: replace_all_chars ':' ['\\', ':'] cs := by
        simp [replace_all_chars]
      rw [e] at h ⊢
      match i, h with
      | 0, h => simp at h
      | 1, _ => exact ⟨0, rfl, rfl⟩
      | k + 2, h =>
        have h' : (replace_all_chars ':' ['\\', ':'] cs)[k]? = some ':' := by simpa using h
        obtain ⟨j, hj, hb⟩ := ih k h'
        exact ⟨j + 2, by omega, by simpa using hb⟩
    · have e : replace_all_chars ':' ['\\', ':'] (c :: cs) =
          c :: replace_all_chars ':' ['\\', ':'] cs := by
        simp [replace_all_chars, hc]
      rw [e] at h ⊢
      match i, h with
      | 0, h =>
        have : c = ':' := by simpa using h
        exact absurd this hc
      | k + 1, h =>
        have h' : (replace_all_chars ':' ['\\', ':'] cs)[k]? = some ':' := by simpa using h
        obtain ⟨j, hj, hb⟩ := ih k h'
        exact ⟨j + 1, by omega, by simpa using hb⟩

/-- C11: `on_action_block_open(btn, cmd)` appends exactly one area at the end of
the list and leaves the areas already there as they are. The new area is open,
starts at the cursor, belongs to the active zone, has button `btn`, or `LEFT`
when `btn` is `NONE`, and its command is `cmd` with every `:` replaced by `\:`:
every `:` of the stored command has a backslash right before it, and a command
without `:` is stored as it is. Nothing else of the state changes. -/
theorem open_appends_escaped_region (s : bar) (btn : mousebtn) (cmd : String) :
    (on_action_block_open s btn cmd).m_actions = s.m_actions ++
      [{ active := true, align := s.m_bar.align,
         button := if btn = mousebtn.NONE then mousebtn.LEFT else btn,
         start_x := s.m_xpos, end_x := 0,
         command := string_util.replace_all cmd ':' "\\:" }] ∧
    (on_action_block_open s btn cmd).m_actions.length = s.m_actions.length + 1 ∧
    (∀ i, i < s.m_actions.length →
      (on_action_block_open s btn cmd).m_actions[i]? = s.m_actions[i]?) ∧
    (string_util.replace_all cmd ':' "\\:").data =
      replace_all_chars ':' ['\\', ':'] cmd.data ∧
    (∀ i, (string_util.replace_all cmd ':' "\\:").data[i]? = some ':' →
      ∃ j, i = j + 1 ∧ (string_util.replace_all cmd ':' "\\:").data[j]? = some '\\') ∧
    (':' ∉ cmd.data → string_util.replace_all cmd ':' "\\:" = cmd) ∧
    (on_action_block_open s btn cmd).m_xpos = s.m_xpos ∧
    (on_action_block_open s btn cmd).m_bar = s.m_bar ∧
    (on_action_block_open s btn cmd).m_attributes = s.m_attributes ∧
    (on_action_block_open s btn cmd).canvas = s.canvas ∧
    (on_action_block_open sample_bar mousebtn.NONE "a:b:c").m_actions =
      [{ active := true, align := alignment.LEFT, button := mousebtn.LEFT, start_x := 0,
         end_x := 0, command := "a\\:b\\:c" }] := by
  have ho := on_action_block_open_actions s btn cmd
  have hdata : (string_util.replace_all cmd ':' "\\:").data =
      replace_all_chars ':' ['\\', ':'] cmd.data := rfl
  refine ⟨ho.1, ?_, ?_, hdata, ?_, ?_, ho.2.1, ho.2.2.1, rfl, rfl, by decide⟩
  · rw [ho.1]
    simp
  · intro i hi
    rw [ho.1, List.getElem?_append_left hi]
  · intro i hi
    rw [hdata] at hi ⊢
    exact replace_all_chars_escaped cmd.data i hi
  · intro h
    unfold string_util.replace_all
    rw [replace_all_chars_absent _ _ _ h]

/-! ## A character without a font -/

/-- C13: when the font collaborator has no font for a character,
`draw_character` leaves the cursor, the areas, the attribute flags, the zone
and the font of the foreground context as they are and issues no painting call
at all, so no shift, fill or glyph; it only logs a warning, and the character
counts for a width of 0. -/
theorem draw_character_without_font (fm : fontmanager) (s : bar) (c : Nat)
    (hf : fm.match_char s.preferred_font c = none) :
    (draw_character fm s c).m_xpos = s.m_xpos ∧
    (draw_character fm s c).m_actions = s.m_actions ∧
    (draw_character fm s c).m_attributes = s.m_attributes ∧
    (draw_character fm s c).m_bar = s.m_bar ∧
    (draw_character fm s c).m_gcfont = s.m_gcfont ∧
    (draw_character fm s c).canvas = s.canvas ∧
    (draw_character fm s c).log = s.log ++ [log_entry.no_suitable_font c] ∧
    draw_character fm s c = s.warn (log_entry.no_suitable_font c) ∧
    glyph_width fm s.preferred_font c = 0 := by
  rw [draw_character_no_font fm s c hf]
  refine ⟨rfl, rfl, rfl, rfl, rfl, rfl, rfl, rfl, ?_⟩
  simp [glyph_width, hf]

/-- Character 0 has no font in the sample font collaborator. -/
theorem draw_character_without_font_witness :
    sample_fontmanager.match_char sample_bar.preferred_font 0 = none ∧
    ((draw_character sample_fontmanager sample_bar 0).m_xpos = sample_bar.m_xpos ∧
    (draw_character sample_fontmanager sample_bar 0).m_actions = sample_bar.m_actions ∧
    (draw_character sample_fontmanager sample_bar 0).m_attributes = sample_bar.m_attributes ∧
    (draw_character sample_fontmanager sample_bar 0).m_bar = sample_bar.m_bar ∧
    (draw_character sample_fontmanager sample_bar 0).m_gcfont = sample_bar.m_gcfont ∧
    (draw_character sample_fontmanager sample_bar 0).canvas = sample_bar.canvas ∧
    (draw_character sample_fontmanager sample_bar 0).log =
      sample_bar.log ++ [log_entry.no_suitable_font 0] ∧
    draw_character sample_fontmanager sample_bar 0 =
      sample_bar.warn (log_entry.no_suitable_font 0) ∧
    glyph_width sample_fontmanager sample_bar.preferred_font 0 = 0) :=
  ⟨by decide, draw_character_without_font sample_fontmanager sample_bar 0 (by decide)⟩

/-! ## Attribute flags -/

theorem and_two_pow_eq_zero (m k : Nat) : (m &&& 2 ^ k) = 0 ↔ m.testBit k = false := by
  constructor
  · intro h
    have h' := congrArg (fun n => n.testBit k) h
    simpa [Nat.testBit_two_pow_self] using h'
  · intro h
    apply Nat.eq_of_testBit_eq
    intro i
    rw [Nat.testBit_and, Nat.testBit_two_pow, Nat.zero_testBit]
    by_cases hki : k = i
    · subst hki
      simp [h]
    · simp [hki]

theorem testBit_set (m k j : Nat) :
    (if (m &&& 2 ^ k) ≠ 0 then m else m ||| 2 ^ k).testBit j =
      (if j = k then true else m.testBit j) := by
  by_cases h : (m &&& 2 ^ k) = 0
  · rw [if_neg (not_not.mpr h), Nat.testBit_or, Nat.testBit_two_pow]
    by_cases hj : j = k
    · subst hj
      simp
    · have hj' : ¬ k = j := fun e => hj e.symm
      simp [hj, hj']
  · rw [if_pos h]
    have hb : m.testBit k = true := by
      by_contra hb
      exact h ((and_two_pow_eq_zero m k).mpr (by simpa using hb))
    by_cases hj : j = k
    · subst hj
      simp [hb]
    · simp [hj]

theorem testBit_unset (m k j : Nat) :
    (if (m &&& 2 ^ k) = 0 then m else m ^^^ 2 ^ k).testBit j =
      (if j = k then false else m.testBit j) := by
  by_cases h : (m &&& 2 ^ k) = 0
  · rw [if_pos h]
    have hb := (and_two_pow_eq_zero m k).mp h
    by_cases hj : j = k
    · subst hj
      simp [hb]
    · simp [hj]
  · rw [if_neg h, Nat.testBit_xor, Nat.testBit_two_pow]
    have hb : m.testBit k = true := by
      by_contra hb
      exact h ((and_two_pow_eq_zero m k).mpr (by simpa using hb))
    by_cases hj : j = k
    · subst hj
      simp [hb]
    · have hj' : ¬ k = j := fun e => hj e.symm
      simp [hj, hj']

theorem testBit_toggle (m k j : Nat) :
    (m ^^^ 2 ^ k).testBit j = (if j = k then !m.testBit j else m.testBit j) := by
  rw [Nat.testBit_xor, Nat.testBit_two_pow]
  by_cases hj : j = k
  · subst hj
    simp
  · have hj' : ¬ k = j := fun e => hj e.symm
    simp [hj, hj']

/-- C15: for every flag state and every single bit attribute `2 ^ k`,
`on_attribute_set` leaves bit `k` set, `on_attribute_unset` leaves it cleared
and `on_attribute_toggle` flips it; none of the three changes another bit or
another part of the state; setting and unsetting are idempotent and toggling
twice restores the flags. The attributes `o` and `u` are such bits. -/
theorem attribute_flags_independent (s : bar) (k : Nat) :
    (∀ j, (on_attribute_set s (2 ^ k)).m_attributes.testBit j =
      (if j = k then true else s.m_attributes.testBit j)) ∧
    (∀ j, (on_attribute_unset s (2 ^ k)).m_attributes.testBit j =
      (if j = k then false else s.m_attributes.testBit j)) ∧
    (∀ j, (on_attribute_toggle s (2 ^ k)).m_attributes.testBit j =
      (if j = k then !s.m_attributes.testBit j else s.m_attributes.testBit j)) ∧
    on_attribute_set (on_attribute_set s (2 ^ k)) (2 ^ k) = on_attribute_set s (2 ^ k) ∧
    on_attribute_unset (on_attribute_unset s (2 ^ k)) (2 ^ k) = on_attribute_unset s (2 ^ k) ∧
    on_attribute_toggle (on_attribute_toggle s (2 ^ k)) (2 ^ k) = s ∧
    on_attribute_set s (2 ^ k) =
      { s with m_attributes := (on_attribute_set s (2 ^ k)).m_attributes } ∧
    on_attribute_unset s (2 ^ k) =
      { s with m_attributes := (on_attribute_unset s (2 ^ k)).m_attributes } ∧
    on_attribute_toggle s (2 ^ k) =
      { s with m_attributes := (on_attribute_toggle s (2 ^ k)).m_attributes } ∧
    attribute.o = 2 ^ 1 ∧ attribute.u = 2 ^ 2 := by
  have hset : ∀ t : bar, (on_attribute_set t (2 ^ k)).m_attributes =
      (if (t.m_attributes &&& 2 ^ k) ≠ 0 then t.m_attributes
        else t.m_attributes ||| 2 ^ k) := by
    intro t
    unfold on_attribute_set
    dsimp only
    split <;> rfl
  have hunset : ∀ t : bar, (on_attribute_unset t (2 ^ k)).m_attributes =
      (if (t.m_attributes &&& 2 ^ k) = 0 then t.m_attributes
        else t.m_attributes ^^^ 2 ^ k) := by
    intro t
    unfold on_attribute_unset
    dsimp only
    split <;> rfl
  have hset_rest : ∀ t : bar, on_attribute_set t (2 ^ k) =
      { t with m_attributes := (on_attribute_set t (2 ^ k)).m_attributes } := by
    intro t
    unfold on_attribute_set
    dsimp only
    split <;> rfl
  have hunset_rest : ∀ t : bar, on_attribute_unset t (2 ^ k) =
      { t with m_attributes := (on_attribute_unset t (2 ^ k)).m_attributes } := by
    intro t
    unfold on_attribute_unset
    dsimp only
    split <;> rfl
  refine ⟨?_, ?_, ?_, ?_, ?_, ?_, hset_rest s, hunset_rest s, rfl, rfl, rfl⟩
  · intro j
    rw [hset, testBit_set]
  · intro j
    rw [hunset, testBit_unset]
  · intro j
    exact testBit_toggle s.m_attributes k j
  · have hb : ((on_attribute_set s (2 ^ k)).m_attributes &&& 2 ^ k) ≠ 0 := by
      intro h
      have h' := (and_two_pow_eq_zero _ k).mp h
      rw [hset, testBit_set] at h'
      simp at h'
    unfold on_attribute_set at hb ⊢
    dsimp only at hb ⊢
    rw [if_pos hb]
  · have hb : ((on_attribute_unset s (2 ^ k)).m_attributes &&& 2 ^ k) = 0 := by
      apply (and_two_pow_eq_zero _ k).mpr
      rw [hunset, testBit_unset]
      simp
    unfold on_attribute_unset at hb ⊢
    dsimp only at hb ⊢
    rw [if_pos hb]
  · unfold on_attribute_toggle
    dsimp only
    have e : s.m_attributes ^^^ 2 ^ k ^^^ 2 ^ k = s.m_attributes := by
      rw [Nat.xor_assoc, Nat.xor_self, Nat.xor_zero]
    rw [e]

/-! ## What `draw_shift` does to the areas -/

/-- The list of areas after `draw_shift`: untouched in the Left zone, mapped by
the translation of the active zone elsewhere. -/
theorem draw_shift_actions (s : bar) (x w : Int) :
    (draw_shift s x w).1.m_actions =
      (if s.m_bar.align ≠ alignment.LEFT then
        s.m_actions.map (shift_action s.m_bar.align (shift_delta s.m_bar.align w))
      else s.m_actions) := by
  unfold draw_shift
  dsimp only
  by_cases hc : s.m_bar.align = alignment.CENTER
  · have hne : alignment.CENTER ≠ alignment.LEFT := by decide
    simp [hc, hne, draw_shift_finish, bar.paint, shift_delta]
  · by_cases hr : s.m_bar.align = alignment.RIGHT
    · have hne : alignment.RIGHT ≠ alignment.LEFT := by decide
      have hne' : alignment.RIGHT ≠ alignment.CENTER := by decide
      simp [hr, hne, hne', draw_shift_finish, bar.paint, shift_delta]
    · rw [if_neg hc, if_neg hr]
      unfold draw_shift_finish
      dsimp only
      by_cases hl : s.m_bar.align = alignment.LEFT
      · simp [hl, bar.paint]
      · simp [hl, hc, bar.paint, shift_delta]

/-- What `shift_action` does to one area. -/
theorem shift_action_fields (z : alignment) (d : Int) (a : action_block) :
    (shift_action z d a).button = a.button ∧
    (shift_action z d a).command = a.command ∧
    (shift_action z d a).align = a.align ∧
    (shift_action z d a).active = a.active ∧
    (shift_action z d a).end_x - (shift_action z d a).start_x = a.end_x - a.start_x ∧
    (a.active = false ∧ a.align = z →
      (shift_action z d a).start_x = a.start_x - d ∧
      (shift_action z d a).end_x = a.end_x - d) ∧
    (¬ (a.active = false ∧ a.align = z) → shift_action z d a = a) := by
  unfold shift_action
  cases hact : a.active
  · by_cases hz : a.align = z
    · simp [hact, hz]
    · simp [hact, hz]
  · simp [hact]

/-- C16: `draw_shift(x, w)` neither adds nor removes an area and changes no
button, command, zone or open flag. It changes the coordinates only of the
areas that are closed and whose zone is the active zone, and of none when the
active zone is Left: for those both `start_x` and `end_x` go down by the same
delta (`w`, halved in the Center zone), so the width stays; every other area,
open or of another zone, is exactly as before. -/
theorem draw_shift_translates_closed_areas (s : bar) (x w : Int) :
    (draw_shift s x w).1.m_actions.length = s.m_actions.length ∧
    (∀ (i : Nat) (a : action_block), s.m_actions[i]? = some a →
      ∃ b : action_block, (draw_shift s x w).1.m_actions[i]? = some b ∧
        b.button = a.button ∧ b.command = a.command ∧ b.align = a.align ∧
        b.active = a.active ∧ b.end_x - b.start_x = a.end_x - a.start_x ∧
        (a.active = false ∧ a.align = s.m_bar.align ∧ s.m_bar.align ≠ alignment.LEFT →
          b.start_x = a.start_x - shift_delta s.m_bar.align w ∧
          b.end_x = a.end_x - shift_delta s.m_bar.align w) ∧
        (¬ (a.active = false ∧ a.align = s.m_bar.align ∧ s.m_bar.align ≠ alignment.LEFT) →
          b = a)) ∧
    (s.m_bar.align = alignment.LEFT → (draw_shift s x w).1.m_actions = s.m_actions) ∧
    shift_delta alignment.CENTER w = w.tdiv 2 ∧
    shift_delta alignment.RIGHT w = w := by
  have h := draw_shift_actions s x w
  refine ⟨?_, ?_, ?_, rfl, rfl⟩
  · rw [h]
    split <;> simp
  · intro i a hi
    by_cases hl : s.m_bar.align = alignment.LEFT
    · rw [h, if_neg (not_not.mpr hl)]
      refine ⟨a, hi, rfl, rfl, rfl, rfl, rfl, ?_, fun _ => rfl⟩
      rintro ⟨-, -, hne⟩
      exact absurd hl hne
    · rw [h, if_pos hl]
      have hf := shift_action_fields s.m_bar.align (shift_delta s.m_bar.align w) a
      refine ⟨shift_action s.m_bar.align (shift_delta s.m_bar.align w) a, ?_,
        hf.1, hf.2.1, hf.2.2.1, hf.2.2.2.1, hf.2.2.2.2.1, ?_, ?_⟩
      · rw [List.getElem?_map, hi]
        rfl
      · rintro ⟨h1, h2, -⟩
        exact hf.2.2.2.2.2.1 ⟨h1, h2⟩
      · intro hn
        apply hf.2.2.2.2.2.2
        rintro ⟨h1, h2⟩
        exact hn ⟨h1, h2, hl⟩
  · intro hl
    rw [h, if_neg (not_not.mpr hl)]

/-! ## Clamping -/

/-- C17: for `min_value <= max_value`, `math_util::cap` returns a value within
the two bounds: the value itself when it lies within them, `min_value` when it
is below and `max_value` when it is above; capping twice is capping once. In
`bootstrap` the two caps come after the bounds checks, so whenever the checks
pass the width and the height stored are the ones checked, unchanged. -/
theorem cap_within_bounds {α : Type} [LinearOrder α] (value min_value max_value : α)
    (h : min_value ≤ max_value) :
    min_value ≤ math_util.cap value min_value max_value ∧
    math_util.cap value min_value max_value ≤ max_value ∧
    (min_value ≤ value → value ≤ max_value →
      math_util.cap value min_value max_value = value) ∧
    (value < min_value → math_util.cap value min_value max_value = min_value) ∧
    (max_value < value → math_util.cap value min_value max_value = max_value) ∧
    math_util.cap (math_util.cap value min_value max_value) min_value max_value =
      math_util.cap value min_value max_value ∧
    (∀ width height monitor_w monitor_h : Int,
      bootstrap_bounds width height monitor_w monitor_h =
        (if width ≤ 0 ∨ width > monitor_w then
          Except.error "Resulting bar width is out of bounds"
        else if height ≤ 0 ∨ height > monitor_h then
          Except.error "Resulting bar height is out of bounds"
        else Except.ok (width, height))) := by
  have hin : ∀ v : α, min_value ≤ v → v ≤ max_value →
      math_util.cap v min_value max_value = v := by
    intro v h1 h2
    simp [math_util.cap, min_eq_left h2, max_eq_left h1]
  have hlo : min_value ≤ math_util.cap value min_value max_value := by
    simp [math_util.cap]
  have hhi : math_util.cap value min_value max_value ≤ max_value := by
    simp [math_util.cap, h]
  refine ⟨hlo, hhi, hin value, ?_, ?_, hin _ hlo hhi, ?_⟩
  · intro hv
    have h1 : min value max_value = value := min_eq_left (le_trans (le_of_lt hv) h)
    simp [math_util.cap, h1, max_eq_right (le_of_lt hv)]
  · intro hv
    simp [math_util.cap, min_eq_right (le_of_lt hv), max_eq_left h]
  · intro width height monitor_w monitor_h
    unfold bootstrap_bounds
    by_cases hw : width ≤ 0 ∨ width > monitor_w
    · rw [if_pos hw, if_pos hw]
    · rw [if_neg hw, if_neg hw]
      by_cases hh : height ≤ 0 ∨ height > monitor_h
      · rw [if_pos hh, if_pos hh]
      · rw [if_neg hh, if_neg hh]
        have hw' : 0 ≤ width ∧ width ≤ monitor_w := by omega
        have hh' : 0 ≤ height ∧ height ≤ monitor_h := by omega
        simp [math_util.cap, min_eq_left hw'.2, max_eq_left hw'.1, min_eq_left hh'.2,
          max_eq_left hh'.1]

/-- The cap of 250 between 0 and 100, and a bar of 1920 by 24 on a monitor of
1920 by 1080. -/
theorem cap_within_bounds_witness :
    (0 : Int) ≤ 100 ∧
    math_util.cap (250 : Int) 0 100 = 100 ∧
    math_util.cap (-7 : Int) 0 100 = 0 ∧
    math_util.cap (42 : Int) 0 100 = 42 ∧
    bootstrap_bounds 1920 24 1920 1080 = Except.ok (1920, 24) := by
  have h := cap_within_bounds (250 : Int) 0 100 (by decide)
  exact ⟨by decide, h.2.2.2.2.1 (by decide), by decide, by decide,
    by simp [bootstrap_bounds, math_util.cap]⟩

/-! ## The advance of the cursor -/

theorem tmod_two_eq_zero_iff (w : Int) : w.tmod 2 = 0 ↔ w % 2 = 0 := by
  constructor
  · intro h
    have := Int.dvd_of_tmod_eq_zero h
    omega
  · intro h
    apply Int.tmod_eq_zero_of_dvd
    omega

/-- The width used in the Center zone is the measured width rounded up to an
even number; elsewhere it is the measured width. -/
theorem corrected_width_eq (z : alignment) (w : Int) :
    corrected_width z w =
      (if z = alignment.CENTER then (if w % 2 = 0 then w else w + 1) else w) ∧
    (corrected_width alignment.CENTER w) % 2 = 0 := by
  unfold corrected_width
  have h := tmod_two_eq_zero_iff w
  constructor
  · by_cases hz : z = alignment.CENTER
    · by_cases hw : w % 2 = 0
      · simp [hz, hw, h.mpr hw]
      · have hw' : ¬ w.tmod 2 = 0 := fun e => hw (h.mp e)
        simp [hz, hw, hw']
    · simp [hz]
  · by_cases hw : w % 2 = 0
    · simp [hw, h.mpr hw]
    · have hw' : ¬ w.tmod 2 = 0 := fun e => hw (h.mp e)
      simp only [true_and, ne_eq, hw', not_false_eq_true, if_true]
      omega

/-- The cursor after `draw_character`, in any zone: advanced by the corrected
width of the matched font, or left alone when no font matches. -/
theorem draw_character_cursor (fm : fontmanager) (s : bar) (c : Nat) :
    (draw_character fm s c).m_xpos = s.m_xpos +
      (match fm.match_char s.preferred_font c with
       | none => 0
       | some font => corrected_width s.m_bar.align (fm.char_width font c)) ∧
    (draw_character fm s c).m_bar = s.m_bar := by
  cases hf : fm.match_char s.preferred_font c with
  | none =>
    rw [draw_character_no_font fm s c hf]
    simp [bar.warn]
  | some font =>
    have h := draw_character_fields fm s c font hf
    have hd := draw_shift_frame (select_font s font) s.m_xpos
      (corrected_width s.m_bar.align (fm.char_width font c))
    have hs := select_font_fields s font
    dsimp only
    refine ⟨?_, (draw_character_frame fm s c).1⟩
    rw [h.1, hd.1, hs.1]

/-- In the Center zone a run keeps an even cursor even. -/
theorem draw_characters_center_even (fm : fontmanager) (cs : List Nat) (s : bar)
    (ha : s.m_bar.align = alignment.CENTER) (hx : s.m_xpos % 2 = 0) :
    (draw_characters fm s cs).m_xpos % 2 = 0 := by
  induction cs generalizing s with
  | nil => exact hx
  | cons c cs ih =>
    rw [draw_characters_cons]
    have h := draw_character_cursor fm s c
    apply ih
    · rw [h.2]
      exact ha
    · rw [h.1]
      cases hf : fm.match_char s.preferred_font c with
      | none => simpa using hx
      | some font =>
        dsimp only
        rw [ha]
        have := (corrected_width_eq alignment.CENTER (fm.char_width font c)).2
        omega

/-- C19: `draw_character` on a character with a font of measured width `w`
advances the cursor by exactly `w` in the Left and the Right zone, and in the
Center zone by `w` when `w` is even and by `w + 1` when `w` is odd, which is
always an even amount. Hence a run of characters drawn in the Center zone from
cursor 0 leaves an even cursor, whatever the run, so the cursor is even all
the way through. -/
theorem cursor_advance (fm : fontmanager) (s : bar) (c : Nat) (font : font_t)
    (hf : fm.match_char s.preferred_font c = some font) :
    (s.m_bar.align = alignment.LEFT ∨ s.m_bar.align = alignment.RIGHT →
      (draw_character fm s c).m_xpos = s.m_xpos + fm.char_width font c) ∧
    (s.m_bar.align = alignment.CENTER →
      (draw_character fm s c).m_xpos = s.m_xpos +
        (if fm.char_width font c % 2 = 0 then fm.char_width font c
          else fm.char_width font c + 1) ∧
      ((draw_character fm s c).m_xpos - s.m_xpos) % 2 = 0) ∧
    (s.m_bar.align = alignment.CENTER → s.m_xpos = 0 →
      ∀ cs : List Nat, (draw_characters fm s cs).m_xpos % 2 = 0) := by
  have h := (draw_character_cursor fm s c).1
  rw [hf] at h
  dsimp only at h
  have hw := corrected_width_eq s.m_bar.align (fm.char_width font c)
  refine ⟨?_, ?_, ?_⟩
  · intro hz
    have hne : s.m_bar.align ≠ alignment.CENTER := by
      rcases hz with hz | hz <;> rw [hz] <;> decide
    rw [h, hw.1, if_neg hne]
  · intro hz
    rw [h, hw.1, if_pos hz]
    refine ⟨rfl, ?_⟩
    split <;> omega
  · intro hz h0 cs
    exact draw_characters_center_even fm cs s hz (by rw [h0]; rfl)

/-- The sample font collaborator gives character 2 the odd width 9: drawn in the
Center zone from cursor 0 it advances the cursor to 10. -/
theorem cursor_advance_witness :
    sample_fontmanager.match_char
        ({ sample_bar with m_bar := { sample_settings with align := alignment.CENTER } } :
          bar).preferred_font 2 = some ⟨1, true, 10, 2, 0⟩ ∧
    sample_fontmanager.char_width ⟨1, true, 10, 2, 0⟩ 2 = 9 ∧
    (draw_character sample_fontmanager
        { sample_bar with m_bar := { sample_settings with align := alignment.CENTER } }
        2).m_xpos = 10 :=
  ⟨by decide, by decide,
    (((cursor_advance sample_fontmanager
      { sample_bar with m_bar := { sample_settings with align := alignment.CENTER } }
      2 ⟨1, true, 10, 2, 0⟩ (by decide)).2.1 (by decide)).1).trans (by decide)⟩

/-! ## Changing the zone -/

/-- C20: `on_alignment_change(z)` returns the state as it is when `z` is the
active zone. Otherwise the zone becomes `z` and the cursor becomes the left
border size for Left, the right border size for Right and 0 for Center, a value
in which the previous cursor has no part; the areas, the flags and everything
else stay in both cases. So after a parse started with a Left tray
reservation, leaving the Left zone and entering it again puts the cursor at the
left border size: the reservation is gone, and the cursor a zone had before is
not restored. -/
theorem alignment_change_resets_cursor (s : bar) (z : alignment) (data : String) :
    on_alignment_change s s.m_bar.align = s ∧
    on_alignment_change s z =
      (if z = s.m_bar.align then s
       else { s with
         m_bar := { s.m_bar with align := z },
         m_xpos := (if z = alignment.LEFT then s.m_borders.LEFT.size
           else if z = alignment.RIGHT then s.m_borders.RIGHT.size else 0) }) ∧
    (on_alignment_change s z).m_actions = s.m_actions ∧
    (on_alignment_change s z).m_attributes = s.m_attributes ∧
    (on_alignment_change s z).m_bar.align = z ∧
    (on_alignment_change (parse_reset s data) alignment.LEFT).m_xpos =
      (parse_reset s data).m_xpos ∧
    (on_alignment_change (on_alignment_change (parse_reset s data) alignment.CENTER)
      alignment.LEFT).m_xpos = s.m_borders.LEFT.size ∧
    (on_alignment_change (on_alignment_change (parse_reset s data) alignment.RIGHT)
      alignment.LEFT).m_xpos = s.m_borders.LEFT.size ∧
    (on_alignment_change (parse_reset s data) alignment.CENTER).m_xpos = 0 ∧
    (on_alignment_change (parse_reset s data) alignment.RIGHT).m_xpos =
      s.m_borders.RIGHT.size := by
  have hr := parse_reset_fields s data
  have hgen : ∀ (t : bar) (y : alignment), on_alignment_change t y =
      (if y = t.m_bar.align then t
       else { t with
         m_bar := { t.m_bar with align := y },
         m_xpos := (if y = alignment.LEFT then t.m_borders.LEFT.size
           else if y = alignment.RIGHT then t.m_borders.RIGHT.size else 0) }) := by
    intro t y
    unfold on_alignment_change
    by_cases h : y = t.m_bar.align
    · rw [if_pos h, if_pos h]
    · rw [if_neg h, if_neg h]
      dsimp only
      by_cases hl : y = alignment.LEFT
      · rw [if_pos hl, if_pos hl]
      · rw [if_neg hl, if_neg hl]
        by_cases hright : y = alignment.RIGHT
        · rw [if_pos hright, if_pos hright]
        · rw [if_neg hright, if_neg hright]
  have hc : alignment.CENTER ≠ alignment.LEFT := by decide
  have hrl : alignment.RIGHT ≠ alignment.LEFT := by decide
  have hrc : alignment.RIGHT ≠ alignment.CENTER := by decide
  refine ⟨?_, hgen s z, ?_, ?_, ?_, ?_, ?_, ?_, ?_, ?_⟩
  · rw [hgen, if_pos rfl]
  · rw [hgen]
    split <;> rfl
  · rw [hgen]
    split <;> rfl
  · rw [hgen]
    split
    · next h => exact h.symm
    · rfl
  · rw [hgen, if_pos hr.2.1.symm]
  · rw [hgen, hgen]
    simp [hr.2.1, hc, hc.symm, hr.2.2.2.2.1]
  · rw [hgen, hgen]
    simp [hr.2.1, hrl, hrl.symm, hr.2.2.2.2.1]
  · rw [hgen]
    simp [hr.2.1, hc, hc.symm]
  · rw [hgen]
    simp [hr.2.1, hrl, hrl.symm, hrc, hr.2.2.2.2.1]

/-! ## The block copy of the Center and the Right zone -/

theorem copy_moves_append (a b : List canvas_op) :
    copy_moves (a ++ b) = copy_moves a ++ copy_moves b := by
  induction a with
  | nil => rfl
  | cons op a ih => cases op <;> simp [copy_moves, ih]

theorem copy_moves_draw_lines (s : bar) (x w : Int) :
    copy_moves (draw_lines s x w).canvas = copy_moves s.canvas := by
  unfold draw_lines
  split
  · rfl
  · dsimp only
    split <;> split <;> simp [bar.paint, copy_moves_append, copy_moves]

theorem copy_moves_select_font (s : bar) (font : font_t) :
    copy_moves (select_font s font).canvas = copy_moves s.canvas := by
  unfold select_font
  split <;> simp [bar.paint, copy_moves_append, copy_moves]

/-- The block copies after a character with a font: those of the `draw_shift`
it causes. -/
theorem copy_moves_draw_character (fm : fontmanager) (s : bar) (c : Nat) (font : font_t)
    (hf : fm.match_char s.preferred_font c = some font) :
    copy_moves (draw_character fm s c).canvas =
      copy_moves (draw_shift (select_font s font) s.m_xpos
        (corrected_width s.m_bar.align (fm.char_width font c))).1.canvas := by
  rw [draw_character_matched fm s c font hf]
  have hx : (select_font s font).m_xpos = s.m_xpos := (select_font_fields s font).1
  rw [hx]
  show copy_moves (draw_lines _ _ _).canvas = _
  rw [copy_moves_draw_lines]
  simp only [bar.paint, copy_moves_append]
  unfold glyph_op
  split <;> simp [copy_moves]

/-- The Center zone case of `draw_shift`: the strip of width `x` that starts at
`base_x - x / 2` is copied to `base_x - (x + w) / 2` and `x` becomes
`base_x - (x + w) / 2 + x`, for `base_x = (width - right) / 2 + left`. -/
theorem draw_shift_center (s : bar) (x w : Int) (ha : s.m_bar.align = alignment.CENTER) :
    (draw_shift s x w).2 =
      (s.m_bar.width - s.m_borders.RIGHT.size).tdiv 2 + s.m_borders.LEFT.size -
        (x + w).tdiv 2 + x ∧
    copy_moves (draw_shift s x w).1.canvas = copy_moves s.canvas ++
      [((s.m_bar.width - s.m_borders.RIGHT.size).tdiv 2 + s.m_borders.LEFT.size - x.tdiv 2,
        (s.m_bar.width - s.m_borders.RIGHT.size).tdiv 2 + s.m_borders.LEFT.size -
          (x + w).tdiv 2, x)] ∧
    (draw_shift s x w).1.m_actions =
      s.m_actions.map (shift_action alignment.CENTER (w.tdiv 2)) := by
  have hne : alignment.CENTER ≠ alignment.LEFT := by decide
  simp [draw_shift, draw_shift_finish, ha, hne, bar.paint, copy_moves_append, copy_moves]

/-- The block copy of the Right zone case of `draw_shift`: the strip of width `x`
that starts at `width - x` is copied to `width - x - w`. -/
theorem draw_shift_right_copy (s : bar) (x w : Int) (ha : s.m_bar.align = alignment.RIGHT) :
    copy_moves (draw_shift s x w).1.canvas = copy_moves s.canvas ++
      [(s.m_bar.width - x, s.m_bar.width - x - w, x)] := by
  have hne : alignment.RIGHT ≠ alignment.CENTER := by decide
  have hne' : alignment.RIGHT ≠ alignment.LEFT := by decide
  simp [draw_shift, draw_shift_finish, ha, hne, hne', bar.paint, copy_moves_append, copy_moves]

theorem tdiv_two_of_even (x : Int) (h : x % 2 = 0) : x.tdiv 2 = x / 2 := by
  have h1 := Int.tdiv_add_tmod x 2
  have h2 := (tmod_two_eq_zero_iff x).mpr h
  rw [h2] at h1
  omega

/-- A run drawn in any zone keeps the preferred font index. -/
theorem draw_characters_preferred_font (fm : fontmanager) (cs : List Nat) (s : bar) :
    (draw_characters fm s cs).preferred_font = s.preferred_font := by
  induction cs generalizing s with
  | nil => rfl
  | cons c cs ih =>
    rw [draw_characters_cons, ih]
    cases hf : fm.match_char s.preferred_font c with
    | none => rw [draw_character_no_font fm s c hf]; rfl
    | some font =>
      rw [(draw_character_fields fm s c font hf).2.2.2.2.1,
        (draw_shift_frame _ _ _).2.2.2.1, (select_font_fields s font).2.2.2.2.1]

/-- A character with a font drawn in the Center zone, in terms of the anchor
`base_x = (width - right) / 2 + left`. -/
theorem draw_character_center (fm : fontmanager) (s : bar) (c : Nat) (font : font_t)
    (ha : s.m_bar.align = alignment.CENTER)
    (hf : fm.match_char s.preferred_font c = some font) :
    (draw_character fm s c).m_xpos =
      s.m_xpos + corrected_width alignment.CENTER (fm.char_width font c) ∧
    copy_moves (draw_character fm s c).canvas = copy_moves s.canvas ++
      [((s.m_bar.width - s.m_borders.RIGHT.size).tdiv 2 + s.m_borders.LEFT.size -
          s.m_xpos.tdiv 2,
        (s.m_bar.width - s.m_borders.RIGHT.size).tdiv 2 + s.m_borders.LEFT.size -
          (s.m_xpos + corrected_width alignment.CENTER (fm.char_width font c)).tdiv 2,
        s.m_xpos)] ∧
    glyph_xs (draw_character fm s c).canvas = glyph_xs s.canvas ++
      [(s.m_bar.width - s.m_borders.RIGHT.size).tdiv 2 + s.m_borders.LEFT.size -
          (s.m_xpos + corrected_width alignment.CENTER (fm.char_width font c)).tdiv 2 +
          s.m_xpos] ∧
    (draw_character fm s c).m_actions = s.m_actions.map
      (shift_action alignment.CENTER
        ((corrected_width alignment.CENTER (fm.char_width font c)).tdiv 2)) := by
  have h := draw_character_fields fm s c font hf
  have hc := copy_moves_draw_character fm s c font hf
  have hs := select_font_fields s font
  have ha' : (select_font s font).m_bar.align = alignment.CENTER := by rw [hs.2.1]; exact ha
  rw [ha] at h hc
  have hd := draw_shift_center (select_font s font) s.m_xpos
    (corrected_width alignment.CENTER (fm.char_width font c)) ha'
  have hfr := draw_shift_frame (select_font s font) s.m_xpos
    (corrected_width alignment.CENTER (fm.char_width font c))
  rw [hs.2.1, hs.2.2.1] at hd
  refine ⟨?_, ?_, ?_, ?_⟩
  · rw [h.1, hfr.1, hs.1]
  · rw [hc, hd.2.1, copy_moves_select_font]
  · rw [h.2.2.2.2.2.2, hd.1]
    congr 1
    unfold draw_shift
    simp only [ha', if_true]
    unfold draw_shift_finish
    have hne : alignment.CENTER ≠ alignment.LEFT := by decide
    simp [bar.paint, ha', hne, glyph_xs_append, glyph_xs, glyph_x, hs.2.2.2.2.2.2.2]
    exact hs.2.2.2.2.2.2.2
  · rw [h.2.2.2.1, hd.2.2, hs.2.2.2.1]

/-! ## A run in the Center zone -/

/-- C14: the anchor of `draw_shift` is off the midpoint of the interior when
there is a left border. On the bar 200 wide with borders 2 and 4 the first
glyph of a Center run, of width 8, is drawn at 96 after a copy to 96, about
`(200 - 4) / 2 + 2 = 100`, and not at `99 - 8 / 2 = 95`, about the midpoint
`2 + (200 - 2 - 4) / 2 = 99` of the interior. On the bar 200 wide with borders
10 and 10, whose borders `draw_border` paints on `[0, 10]` and `[190, 200]`, a
run of widths 8 and 10 has its glyphs drawn at 101 and 104 and its earlier
content moved to 96: it occupies `[96, 114]`, about 105, while the midpoint of
the interior is 100. -/
theorem center_run_not_about_interior_midpoint :
    (run_signals sample_fontmanager (parse_reset sample_bar "x")
      [directive.alignment_change alignment.CENTER]).m_xpos = 0 ∧
    (run_signals sample_fontmanager (parse_reset sample_bar "x")
      [directive.alignment_change alignment.CENTER, directive.ascii_text_write 1]).m_xpos = 8 ∧
    glyph_xs (run_signals sample_fontmanager (parse_reset sample_bar "x")
      [directive.alignment_change alignment.CENTER, directive.ascii_text_write 1]).canvas =
      [96] ∧
    copy_moves (run_signals sample_fontmanager (parse_reset sample_bar "x")
      [directive.alignment_change alignment.CENTER, directive.ascii_text_write 1]).canvas =
      [(100, 96, 0)] ∧
    sample_bar.m_borders.LEFT.size +
      (sample_bar.m_bar.width - sample_bar.m_borders.LEFT.size -
        sample_bar.m_borders.RIGHT.size).tdiv 2 = 99 ∧
    (96 : Int) ≠ 99 - (8 : Int).tdiv 2 + (8 - 8) ∧
    (run_signals sample_fontmanager (parse_reset sample_framed_bar "x")
      [directive.alignment_change alignment.CENTER, directive.ascii_text_write 1,
       directive.ascii_text_write 3]).m_xpos = 18 ∧
    glyph_xs (run_signals sample_fontmanager (parse_reset sample_framed_bar "x")
      [directive.alignment_change alignment.CENTER, directive.ascii_text_write 1,
       directive.ascii_text_write 3]).canvas = [101, 104] ∧
    copy_moves (run_signals sample_fontmanager (parse_reset sample_framed_bar "x")
      [directive.alignment_change alignment.CENTER, directive.ascii_text_write 1,
       directive.ascii_text_write 3]).canvas = [(105, 101, 0), (101, 96, 8)] ∧
    sample_framed_bar.m_borders.LEFT.size +
      (sample_framed_bar.m_bar.width - sample_framed_bar.m_borders.LEFT.size -
        sample_framed_bar.m_borders.RIGHT.size).tdiv 2 = 100 ∧
    (104 : Int) ≠ 100 - (18 : Int).tdiv 2 + (18 - 10) ∧
    (96 : Int) ≠ 100 - (18 : Int).tdiv 2 ∧
    (draw_border sample_framed_bar border.ALL).canvas =
      [canvas_op.fill gc.BL 0 0 10 24, canvas_op.fill gc.BR 190 0 10 24] := by
  decide

/-- What `draw_shift` computes in a Center run drawn from cursor 0, whatever
the length of the run, for every glyph, of corrected width `w` and with `X` the
cursor after it: `X` is even, `draw_shift` copies the earlier content, of width
`X - w`, to start at `base_x - X / 2` and the glyph is drawn at
`base_x - X / 2 + (X - w)`, so that its right end is `base_x + X / 2` and the
run occupies `[base_x - X / 2, base_x + X / 2]`. Here `base_x` is the anchor
`(bar_width - right_border) / 2 + left_border` of the code, which is the
midpoint of the interior when the left border size is 0. -/
theorem center_run_symmetric (fm : fontmanager) (s : bar) (cs : List Nat) (c : Nat)
    (font : font_t) (ha : s.m_bar.align = alignment.CENTER) (h0 : s.m_xpos = 0)
    (hf : fm.match_char s.preferred_font c = some font) :
    (draw_character fm (draw_characters fm s cs) c).m_xpos =
      (draw_characters fm s cs).m_xpos +
        corrected_width alignment.CENTER (fm.char_width font c) ∧
    (draw_characters fm s cs).m_xpos % 2 = 0 ∧
    (draw_character fm (draw_characters fm s cs) c).m_xpos % 2 = 0 ∧
    copy_moves (draw_character fm (draw_characters fm s cs) c).canvas =
      copy_moves (draw_characters fm s cs).canvas ++
        [((s.m_bar.width - s.m_borders.RIGHT.size).tdiv 2 + s.m_borders.LEFT.size -
            (draw_characters fm s cs).m_xpos / 2,
          (s.m_bar.width - s.m_borders.RIGHT.size).tdiv 2 + s.m_borders.LEFT.size -
            (draw_character fm (draw_characters fm s cs) c).m_xpos / 2,
          (draw_characters fm s cs).m_xpos)] ∧
    glyph_xs (draw_character fm (draw_characters fm s cs) c).canvas =
      glyph_xs (draw_characters fm s cs).canvas ++
        [(s.m_bar.width - s.m_borders.RIGHT.size).tdiv 2 + s.m_borders.LEFT.size -
            (draw_character fm (draw_characters fm s cs) c).m_xpos / 2 +
            (draw_characters fm s cs).m_xpos] ∧
    (s.m_bar.width - s.m_borders.RIGHT.size).tdiv 2 + s.m_borders.LEFT.size -
        (draw_character fm (draw_characters fm s cs) c).m_xpos / 2 +
        (draw_characters fm s cs).m_xpos +
        corrected_width alignment.CENTER (fm.char_width font c) =
      (s.m_bar.width - s.m_borders.RIGHT.size).tdiv 2 + s.m_borders.LEFT.size +
        (draw_character fm (draw_characters fm s cs) c).m_xpos / 2 ∧
    (s.m_borders.LEFT.size = 0 →
      (s.m_bar.width - s.m_borders.RIGHT.size).tdiv 2 + s.m_borders.LEFT.size =
        s.m_borders.LEFT.size +
          (s.m_bar.width - s.m_borders.LEFT.size - s.m_borders.RIGHT.size).tdiv 2) := by
  obtain ⟨hb, hbo, -⟩ := draw_characters_frame fm cs s
  have hpf := draw_characters_preferred_font fm cs s
  have ha' : (draw_characters fm s cs).m_bar.align = alignment.CENTER := by rw [hb]; exact ha
  have hf' : fm.match_char (draw_characters fm s cs).preferred_font c = some font := by
    rw [hpf]; exact hf
  have hev : (draw_characters fm s cs).m_xpos % 2 = 0 :=
    draw_characters_center_even fm cs s ha (by rw [h0]; rfl)
  have hw := (corrected_width_eq alignment.CENTER (fm.char_width font c)).2
  obtain ⟨h1, h2, h3, -⟩ := draw_character_center fm (draw_characters fm s cs) c font ha' hf'
  rw [hb, hbo] at h2 h3
  have hev' : (draw_character fm (draw_characters fm s cs) c).m_xpos % 2 = 0 := by
    rw [h1]; omega
  have e1 := tdiv_two_of_even _ hev
  have e2 : ((draw_characters fm s cs).m_xpos +
      corrected_width alignment.CENTER (fm.char_width font c)).tdiv 2 =
      (draw_character fm (draw_characters fm s cs) c).m_xpos / 2 := by
    rw [← h1]
    exact tdiv_two_of_even _ hev'
  rw [e1, e2] at h2
  rw [e2] at h3
  refine ⟨h1, hev, hev', h2, h3, ?_, ?_⟩
  · rw [h1] at hev' ⊢
    omega
  · intro hL
    rw [hL]
    simp

/-- Two glyphs of a Center run on the sample bar: the second, of corrected
width 10, brings the cursor to 18 and is drawn at `100 - 9 + 8`. -/
theorem center_run_symmetric_witness :
    ({ sample_bar with m_bar := { sample_settings with align := alignment.CENTER } } :
      bar).m_bar.align = alignment.CENTER ∧
    ({ sample_bar with m_bar := { sample_settings with align := alignment.CENTER } } :
      bar).m_xpos = 0 ∧
    sample_fontmanager.match_char
      ({ sample_bar with m_bar := { sample_settings with align := alignment.CENTER } } :
        bar).preferred_font 3 = some ⟨1, true, 10, 2, 0⟩ ∧
    (draw_character sample_fontmanager
      (draw_characters sample_fontmanager
        { sample_bar with m_bar := { sample_settings with align := alignment.CENTER } } [1])
      3).m_xpos = 18 ∧
    glyph_xs (draw_character sample_fontmanager
      (draw_characters sample_fontmanager
        { sample_bar with m_bar := { sample_settings with align := alignment.CENTER } } [1])
      3).canvas = [96, 99] := by
  have h := center_run_symmetric sample_fontmanager
    { sample_bar with m_bar := { sample_settings with align := alignment.CENTER } } [1] 3
    ⟨1, true, 10, 2, 0⟩ (by decide) (by decide) (by decide)
  exact ⟨by decide, by decide, by decide, h.1.trans (by decide), h.2.2.2.2.1.trans (by decide)⟩

/-! ## How far a glyph shifts its zone -/

/-- The block copy caused by a character with a font in the Right zone. -/
theorem draw_character_right_copy (fm : fontmanager) (s : bar) (c : Nat) (font : font_t)
    (ha : s.m_bar.align = alignment.RIGHT)
    (hf : fm.match_char s.preferred_font c = some font) :
    copy_moves (draw_character fm s c).canvas = copy_moves s.canvas ++
      [(s.m_bar.width - s.m_xpos, s.m_bar.width - s.m_xpos - fm.char_width font c,
        s.m_xpos)] ∧
    (draw_character fm s c).m_actions =
      s.m_actions.map (shift_action alignment.RIGHT (fm.char_width font c)) := by
  have hne : alignment.RIGHT ≠ alignment.CENTER := by decide
  have hc := copy_moves_draw_character fm s c font hf
  have hs := select_font_fields s font
  have ha' : (select_font s font).m_bar.align = alignment.RIGHT := by rw [hs.2.1]; exact ha
  have hw : corrected_width s.m_bar.align (fm.char_width font c) = fm.char_width font c := by
    simp [corrected_width, ha, hne]
  rw [hw] at hc
  have hd := draw_shift_right_copy (select_font s font) s.m_xpos (fm.char_width font c) ha'
  rw [hs.2.1] at hd
  have hr := (draw_character_right fm s c ha).2.2.2.1
  have hgw : glyph_width fm s.preferred_font c = fm.char_width font c := by
    simp [glyph_width, hf]
  rw [hgw] at hr
  exact ⟨by rw [hc, hd, copy_moves_select_font], hr⟩

/-- C18, in the Center zone: a closed area `[91, 109]` of the Center zone and a
new glyph of width 8. The area becomes `[87, 105]` and the earlier pixels are
copied from 91 to 87: both move by 4, half the width, not by 8. -/
theorem center_glyph_shifts_by_half_width :
    (run_signals sample_fontmanager (parse_reset sample_bar "x")
      [directive.alignment_change alignment.CENTER, directive.action_block_open 1 "cmd",
       directive.ascii_text_write 1, directive.ascii_text_write 3,
       directive.action_block_close 1]).m_actions =
      [{ active := false, align := alignment.CENTER, button := 1, start_x := 91, end_x := 109,
         command := "cmd" }] ∧
    sample_fontmanager.char_width ⟨1, true, 10, 2, 0⟩ 1 = 8 ∧
    (run_signals sample_fontmanager (parse_reset sample_bar "x")
      [directive.alignment_change alignment.CENTER, directive.action_block_open 1 "cmd",
       directive.ascii_text_write 1, directive.ascii_text_write 3,
       directive.action_block_close 1, directive.ascii_text_write 1]).m_actions =
      [{ active := false, align := alignment.CENTER, button := 1, start_x := 87, end_x := 105,
         command := "cmd" }] ∧
    copy_moves (run_signals sample_fontmanager (parse_reset sample_bar "x")
      [directive.alignment_change alignment.CENTER, directive.action_block_open 1 "cmd",
       directive.ascii_text_write 1, directive.ascii_text_write 3,
       directive.action_block_close 1, directive.ascii_text_write 1]).canvas =
      [(100, 96, 0), (96, 91, 8), (91, 87, 18)] ∧
    (91 : Int) - 8 ≠ 87 ∧ (109 : Int) - 8 ≠ 105 := by
  decide

/-- C18, amended: when a glyph of corrected width `w` is drawn with the cursor
at `x`, in the Right zone the strip of the earlier pixels is copied from
`width - x` to `width - x - w`, a shift by exactly `w`, and every closed area of
the Right zone has `start_x` and `end_x` lowered by `w`; in the Center zone the
strip is copied from `base_x - x / 2` to `base_x - (x + w) / 2`, a shift by
`w / 2` when `x` is even, and every closed area of the Center zone has `start_x`
and `end_x` lowered by that same `w / 2`, half the even width `w`. -/
theorem glyph_shifts_zone (fm : fontmanager) (s : bar) (c : Nat) (font : font_t)
    (hf : fm.match_char s.preferred_font c = some font) :
    (s.m_bar.align = alignment.RIGHT →
      copy_moves (draw_character fm s c).canvas = copy_moves s.canvas ++
        [(s.m_bar.width - s.m_xpos, s.m_bar.width - s.m_xpos - fm.char_width font c,
          s.m_xpos)] ∧
      (draw_character fm s c).m_actions =
        s.m_actions.map (shift_action alignment.RIGHT (fm.char_width font c)) ∧
      (∀ a : action_block, a.active = false → a.align = alignment.RIGHT →
        (shift_action alignment.RIGHT (fm.char_width font c) a).start_x =
          a.start_x - fm.char_width font c ∧
        (shift_action alignment.RIGHT (fm.char_width font c) a).end_x =
          a.end_x - fm.char_width font c)) ∧
    (s.m_bar.align = alignment.CENTER →
      copy_moves (draw_character fm s c).canvas = copy_moves s.canvas ++
        [((s.m_bar.width - s.m_borders.RIGHT.size).tdiv 2 + s.m_borders.LEFT.size -
            s.m_xpos.tdiv 2,
          (s.m_bar.width - s.m_borders.RIGHT.size).tdiv 2 + s.m_borders.LEFT.size -
            (s.m_xpos + corrected_width alignment.CENTER (fm.char_width font c)).tdiv 2,
          s.m_xpos)] ∧
      (s.m_xpos % 2 = 0 →
        (s.m_bar.width - s.m_borders.RIGHT.size).tdiv 2 + s.m_borders.LEFT.size -
            (s.m_xpos + corrected_width alignment.CENTER (fm.char_width font c)).tdiv 2 =
          (s.m_bar.width - s.m_borders.RIGHT.size).tdiv 2 + s.m_borders.LEFT.size -
            s.m_xpos.tdiv 2 - corrected_width alignment.CENTER (fm.char_width font c) / 2) ∧
      (draw_character fm s c).m_actions = s.m_actions.map
        (shift_action alignment.CENTER
          (corrected_width alignment.CENTER (fm.char_width font c) / 2)) ∧
      2 * (corrected_width alignment.CENTER (fm.char_width font c) / 2) =
        corrected_width alignment.CENTER (fm.char_width font c) ∧
      (∀ a : action_block, a.active = false → a.align = alignment.CENTER →
        (shift_action alignment.CENTER
            (corrected_width alignment.CENTER (fm.char_width font c) / 2) a).start_x =
          a.start_x - corrected_width alignment.CENTER (fm.char_width font c) / 2 ∧
        (shift_action alignment.CENTER
            (corrected_width alignment.CENTER (fm.char_width font c) / 2) a).end_x =
          a.end_x - corrected_width alignment.CENTER (fm.char_width font c) / 2)) := by
  constructor
  · intro ha
    have h := draw_character_right_copy fm s c font ha hf
    refine ⟨h.1, h.2, ?_⟩
    intro a h1 h2
    exact (shift_action_fields alignment.RIGHT (fm.char_width font c) a).2.2.2.2.2.1 ⟨h1, h2⟩
  · intro ha
    obtain ⟨-, h2, -, h4⟩ := draw_character_center fm s c font ha hf
    have hw := (corrected_width_eq alignment.CENTER (fm.char_width font c)).2
    have e := tdiv_two_of_even _ hw
    rw [e] at h4
    refine ⟨h2, ?_, h4, by omega, ?_⟩
    · intro hx
      have hsum : (s.m_xpos + corrected_width alignment.CENTER (fm.char_width font c)) % 2 = 0 := by
        omega
      rw [tdiv_two_of_even _ hsum, tdiv_two_of_even _ hx]
      omega
    · intro a h1 h2
      exact (shift_action_fields alignment.CENTER _ a).2.2.2.2.2.1 ⟨h1, h2⟩

/-- A closed area `[179, 196]` of the Right zone on the sample bar and a new
glyph of width 10: the area becomes `[169, 186]`. -/
theorem glyph_shifts_zone_witness :
    sample_fontmanager.match_char sample_bar.preferred_font 3 = some ⟨1, true, 10, 2, 0⟩ ∧
    sample_fontmanager.char_width ⟨1, true, 10, 2, 0⟩ 3 = 10 ∧
    (draw_character sample_fontmanager
      { sample_bar with
        m_bar := { sample_settings with align := alignment.RIGHT },
        m_xpos := 21,
        m_actions := [{ active := false, align := alignment.RIGHT, button := 1,
                        start_x := 179, end_x := 196, command := "cmd" }] } 3).m_actions =
      [{ active := false, align := alignment.RIGHT, button := 1, start_x := 169, end_x := 186,
         command := "cmd" }] :=
  ⟨by decide, by decide,
    (((glyph_shifts_zone sample_fontmanager
      { sample_bar with
        m_bar := { sample_settings with align := alignment.RIGHT },
        m_xpos := 21,
        m_actions := [{ active := false, align := alignment.RIGHT, button := 1,
                        start_x := 179, end_x := 196, command := "cmd" }] } 3
      ⟨1, true, 10, 2, 0⟩ (by decide)).1 (by decide)).2.1).trans (by decide)⟩

/-! ## An unrecognized token -/

theorem emit_emit (a b : List directive) (r : parser_result) :
    (r.emit b).emit a = r.emit (a ++ b) := by
  simp [parser_result.emit]

/-- Literal text without a `%` is emitted codepoint by codepoint. -/
theorem interpret_from_text (recognize : String → Option (List directive))
    (l rest : List Char) (h : '%' ∉ l) :
    interpret_from recognize scan_mode.text (l ++ rest) =
      (interpret_from recognize scan_mode.text rest).emit (l.map text_signal) := by
  induction l with
  | nil => simp [parser_result.emit]
  | cons c cs ih =>
    have hc : c ≠ '%' := fun e => h (e ▸ List.mem_cons_self _ _)
    have hcs : '%' ∉ cs := fun m => h (List.mem_cons_of_mem _ m)
    rw [List.cons_append, interpret_from]
    simp only [hc, false_and, if_false]
    rw [ih hcs, emit_emit]
    rfl

/-- Inside the braces the scan reads up to the closing brace and looks the
content up. -/
theorem interpret_from_token (recognize : String → Option (List directive))
    (tok rest acc : List Char) (h : '}' ∉ tok) :
    interpret_from recognize (scan_mode.token acc) (tok ++ '}' :: rest) =
      (match recognize (String.mk (acc ++ tok)) with
       | some ds => (interpret_from recognize scan_mode.text rest).emit ds
       | none =>
         (interpret_from recognize scan_mode.text rest).fail_with (String.mk (acc ++ tok))) := by
  induction tok generalizing acc with
  | nil =>
    rw [List.nil_append, interpret_from]
    simp
  | cons c cs ih =>
    have hc : c ≠ '}' := fun e => h (e ▸ List.mem_cons_self _ _)
    have hcs : '}' ∉ cs := fun m => h (List.mem_cons_of_mem _ m)
    rw [List.cons_append, interpret_from]
    simp only [hc, if_false]
    rw [ih (acc ++ [c]) hcs]
    simp

/-- One unrecognized token between two pieces of literal text: the signals are
those of the text before and of the text after, and the token is reported. -/
theorem interpret_one_bad_token (recognize : String → Option (List directive))
    (b : bar_settings) (pre tok post : List Char)
    (hpre : '%' ∉ pre) (hpost : '%' ∉ post) (htok : '}' ∉ tok)
    (hbad : recognize (String.mk tok) = none) :
    interpret recognize b (String.mk (pre ++ '%' :: '{' :: (tok ++ '}' :: post))) =
      { signals := (pre ++ post).map text_signal, thrown := some (String.mk tok) } := by
  unfold interpret
  dsimp only
  rw [interpret_from_text recognize pre _ hpre, interpret_from]
  have hmem : '}' ∈ '{' :: (tok ++ '}' :: post) := by simp
  simp only [true_and, List.head?_cons, hmem, and_self, if_true]
  rw [interpret_from, interpret_from_token recognize tok post [] htok, List.nil_append, hbad]
  dsimp only
  have hp := interpret_from_text recognize post [] hpost
  rw [List.append_nil] at hp
  rw [hp]
  simp [parser_result.emit, parser_result.fail_with, interpret_from]

theorem text_signal_dispatch (fm : fontmanager) (s : bar) (c : Char) :
    dispatch fm s (text_signal c) = draw_character fm s c.toNat := by
  unfold text_signal
  split <;> rfl

theorem run_signals_text_signal (fm : fontmanager) (l : List Char) (s : bar) :
    run_signals fm s (l.map text_signal) = draw_characters fm s (l.map Char.toNat) := by
  induction l generalizing s with
  | nil => rfl
  | cons c cs ih =>
    have e : run_signals fm s ((c :: cs).map text_signal) =
        run_signals fm (dispatch fm s (text_signal c)) (cs.map text_signal) := rfl
    rw [e, text_signal_dispatch, ih]
    rfl

/-- The log and the glyphs are not touched by `draw_shift`. -/
theorem draw_shift_quiet (s : bar) (x w : Int) :
    (draw_shift s x w).1.log = s.log ∧
    glyph_xs (draw_shift s x w).1.canvas = glyph_xs s.canvas := by
  unfold draw_shift
  dsimp only
  split
  · unfold draw_shift_finish
    dsimp only
    split <;> simp [bar.paint, glyph_xs, glyph_x]
  · split
    · unfold draw_shift_finish
      dsimp only
      split <;> simp [bar.paint, glyph_xs, glyph_x]
    · unfold draw_shift_finish
      dsimp only
      split <;> simp [bar.paint, glyph_xs, glyph_x]

/-- A character with a font adds nothing to the log. -/
theorem draw_character_log (fm : fontmanager) (s : bar) (c : Nat) (font : font_t)
    (hf : fm.match_char s.preferred_font c = some font) :
    (draw_character fm s c).log = s.log := by
  rw [draw_character_matched fm s c font hf]
  show (draw_lines _ _ _).log = _
  rw [(draw_lines_fields _ _ _).2.2.2.2.2]
  show (draw_shift _ _ _).1.log = _
  rw [(draw_shift_quiet _ _ _).1, (select_font_fields s font).2.2.2.2.2.2.1]

/-- A run of characters that all have a font adds nothing to the log. -/
theorem draw_characters_log (fm : fontmanager) (cs : List Nat) (s : bar)
    (hf : ∀ c ∈ cs, fm.match_char s.preferred_font c ≠ none) :
    (draw_characters fm s cs).log = s.log := by
  induction cs generalizing s with
  | nil => rfl
  | cons c cs ih =>
    obtain ⟨font, hfont⟩ := Option.ne_none_iff_exists'.mp (hf c (List.mem_cons_self _ _))
    have hpf : (draw_character fm s c).preferred_font = s.preferred_font :=
      draw_characters_preferred_font fm [c] s
    rw [draw_characters_cons, ih, draw_character_log fm s c font hfont]
    intro d hd
    rw [hpf]
    exact hf d (List.mem_cons_of_mem _ hd)

theorem draw_border_edge_quiet (s : bar) (b : border) :
    (draw_border_edge s b).log = s.log ∧
    glyph_xs (draw_border_edge s b).canvas = glyph_xs s.canvas ∧
    (draw_border_edge s b).m_actions = s.m_actions := by
  cases b <;> simp only [draw_border_edge] <;>
    first
      | exact ⟨trivial, trivial, trivial⟩
      | exact ⟨rfl, rfl, rfl⟩
      | (split <;> simp [bar.paint, glyph_xs, glyph_x])

/-- With no area in the list, the end of a parse adds nothing to the log and
draws no glyph. -/
theorem parse_finish_quiet (s : bar) (h : s.m_actions = []) :
    (parse_finish s).log = s.log ∧
    glyph_xs (parse_finish s).canvas = glyph_xs s.canvas := by
  have h1 : ∀ t : bar, t.m_actions = [] →
      (draw_border t border.ALL).log = t.log ∧
      glyph_xs (draw_border t border.ALL).canvas = glyph_xs t.canvas ∧
      (draw_border t border.ALL).m_actions = [] := by
    intro t ht
    simp only [draw_border]
    have a := draw_border_edge_quiet t border.TOP
    have b := draw_border_edge_quiet (draw_border_edge t border.TOP) border.BOTTOM
    have c := draw_border_edge_quiet
      (draw_border_edge (draw_border_edge t border.TOP) border.BOTTOM) border.LEFT
    have d := draw_border_edge_quiet
      (draw_border_edge (draw_border_edge (draw_border_edge t border.TOP) border.BOTTOM)
        border.LEFT) border.RIGHT
    refine ⟨?_, ?_, ?_⟩
    · rw [d.1, c.1, b.1, a.1]
    · rw [d.2.1, c.2.1, b.2.1, a.2.1]
    · rw [d.2.2, c.2.2, b.2.2, a.2.2, ht]
  have h2 : ∀ t : bar, t.m_actions = [] →
      (flush t).log = t.log ∧ glyph_xs (flush t).canvas = glyph_xs t.canvas := by
    intro t ht
    unfold flush
    simp [bar.paint, ht, flush_actions, glyph_xs, glyph_x]
  unfold parse_finish
  dsimp only
  by_cases ht : s.m_tray.align = alignment.RIGHT ∧ s.m_tray.slots ≠ 0
  · rw [if_pos ht]
    have hq := draw_shift_quiet s s.m_xpos (tray_reservation s.m_tray)
    obtain ⟨-, -, -, -, -, d, hd⟩ := draw_shift_frame s s.m_xpos (tray_reservation s.m_tray)
    have ha : (draw_shift s s.m_xpos (tray_reservation s.m_tray)).1.m_actions = [] := by
      rw [hd, h]; rfl
    have hb := h1 _ ha
    have hf := h2 _ hb.2.2
    exact ⟨by rw [hf.1, hb.1, hq.1], by rw [hf.2, hb.2.1, hq.2]⟩
  · rw [if_neg ht]
    have hb := h1 s h
    have hf := h2 _ hb.2.2
    exact ⟨by rw [hf.1, hb.1], by rw [hf.2, hb.2.1]⟩

theorem parse_reset_log (s : bar) (data : String) : (parse_reset s data).log = s.log := by
  unfold parse_reset
  dsimp only
  split <;> simp [draw_background, bar.paint]

/-- C12: a text made of literal text, one `%{...}` token the table of tokens
does not recognize, and literal text again, such as `abc%{bogus}def`, whose
characters all have a font. The interpreter modelled from the specification
emits the text before and the text after the token and reports the token; the
render draws the glyphs of both pieces of text, from the start cursor on in the
Left zone, and adds exactly one entry to the log, the unrecognized token. -/
theorem unrecognized_token_recovery (recognize : String → Option (List directive))
    (fm : fontmanager) (s : bar) (pre tok post : List Char)
    (hpre : '%' ∉ pre) (hpost : '%' ∉ post) (htok : '}' ∉ tok)
    (hbad : recognize (String.mk tok) = none)
    (hfont : ∀ c ∈ pre ++ post, fm.match_char s.preferred_font c.toNat ≠ none) :
    interpret recognize s.m_bar (String.mk (pre ++ '%' :: '{' :: (tok ++ '}' :: post))) =
      { signals := (pre ++ post).map text_signal, thrown := some (String.mk tok) } ∧
    parse_interpret (interpret recognize) fm
        (parse_reset s (String.mk (pre ++ '%' :: '{' :: (tok ++ '}' :: post))))
        (String.mk (pre ++ '%' :: '{' :: (tok ++ '}' :: post))) =
      (draw_characters fm
        (parse_reset s (String.mk (pre ++ '%' :: '{' :: (tok ++ '}' :: post))))
        ((pre ++ post).map Char.toNat)).warn (log_entry.unrecognized_token (String.mk tok)) ∧
    (render (interpret recognize) fm s
        (String.mk (pre ++ '%' :: '{' :: (tok ++ '}' :: post)))).log =
      s.log ++ [log_entry.unrecognized_token (String.mk tok)] ∧
    glyph_xs (render (interpret recognize) fm s
        (String.mk (pre ++ '%' :: '{' :: (tok ++ '}' :: post)))).canvas =
      glyph_xs s.canvas ++
        run_xs (parse_reset s (String.mk (pre ++ '%' :: '{' :: (tok ++ '}' :: post)))).m_xpos
          (run_widths fm s.preferred_font ((pre ++ post).map Char.toNat)) ∧
    (glyph_xs (render (interpret recognize) fm s
        (String.mk (pre ++ '%' :: '{' :: (tok ++ '}' :: post)))).canvas).length =
      (glyph_xs s.canvas).length + pre.length + post.length := by
  have hi := interpret_one_bad_token recognize
  obtain ⟨hact, ha, -, -, -, -, hpf, hcv⟩ := parse_reset_fields s
    (String.mk (pre ++ '%' :: '{' :: (tok ++ '}' :: post)))
  have hlog := parse_reset_log s (String.mk (pre ++ '%' :: '{' :: (tok ++ '}' :: post)))
  have hint : parse_interpret (interpret recognize) fm
        (parse_reset s (String.mk (pre ++ '%' :: '{' :: (tok ++ '}' :: post))))
        (String.mk (pre ++ '%' :: '{' :: (tok ++ '}' :: post))) =
      (draw_characters fm
        (parse_reset s (String.mk (pre ++ '%' :: '{' :: (tok ++ '}' :: post))))
        ((pre ++ post).map Char.toNat)).warn (log_entry.unrecognized_token (String.mk tok)) := by
    unfold parse_interpret
    dsimp only
    rw [hi _ pre tok post hpre hpost htok hbad]
    dsimp only
    rw [run_signals_text_signal]
  have hf' : ∀ c ∈ (pre ++ post).map Char.toNat,
      fm.match_char (parse_reset s
        (String.mk (pre ++ '%' :: '{' :: (tok ++ '}' :: post)))).preferred_font c ≠ none := by
    intro c hc
    obtain ⟨ch, hch, rfl⟩ := List.mem_map.mp hc
    rw [hpf]
    exact hfont ch hch
  have hcur := draw_characters_left_cursor fm ((pre ++ post).map Char.toNat) _ ha
  have hgl := draw_characters_left_glyphs fm ((pre ++ post).map Char.toNat) _ ha hf'
  have hlg := draw_characters_log fm ((pre ++ post).map Char.toNat) _ hf'
  have hbg : glyph_xs (parse_reset s
      (String.mk (pre ++ '%' :: '{' :: (tok ++ '}' :: post)))).canvas = glyph_xs s.canvas := by
    rw [hcv, glyph_xs_append]
    simp [glyph_xs, glyph_x]
  have hq := parse_finish_quiet
    ((draw_characters fm
      (parse_reset s (String.mk (pre ++ '%' :: '{' :: (tok ++ '}' :: post))))
      ((pre ++ post).map Char.toNat)).warn (log_entry.unrecognized_token (String.mk tok)))
    (by
      show (draw_characters fm _ _).m_actions = []
      rw [hcur.2.2.1, hact])
  have hlogr : (render (interpret recognize) fm s
        (String.mk (pre ++ '%' :: '{' :: (tok ++ '}' :: post)))).log =
      s.log ++ [log_entry.unrecognized_token (String.mk tok)] := by
    unfold render
    rw [hint, hq.1]
    show (draw_characters fm _ _).log ++ _ = _
    rw [hlg, hlog]
  have hglr : glyph_xs (render (interpret recognize) fm s
        (String.mk (pre ++ '%' :: '{' :: (tok ++ '}' :: post)))).canvas =
      glyph_xs s.canvas ++
        run_xs (parse_reset s (String.mk (pre ++ '%' :: '{' :: (tok ++ '}' :: post)))).m_xpos
          (run_widths fm s.preferred_font ((pre ++ post).map Char.toNat)) := by
    unfold render
    rw [hint, hq.2]
    show glyph_xs (draw_characters fm _ _).canvas = _
    rw [hgl, hbg, hpf]
  refine ⟨hi _ pre tok post hpre hpost htok hbad, hint, hlogr, hglr, ?_⟩
  rw [hglr, List.length_append, run_xs_length]
  simp [run_widths, add_assoc]

/-- The text `abc%{bogus}def` on the sample bar: six glyphs, the characters of
`abc` and of `def`, and one error in the log. -/
theorem unrecognized_token_recovery_witness :
    '%' ∉ "abc".data ∧ '%' ∉ "def".data ∧ '}' ∉ "bogus".data ∧
    sample_tokens (String.mk "bogus".data) = none ∧
    (∀ c ∈ "abc".data ++ "def".data,
      sample_fontmanager.match_char sample_bar.preferred_font c.toNat ≠ none) ∧
    String.mk ("abc".data ++ '%' :: '{' :: ("bogus".data ++ '}' :: "def".data)) =
      "abc%{bogus}def" ∧
    (render (interpret sample_tokens) sample_fontmanager sample_bar
        (String.mk ("abc".data ++ '%' :: '{' :: ("bogus".data ++ '}' :: "def".data)))).log =
      sample_bar.log ++ [log_entry.unrecognized_token (String.mk "bogus".data)] ∧
    (parse (interpret sample_tokens) sample_fontmanager sample_bar "abc%{bogus}def"
      false).canvas.filterMap glyph_char = [97, 98, 99, 100, 101, 102] ∧
    (parse (interpret sample_tokens) sample_fontmanager sample_bar "abc%{bogus}def"
      false).log = [log_entry.unrecognized_token "bogus"] :=
  ⟨by decide, by decide, by decide, by decide, by decide, by decide,
    (unrecognized_token_recovery sample_tokens sample_fontmanager sample_bar
      "abc".data "bogus".data "def".data (by decide) (by decide) (by decide) (by decide)
      (by decide)).2.2.1, by decide, by decide⟩

/-! ## The ends of the closed areas stay in order -/

theorem any_open_false (l : List action_block) :
    any_open l = false ↔ ∀ a ∈ l, a.active = false := by
  simp [any_open]

/-- A translation keeps the closed areas in order. -/
theorem closed_ordered_map_shift (z : alignment) (d : Int) (l : List action_block)
    (h : closed_ordered l) : closed_ordered (l.map (shift_action z d)) := by
  intro b hb hact
  obtain ⟨a, ha, rfl⟩ := List.mem_map.mp hb
  have hf := shift_action_fields z d a
  rw [hf.2.2.2.1] at hact
  have := h a ha hact
  have hwid := hf.2.2.2.2.1
  omega

/-- A translation leaves the open areas alone, and they stay behind a cursor
that does not move back. -/
theorem open_behind_map_shift (z : alignment) (d x y : Int) (l : List action_block)
    (hxy : x ≤ y) (h : open_behind x l) : open_behind y (l.map (shift_action z d)) := by
  intro b hb hact
  obtain ⟨a, ha, rfl⟩ := List.mem_map.mp hb
  have hf := shift_action_fields z d a
  rw [hf.2.2.2.1] at hact
  rw [shift_action_active z d a hact]
  exact ⟨le_trans (h a ha hact).1 hxy, (h a ha hact).2⟩

/-- An area opened at or before the cursor in one of the three zones is closed
with its ends in order. -/
theorem close_action_ordered (s : bar) (a : action_block) (hx : a.start_x ≤ s.m_xpos)
    (hz : a.align ≠ alignment.NONE) :
    (close_action s a).start_x ≤ (close_action s a).end_x := by
  unfold close_action
  cases hal : a.align with
  | NONE => exact absurd hal hz
  | LEFT => simpa using hx
  | CENTER =>
    have hne : alignment.CENTER ≠ alignment.LEFT := by decide
    simp only [hal, hne, if_false, if_true]
    omega
  | RIGHT =>
    have hne : alignment.RIGHT ≠ alignment.LEFT := by decide
    have hne' : alignment.RIGHT ≠ alignment.CENTER := by decide
    simp only [hal, hne, hne', if_false, if_true]
    omega

/-- Every area the scan of a close leaves in the list was there before, or is
the finalized form of an area that was there, open. -/
theorem close_scan_mem (s : bar) (btn : mousebtn) (l : List action_block) (k : Nat)
    (b : action_block) (hb : b ∈ close_scan s btn k l) :
    b ∈ l ∨ ∃ a ∈ l, a.active = true ∧ b = close_action s a := by
  induction k with
  | zero => exact Or.inl hb
  | succ k ih =>
    unfold close_scan at hb
    cases hg : l.get? k with
    | none =>
      rw [hg] at hb
      exact Or.inl hb
    | some a =>
      rw [hg] at hb
      dsimp only at hb
      have hmem : a ∈ l := List.mem_iff_getElem?.mpr ⟨k, by simpa using hg⟩
      by_cases hc : (!a.active || a.button != btn) = true
      · rw [if_pos hc] at hb
        exact ih hb
      · rw [if_neg hc] at hb
        have hact : a.active = true := by
          cases h : a.active
          · simp [h] at hc
          · rfl
        rcases List.mem_or_eq_of_mem_set hb with h | h
        · exact Or.inl h
        · exact Or.inr ⟨a, hmem, hact, h⟩

/-- A state with the same areas, cursor and zone keeps the invariant. -/
theorem region_invariant_of_eq {s t : bar} (h : region_invariant s)
    (ha : t.m_actions = s.m_actions) (hx : t.m_xpos = s.m_xpos)
    (hz : t.m_bar.align = s.m_bar.align) : region_invariant t := by
  unfold region_invariant at h ⊢
  rw [ha, hx, hz]
  exact h

theorem region_invariant_alignment_change (s : bar) (z : alignment)
    (h : region_invariant s) (hz : z ≠ alignment.NONE)
    (hopen : z = s.m_bar.align ∨ any_open s.m_actions = false) :
    region_invariant (on_alignment_change s z) := by
  unfold on_alignment_change
  by_cases he : z = s.m_bar.align
  · rw [if_pos he]
    exact h
  · rw [if_neg he]
    have hno : ∀ a ∈ s.m_actions, a.active = false := by
      rcases hopen with h1 | h1
      · exact absurd h1 he
      · exact (any_open_false _).mp h1
    have hob : ∀ x : Int, open_behind x s.m_actions := by
      intro x a ha hact
      rw [hno a ha] at hact
      cases hact
    dsimp only
    split
    · exact ⟨h.1, hob _, hz⟩
    · split
      · exact ⟨h.1, hob _, hz⟩
      · exact ⟨h.1, hob _, hz⟩

theorem region_invariant_open (s : bar) (btn : mousebtn) (cmd : String)
    (h : region_invariant s) : region_invariant (on_action_block_open s btn cmd) := by
  have ho := on_action_block_open_actions s btn cmd
  unfold region_invariant
  rw [ho.1, ho.2.1, ho.2.2.1]
  refine ⟨?_, ?_, h.2.2⟩
  · intro a ha hact
    rcases List.mem_append.mp ha with h1 | h1
    · exact h.1 a h1 hact
    · rw [List.mem_singleton.mp h1] at hact
      cases hact
  · intro a ha hact
    rcases List.mem_append.mp ha with h1 | h1
    · exact h.2.1 a h1 hact
    · rw [List.mem_singleton.mp h1]
      exact ⟨le_refl _, h.2.2⟩

theorem region_invariant_close (s : bar) (btn : mousebtn) (h : region_invariant s) :
    region_invariant (on_action_block_close s btn) := by
  unfold region_invariant on_action_block_close
  dsimp only
  refine ⟨?_, ?_, h.2.2⟩
  · intro b hb hact
    rcases close_scan_mem s btn s.m_actions _ b hb with h1 | ⟨a, ha, hopen, rfl⟩
    · exact h.1 b h1 hact
    · exact close_action_ordered s a (h.2.1 a ha hopen).1 (h.2.1 a ha hopen).2
  · intro b hb hact
    rcases close_scan_mem s btn s.m_actions _ b hb with h1 | ⟨a, -, -, rfl⟩
    · exact h.2.1 b h1 hact
    · rw [(close_action_fields s a).1] at hact
      cases hact

theorem region_invariant_pixel_offset (s : bar) (px : Int) (h : region_invariant s)
    (hpx : 0 ≤ px) : region_invariant (on_pixel_offset s px) := by
  obtain ⟨hx, hb, -, -, -, d, hd⟩ := draw_shift_frame s s.m_xpos px
  unfold region_invariant on_pixel_offset
  dsimp only
  rw [hd, hx, hb]
  exact ⟨closed_ordered_map_shift _ _ _ h.1,
    open_behind_map_shift _ _ _ _ _ (by omega) h.2.1, h.2.2⟩

theorem corrected_width_nonneg (z : alignment) (w : Int) (hw : 0 ≤ w) :
    0 ≤ corrected_width z w := by
  rw [(corrected_width_eq z w).1]
  split
  · split <;> omega
  · exact hw

theorem region_invariant_draw_character (fm : fontmanager) (s : bar) (c : Nat)
    (hw : ∀ font ch, 0 ≤ fm.char_width font ch) (h : region_invariant s) :
    region_invariant (draw_character fm s c) := by
  obtain ⟨hb, -, d, hd⟩ := draw_character_frame fm s c
  have hc := (draw_character_cursor fm s c).1
  have hadv : s.m_xpos ≤ (draw_character fm s c).m_xpos := by
    rw [hc]
    cases hf : fm.match_char s.preferred_font c with
    | none => simp
    | some font =>
      dsimp only
      have := corrected_width_nonneg s.m_bar.align _ (hw font c)
      omega
  unfold region_invariant
  rw [hd, hb]
  exact ⟨closed_ordered_map_shift _ _ _ h.1,
    open_behind_map_shift _ _ _ _ _ hadv h.2.1, h.2.2⟩

/-- One admitted signal keeps the invariant, whichever handler it reaches. -/
theorem region_invariant_dispatch (fm : fontmanager) (s : bar) (d : directive)
    (hw : ∀ font ch, 0 ≤ fm.char_width font ch) (h : region_invariant s)
    (hd : step_admitted s d = true) : region_invariant (dispatch fm s d) := by
  cases d with
  | alignment_change z =>
    simp only [step_admitted, Bool.and_eq_true, bne_iff_ne, ne_eq, Bool.or_eq_true,
      beq_iff_eq, Bool.not_eq_true'] at hd
    exact region_invariant_alignment_change s z h hd.1 hd.2
  | attribute_set a =>
    refine region_invariant_of_eq h ?_ ?_ ?_ <;>
      (simp only [dispatch, on_attribute_set]; split <;> rfl)
  | attribute_unset a =>
    refine region_invariant_of_eq h ?_ ?_ ?_ <;>
      (simp only [dispatch, on_attribute_unset]; split <;> rfl)
  | attribute_toggle a => exact region_invariant_of_eq h rfl rfl rfl
  | action_block_open b c => exact region_invariant_open s b c h
  | action_block_close b => exact region_invariant_close s b h
  | color_change g c =>
    refine region_invariant_of_eq h ?_ ?_ ?_ <;>
      (simp only [dispatch, on_color_change]; split <;> rfl)
  | font_change i => exact region_invariant_of_eq h rfl rfl rfl
  | pixel_offset px =>
    have hpx : 0 ≤ px := by simpa [step_admitted] using hd
    exact region_invariant_pixel_offset s px h hpx
  | ascii_text_write c => exact region_invariant_draw_character fm s c hw h
  | unicode_text_write c => exact region_invariant_draw_character fm s c hw h

/-- A prefix of an admitted sequence is admitted. -/
theorem run_admitted_take (fm : fontmanager) (ds : List directive) (s : bar) (n : Nat)
    (h : run_admitted fm s ds = true) : run_admitted fm s (ds.take n) = true := by
  induction ds generalizing s n with
  | nil => simp [run_admitted]
  | cons d ds ih =>
    cases n with
    | zero => simp [run_admitted]
    | succ n =>
      simp only [run_admitted, Bool.and_eq_true] at h
      simp only [List.take_succ_cons, run_admitted, Bool.and_eq_true]
      exact ⟨h.1, ih _ n h.2⟩

/-- An admitted sequence keeps the invariant. -/
theorem region_invariant_run (fm : fontmanager) (ds : List directive) (s : bar)
    (hw : ∀ font ch, 0 ≤ fm.char_width font ch) (h : region_invariant s)
    (hd : run_admitted fm s ds = true) : region_invariant (run_signals fm s ds) := by
  induction ds generalizing s with
  | nil => exact h
  | cons d ds ih =>
    simp only [run_admitted, Bool.and_eq_true] at hd
    have e : run_signals fm s (d :: ds) = run_signals fm (dispatch fm s d) ds := rfl
    rw [e]
    exact ih _ (region_invariant_dispatch fm s d hw h hd.1) hd.2

/-- The start of a parse has the invariant: there is no area and the zone is
Left. -/
theorem region_invariant_parse_reset (s : bar) (data : String) :
    region_invariant (parse_reset s data) := by
  obtain ⟨hact, ha, -⟩ := parse_reset_fields s data
  unfold region_invariant closed_ordered open_behind
  rw [hact, ha]
  refine ⟨?_, ?_, by decide⟩
  · intro a ha'
    cases ha'
  · intro a ha'
    cases ha'

theorem flush_actions_m_actions (l : List action_block) (s : bar) :
    (flush_actions s l).m_actions = s.m_actions := by
  induction l generalizing s with
  | nil => rfl
  | cons a l ih =>
    unfold flush_actions
    split
    · rw [ih]; rfl
    · exact ih s

/-- The end of a parse keeps the closed areas in order. -/
theorem closed_ordered_parse_finish (s : bar) (h : closed_ordered s.m_actions) :
    closed_ordered (parse_finish s).m_actions := by
  have hb : ∀ t : bar, (draw_border t border.ALL).m_actions = t.m_actions := by
    intro t
    simp only [draw_border]
    rw [(draw_border_edge_quiet _ border.RIGHT).2.2, (draw_border_edge_quiet _ border.LEFT).2.2,
      (draw_border_edge_quiet _ border.BOTTOM).2.2, (draw_border_edge_quiet _ border.TOP).2.2]
  have hf : ∀ t : bar, (flush t).m_actions = t.m_actions := by
    intro t
    unfold flush
    dsimp only
    rw [flush_actions_m_actions]
    rfl
  unfold parse_finish
  dsimp only
  rw [hf, hb]
  split
  · obtain ⟨-, -, -, -, -, d, hd⟩ := draw_shift_frame s s.m_xpos (tray_reservation s.m_tray)
    rw [hd]
    exact closed_ordered_map_shift _ _ _ h
  · exact h

/-- C21: take a font collaborator that measures no negative width, a state in
which the closed areas have `start_x <= end_x`, the open ones start at or
before the cursor and the zone is one of the three zones, as at the start of
every parse, and a sequence of signals in which no pixel offset is negative and
no zone change to another zone comes while an area is open. Then after every
step of the sequence, whether it opens an area, closes one in any of the three
zones, draws a glyph or applies a pixel offset, with the translations
`draw_shift` does on the way, every closed area of the list has
`start_x <= end_x`; the same holds after the end of the parse. -/
theorem closed_areas_stay_ordered (fm : fontmanager) (t : bar) (ds : List directive)
    (hw : ∀ font ch, 0 ≤ fm.char_width font ch)
    (hinv : region_invariant t)
    (hds : run_admitted fm t ds = true) :
    (∀ n, ∀ a ∈ (run_signals fm t (ds.take n)).m_actions,
      a.active = false → a.start_x ≤ a.end_x) ∧
    (∀ n, region_invariant (run_signals fm t (ds.take n))) ∧
    (∀ a ∈ (run_signals fm t ds).m_actions, a.active = false → a.start_x ≤ a.end_x) ∧
    (∀ a ∈ (parse_finish (run_signals fm t ds)).m_actions,
      a.active = false → a.start_x ≤ a.end_x) ∧
    (∀ (s : bar) (data : String), region_invariant (parse_reset s data)) := by
  have hpre : ∀ n, region_invariant (run_signals fm t (ds.take n)) := fun n =>
    region_invariant_run fm (ds.take n) t hw hinv (run_admitted_take fm ds t n hds)
  have hall := region_invariant_run fm ds t hw hinv hds
  exact ⟨fun n => (hpre n).1, hpre, hall.1, closed_ordered_parse_finish _ hall.1,
    region_invariant_parse_reset⟩

/-- A parse of the sample bar that enters the Center zone, moves by 3 pixels,
opens an area, draws a glyph, moves by 5 pixels, closes the area and draws
another glyph: the area ends up as `[90, 105]`. -/
theorem closed_areas_stay_ordered_witness :
    (∀ font ch, 0 ≤ sample_fontmanager.char_width font ch) ∧
    region_invariant (parse_reset sample_bar "x") ∧
    run_admitted sample_fontmanager (parse_reset sample_bar "x")
      [directive.alignment_change alignment.CENTER, directive.pixel_offset 3,
       directive.action_block_open 1 "a", directive.ascii_text_write 2,
       directive.pixel_offset 5, directive.action_block_close 1,
       directive.ascii_text_write 1] = true ∧
    (∀ n, ∀ a ∈ (run_signals sample_fontmanager (parse_reset sample_bar "x")
        ([directive.alignment_change alignment.CENTER, directive.pixel_offset 3,
          directive.action_block_open 1 "a", directive.ascii_text_write 2,
          directive.pixel_offset 5, directive.action_block_close 1,
          directive.ascii_text_write 1].take n)).m_actions,
      a.active = false → a.start_x ≤ a.end_x) ∧
    (run_signals sample_fontmanager (parse_reset sample_bar "x")
      [directive.alignment_change alignment.CENTER, directive.pixel_offset 3,
       directive.action_block_open 1 "a", directive.ascii_text_write 2,
       directive.pixel_offset 5, directive.action_block_close 1,
       directive.ascii_text_write 1]).m_actions =
      [{ active := false, align := alignment.CENTER, button := 1, start_x := 90, end_x := 105,
         command := "a" }] := by
  have hw : ∀ font ch, 0 ≤ sample_fontmanager.char_width font ch := by
    intro font ch
    simp only [sample_fontmanager]
    omega
  have hinv := region_invariant_parse_reset sample_bar "x"
  exact ⟨hw, hinv, by decide,
    (closed_areas_stay_ordered sample_fontmanager (parse_reset sample_bar "x") _ hw hinv
      (by decide)).1, by decide⟩

end polybar
